import Mathlib

/-!
# Intel MediaSDK QSV decoder driver (`libavcodec/qsvdec.c`)

A shallow embedding of the buffer pooling, timestamp reconciliation and
decode orchestration code of `libavcodec/qsvdec.c`, followed by theorems
about it.

Conventions of the embedding.

* A C pointer is an `Option Nat`: `none` is `NULL`, `some a` is the address
  `a`.  The nodes of a pool (`QSVDecBitstreamList`, `QSVDecSurfaceList`) are
  numbered by allocation: the k-th node ever allocated for a pool has
  address k.  A pool is the list of its live nodes in `pool`-link order
  (nodes are only appended at the tail and only freed all at once), together
  with the address of its first node (`bs_base`, `surf_base`).  Freeing a pool
  moves the base past the freed nodes, so a stale address never resolves
  again and a dereference of it is reported as `Fault.dangling`.
* Undefined behaviour of the C code (null or dangling dereference, write
  past an allocation, double free) makes the embedded function return
  `Except.error`.
* The accelerator (Intel Media SDK), the allocator and `ff_get_buffer` are
  the environment: every answer they give is an argument of the embedded
  function (`FeedEnv`, `IterEnv`, `InitEnv`, ...).  Nothing is assumed about
  the answers unless a theorem says so.
* `ff_qsv_error` lives in `qsv.c`, which is not part of the sources at hand;
  it is a parameter `E : Int → Int` of every function that calls it.
* `log` is a ghost field: the list of calls made to the accelerator, oldest
  first.  No embedded function reads it.
* `nb_sync` is a C `int` that counts the entries of the sync queue and is
  reset by `free_sync`; it is embedded as unbounded `Int`.  `ts_cnt` is a C
  `int` that is incremented once per recorded packet and never reset, and
  `busymsec` is compared with the user option `timeout` (range
  `0 .. INT_MAX`): their increments wrap at 32 bits (`wrap32`), which is what
  the compiled code does at `INT_MAX`.
* `nb_ts` is a C `int` that only `realloc_ts` writes, with the slot count of
  an allocation that succeeded.  `av_realloc_array` refuses every request of
  `INT_MAX / 16` slots or more, so the doubling in `put_dts` stays far below
  `INT_MAX`; `nb_ts` is embedded as unbounded `Nat`, and an allocation is
  taken to succeed only when the environment says so (`allocOk`).
-/

namespace QSV

/-! ## Constants of libavutil and of the Media SDK headers -/

/-- The value `AV_NOPTS_VALUE`, `INT64_C(0x8000000000000000)`. -/
def AV_NOPTS_VALUE : Int := -9223372036854775808

/-- The value `AVERROR(ENOMEM)`. -/
def AVERROR_ENOMEM : Int := -12

/-- The value `AVERROR_BUG` of Libav's `libavutil/error.h`, `(-0x5fb8aabe)`. -/
def AVERROR_BUG : Int := -1605937854

def MFX_ERR_NONE : Int := 0
def MFX_ERR_MORE_DATA : Int := -10
def MFX_ERR_MORE_SURFACE : Int := -11
def MFX_ERR_INCOMPATIBLE_VIDEO_PARAM : Int := -14
def MFX_WRN_DEVICE_BUSY : Int := 2
def MFX_WRN_VIDEO_PARAM_CHANGED : Int := 3

/-- The value `MFX_TIMESTAMP_UNKNOWN`, `(mfxU64)-1`. -/
def MFX_TIMESTAMP_UNKNOWN : Nat := 18446744073709551615

def MFX_PICSTRUCT_PROGRESSIVE : Nat := 1
def MFX_PICSTRUCT_FIELD_TFF : Nat := 2
def MFX_PICSTRUCT_FIELD_REPEATED : Nat := 16
def MFX_PICSTRUCT_FRAME_DOUBLING : Nat := 32
def MFX_PICSTRUCT_FRAME_TRIPLING : Nat := 64

/-- Conversion `int64_t → mfxU64`. -/
def toU64 (x : Int) : Nat := (x % 18446744073709551616).toNat

/-- Conversion `mfxU64 → int64_t`. -/
def toI64 (n : Nat) : Int :=
  if n % 18446744073709551616 < 9223372036854775808 then ((n % 18446744073709551616 : Nat) : Int)
  else ((n % 18446744073709551616 : Nat) : Int) - 18446744073709551616

/-- Wrap-around of a C `int` (32 bits, two's complement). -/
def wrap32 (x : Int) : Int := (x + 2147483648) % 4294967296 - 2147483648

/-! ## Data model -/

/-- Ways in which the C code can leave defined behaviour, and `noResponse`:
the environment script of a call ran out before the call finished. -/
inductive Fault where
  | nullDeref
  | dangling
  | outOfBounds
  | doubleFree
  | noResponse
deriving DecidableEq, Repr

/-- The struct `QSVDecTimeStamp`. -/
structure QSVDecTimeStamp where
  pts : Int
  dts : Int
deriving DecidableEq, Repr

/-- The fields of `AVPacket` that the decoder reads. -/
structure AVPacket where
  data : Nat
  size : Nat
  pts : Int
  dts : Int
deriving DecidableEq, Repr

/-- The fields of `mfxBitstream` that the decoder uses. -/
structure mfxBitstream where
  Data : Nat := 0
  DataOffset : Nat := 0
  DataLength : Nat := 0
  MaxLength : Nat := 0
  TimeStamp : Nat := 0
deriving DecidableEq, Repr

/-- A node of the bitstream pool.  The `pool` link is the list order of
`bs_pool`; `pkt` is `none` when `pkt.data` is `NULL`. -/
structure QSVDecBitstreamList where
  bs : mfxBitstream := {}
  pkt : Option AVPacket := none
  next : Option Nat := none
deriving DecidableEq, Repr

/-- State of the `AVFrame` behind `surface.Data.MemId`. -/
inductive FrameRef where
  | null
  | live (hasData : Bool)
  | freed
deriving DecidableEq, Repr

/-- The fields of `mfxFrameInfo` that the decoder copies to a frame. -/
structure mfxFrameInfo where
  PicStruct : Nat := 0
  AspectRatioW : Nat := 0
  AspectRatioH : Nat := 0
deriving DecidableEq, Repr

/-- A node of the surface pool: `surface.Data.Locked`, `surface.Data.MemId`,
`surface.Data.TimeStamp`, `surface.Info`, `sync` and the `next` link of the
sync queue.  The `pool` link is the list order of `surf_pool`. -/
structure QSVDecSurfaceList where
  Locked : Nat := 0
  MemId : FrameRef := FrameRef.null
  TimeStamp : Nat := 0
  Info : mfxFrameInfo := {}
  sync : Nat := 0
  next : Option Nat := none
deriving DecidableEq, Repr

/-- Calls made to the accelerator and to `av_usleep` (ghost log). -/
inductive Event where
  | MFXVideoDECODE_Close
  | MFXVideoDECODE_DecodeHeader (bs : Option Nat)
  | MFXVideoDECODE_DecodeFrameAsync (bs : Option Nat) (worksurf : Nat) (ret : Int) (sync : Nat)
  | av_usleep
  | MFXVideoCORE_SyncOperation (sync : Nat)
  | MFXVideoDECODE_Reset
deriving DecidableEq, Repr

/-- The struct `QSVDecContext`. -/
structure QSVDecContext where
  async_depth : Int := 0
  timeout : Int := 0
  ts_by_qsv : Bool := false
  initialized : Bool := false
  last_ret : Int := 0
  param : mfxFrameInfo := {}
  NumFrameMin : Nat := 0
  NumFrameSuggested : Nat := 0
  ts : List QSVDecTimeStamp := []
  nb_ts : Nat := 0
  ts_cnt : Int := 0
  bs_base : Nat := 0
  bs_pool : List QSVDecBitstreamList := []
  pending_dec : Option Nat := none
  pending_dec_end : Option Nat := none
  bs : Option Nat := none
  reinit : Option Nat := none
  surf_base : Nat := 0
  surf_pool : List QSVDecSurfaceList := []
  pending_sync : Option Nat := none
  pending_sync_end : Option Nat := none
  nb_sync : Int := 0
  log : List Event := []
deriving DecidableEq, Repr

/-! ## Timestamp tracker -/

/-- The function `realloc_ts`; `allocOk` is whether `av_realloc_array`
returns a block.  Entries below `old_nmemb` that the old block did not have
are uninitialised memory, shown as `⟨0, 0⟩`. -/
def realloc_ts (allocOk : Bool) (q : QSVDecContext) (old_nmemb new_nmemb : Nat) :
    Int × QSVDecContext :=
  if allocOk then
    (0, { q with
          ts := (List.range new_nmemb).map
                  (fun i => if old_nmemb ≤ i then ⟨AV_NOPTS_VALUE, AV_NOPTS_VALUE⟩
                            else q.ts.getD i ⟨0, 0⟩)
          nb_ts := new_nmemb })
  else (AVERROR_ENOMEM, q)

/-- The scan `for (i = ..; i < nb; i++) if (ts[i].pts == pts) break;` with
`n` iterations left, starting at `i`.  The result is the final `i`. -/
def scan_ts (ts : List QSVDecTimeStamp) (pts : Int) : Nat → Nat → Except Fault Nat
  | 0, i => .ok i
  | n + 1, i =>
    match ts[i]? with
    | none => .error Fault.outOfBounds
    | some s => if s.pts = pts then .ok i else scan_ts ts pts n (i + 1)

/-- The function `get_dts`.  The result is the return value, the value
written to `*dts` (if any) and the context. -/
def get_dts (q : QSVDecContext) (pts : Int) :
    Except Fault (Int × Option Int × QSVDecContext) :=
  if q.ts_by_qsv then .ok (0, some pts, q)
  else if pts = AV_NOPTS_VALUE then .ok (0, some AV_NOPTS_VALUE, q)
  else
    match scan_ts q.ts pts q.nb_ts 0 with
    | .error e => .error e
    | .ok i =>
      if i = q.nb_ts then .ok (AVERROR_BUG, none, q)
      else
        match q.ts[i]? with
        | none => .error Fault.outOfBounds
        | some s => .ok (0, some s.dts, { q with ts := q.ts.set i { s with pts := AV_NOPTS_VALUE } })

/-- The tail of `put_dts`: `ts[i].pts = pts; ts[i].dts = dts; ts_cnt++`. -/
def store_ts (q : QSVDecContext) (i : Nat) (pts dts : Int) :
    Except Fault (Int × QSVDecContext) :=
  if i < q.ts.length then
    .ok (0, { q with ts := q.ts.set i ⟨pts, dts⟩, ts_cnt := wrap32 (q.ts_cnt + 1) })
  else .error Fault.outOfBounds

/-- The function `put_dts`; `allocOk` is the answer of the allocator in
`realloc_ts`. -/
def put_dts (allocOk : Bool) (q : QSVDecContext) (pts dts : Int) :
    Except Fault (Int × QSVDecContext) :=
  if q.ts_by_qsv then .ok (0, { q with ts_cnt := wrap32 (q.ts_cnt + 1) })
  else if pts = AV_NOPTS_VALUE then .ok (0, q)
  else
    match scan_ts q.ts AV_NOPTS_VALUE q.nb_ts 0 with
    | .error e => .error e
    | .ok i =>
      if i = q.nb_ts then
        match realloc_ts allocOk q q.nb_ts
            (if q.nb_ts ≠ 0 then q.nb_ts * 2 else q.NumFrameSuggested) with
        | (ret, q1) => if ret < 0 then .ok (ret, q1) else store_ts q1 i pts dts
      else store_ts q i pts dts

/-! ## Bitstream pool and pending-input queue -/

/-- Dereference of a `QSVDecBitstreamList *` (equivalently of the address
of its `bs` member). -/
def bs_at (q : QSVDecContext) (a : Nat) : Option QSVDecBitstreamList :=
  if a < q.bs_base then none else q.bs_pool[a - q.bs_base]?

/-- Store through a `QSVDecBitstreamList *` that resolves. -/
def bs_put (q : QSVDecContext) (a : Nat) (n : QSVDecBitstreamList) : QSVDecContext :=
  { q with bs_pool := q.bs_pool.set (a - q.bs_base) n }

/-- The function `set_bitstream_data` on the node `list`; `pktRef` is the
answer of `av_packet_ref`: `none` when it fails, else the data pointer of
the new reference. -/
def set_bitstream_data (pktRef : Option Nat) (q : QSVDecContext)
    (list : QSVDecBitstreamList) (pkt : AVPacket) : Int × QSVDecBitstreamList :=
  match pktRef with
  | none => (AVERROR_ENOMEM, { list with pkt := none })
  | some d =>
    (0, { list with
          pkt := some { pkt with data := d }
          bs := { Data := d
                  DataOffset := 0
                  DataLength := pkt.size
                  MaxLength := pkt.size
                  TimeStamp :=
                    if q.ts_by_qsv && (decide (q.ts_cnt > 1) || decide (pkt.pts = AV_NOPTS_VALUE))
                    then MFX_TIMESTAMP_UNKNOWN else toU64 pkt.pts } })

/-- A bitstream node is free when `bs.MaxLength` is zero (the negation of
the scan condition in `get_bitstream_from_packet`). -/
def bs_free (n : QSVDecBitstreamList) : Bool := n.bs.MaxLength == 0

/-- The function `get_bitstream_from_packet`; `mallocOk` is whether
`av_mallocz` returns a node when one is needed.  The result is the `bs`
address returned (`none` for `NULL`) and the context. -/
def get_bitstream_from_packet (mallocOk : Bool) (pktRef : Option Nat) (q : QSVDecContext)
    (pkt : AVPacket) : Option Nat × QSVDecContext :=
  let i := q.bs_pool.findIdx bs_free
  if i = q.bs_pool.length ∧ mallocOk = false then (none, q)
  else
    let pool := if i = q.bs_pool.length then q.bs_pool ++ [({} : QSVDecBitstreamList)] else q.bs_pool
    let r := set_bitstream_data pktRef q (pool.getD i ({} : QSVDecBitstreamList)) pkt
    (if r.1 < 0 then none else some (q.bs_base + i), { q with bs_pool := pool.set i r.2 })

/-- The function `put_pending_bitstream`. -/
def put_pending_bitstream (q : QSVDecContext) (bs : Nat) : Except Fault QSVDecContext :=
  match bs_at q bs with
  | none => .ok q
  | some _ =>
    match q.pending_dec_end with
    | some e =>
      match bs_at q e with
      | none => .error Fault.dangling
      | some en =>
        .ok { bs_put q e { en with next := some bs } with pending_dec_end := some bs }
    | none => .ok { q with pending_dec := some bs, pending_dec_end := some bs }

/-- The function `get_pending_bitstream`. -/
def get_pending_bitstream (q : QSVDecContext) : Except Fault (Nat × QSVDecContext) :=
  match q.pending_dec with
  | none => .error Fault.nullDeref
  | some a =>
    match bs_at q a with
    | none => .error Fault.dangling
    | some n =>
      let q1 := { q with pending_dec := n.next }
      let q2 := if q1.pending_dec = none then { q1 with pending_dec_end := none } else q1
      .ok (a, bs_put q2 a { n with next := none })

/-- The function `free_bitstream_pool`. -/
def free_bitstream_pool (q : QSVDecContext) : QSVDecContext :=
  { q with bs_base := q.bs_base + q.bs_pool.length, bs_pool := [] }

/-! ## Surface pool and sync queue -/

/-- Dereference of a `QSVDecSurfaceList *` (equivalently of the address of
its `surface` member). -/
def surf_at (q : QSVDecContext) (a : Nat) : Option QSVDecSurfaceList :=
  if a < q.surf_base then none else q.surf_pool[a - q.surf_base]?

/-- Store through a `QSVDecSurfaceList *` that resolves. -/
def surf_put (q : QSVDecContext) (a : Nat) (n : QSVDecSurfaceList) : QSVDecContext :=
  { q with surf_pool := q.surf_pool.set (a - q.surf_base) n }

/-- The function `set_surface_data` on the node `list`; `frameOk` is whether
`av_frame_alloc` returns a frame, `bufRet` the return value of
`ff_get_buffer`. -/
def set_surface_data (frameOk : Bool) (bufRet : Int) (q : QSVDecContext)
    (list : QSVDecSurfaceList) : Except Fault (Int × QSVDecSurfaceList) :=
  match list.MemId with
  | FrameRef.freed => .error Fault.dangling
  | FrameRef.null =>
    if frameOk then
      if bufRet < 0 then .ok (bufRet, list)
      else .ok (0, { list with MemId := FrameRef.live true, Info := q.param })
    else .ok (AVERROR_ENOMEM, list)
  | FrameRef.live true => .ok (0, { list with Info := q.param })
  | FrameRef.live false =>
    if bufRet < 0 then .ok (bufRet, { list with MemId := FrameRef.freed })
    else .ok (0, { list with MemId := FrameRef.live true, Info := q.param })

/-- A surface node is free when it is neither locked nor pending-sync (the
negation of the scan condition in `get_surface`). -/
def surf_free (n : QSVDecSurfaceList) : Bool := !(n.Locked != 0 || n.sync != 0)

/-- The function `get_surface`; `mallocOk` is whether `av_mallocz` returns
a node when one is needed.  The result is the surface address returned
(`none` for `NULL`) and the context. -/
def get_surface (mallocOk frameOk : Bool) (bufRet : Int) (q : QSVDecContext) :
    Except Fault (Option Nat × QSVDecContext) :=
  let i := q.surf_pool.findIdx surf_free
  if i = q.surf_pool.length ∧ mallocOk = false then .ok (none, q)
  else
    let pool := if i = q.surf_pool.length then q.surf_pool ++ [({} : QSVDecSurfaceList)] else q.surf_pool
    match set_surface_data frameOk bufRet q
        { pool.getD i ({} : QSVDecSurfaceList) with next := none } with
    | .error e => .error e
    | .ok r =>
      .ok (if r.1 < 0 then none else some (q.surf_base + i), { q with surf_pool := pool.set i r.2 })

/-- The function `release_surface`. -/
def release_surface (q : QSVDecContext) (surf : Nat) : QSVDecContext :=
  match surf_at q surf with
  | none => q
  | some n => surf_put q surf { n with sync := 0 }

/-- The function `free_surface_pool`: every node and its frame are freed. -/
def free_surface_pool (q : QSVDecContext) : Except Fault QSVDecContext :=
  if q.surf_pool.any (fun n => n.MemId == FrameRef.freed) then .error Fault.doubleFree
  else .ok { q with surf_base := q.surf_base + q.surf_pool.length, surf_pool := [] }

/-- The function `put_sync`; `surf` is `none` for a `NULL` surface. -/
def put_sync (q : QSVDecContext) (surf : Option Nat) (sync : Nat) :
    Except Fault QSVDecContext :=
  match surf with
  | none => .ok q
  | some a =>
    match surf_at q a with
    | none => .ok q
    | some n =>
      let q1 := surf_put q a { n with sync := sync, next := none }
      match q1.pending_sync_end with
      | some e =>
        match surf_at q1 e with
        | none => .error Fault.dangling
        | some en =>
          .ok { surf_put q1 e { en with next := some a } with
                pending_sync_end := some a, nb_sync := q1.nb_sync + 1 }
      | none =>
        .ok { q1 with pending_sync := some a, pending_sync_end := some a,
                      nb_sync := q1.nb_sync + 1 }

/-- The function `get_sync`.  The result is `*surf`, `*sync` and the
context. -/
def get_sync (q : QSVDecContext) : Except Fault (Nat × Nat × QSVDecContext) :=
  match q.pending_sync with
  | none => .error Fault.nullDeref
  | some a =>
    match surf_at q a with
    | none => .error Fault.dangling
    | some n =>
      let q1 := { q with pending_sync := n.next }
      let q2 := if q1.pending_sync = none then { q1 with pending_sync_end := none } else q1
      let q3 := { q2 with nb_sync := q2.nb_sync - 1 }
      .ok (a, n.sync, surf_put q3 a { n with next := none })

/-- The function `free_sync`. -/
def free_sync (q : QSVDecContext) : QSVDecContext :=
  { q with pending_sync := none, pending_sync_end := none, nb_sync := 0 }

/-! ## Environment of a call -/

/-- Answers of the accelerator to one `ff_qsv_dec_init_decoder`: the
status of `MFXVideoDECODE_DecodeHeader` and the frame info it writes to
`q->param` (if it writes), the status of `MFXVideoDECODE_QueryIOSurf` and
the request it fills in, the status of `MFXVideoDECODE_Init`. -/
structure InitEnv where
  header : Int := 0
  info : Option mfxFrameInfo := none
  query : Int := 0
  NumFrameMin : Nat := 0
  NumFrameSuggested : Nat := 0
  init : Int := 0

/-- Answers of the allocator to one `get_bitstream_from_packet`. -/
structure BsEnv where
  mallocOk : Bool := true
  pktRef : Option Nat := some 1

/-- What `MFXVideoDECODE_DecodeFrameAsync` writes to `*surface_out` and
`*syncp`, and the timestamp and frame info it leaves in that surface. -/
structure OutFrame where
  surf : Option Nat
  sync : Nat
  TimeStamp : Nat := 0
  Info : mfxFrameInfo := {}

/-- Environment of one iteration of the submission loop: the `Locked`
counter the accelerator shows for each surface address when `get_surface`
scans the pool, the allocator answers for `get_surface`, and the answer of
`MFXVideoDECODE_DecodeFrameAsync` (status, bytes consumed from the
bitstream, output written or `none` when the out parameters are left as
they were). -/
structure IterEnv where
  Locked : Nat → Nat := fun _ => 0
  mallocOk : Bool := true
  frameOk : Bool := true
  bufRet : Int := 0
  status : Int
  consumed : Nat := 0
  out : Option OutFrame := none

/-- Environment of one `ff_qsv_dec_frame`. -/
structure FeedEnv where
  reinit : InitEnv := {}
  initBs : BsEnv := {}
  init : InitEnv := {}
  tsAllocOk : Bool := true
  curBs : BsEnv := {}
  iters : List IterEnv := []
  sync : Int := 0

/-! ## Session -/

/-- The function `ff_qsv_dec_init_decoder`.  The fields of `avctx` it sets
are not part of the embedding. -/
def ff_qsv_dec_init_decoder (E : Int → Int) (env : InitEnv) (q : QSVDecContext)
    (bs : Option Nat) : Except Fault (Int × QSVDecContext) :=
  if (match bs with | some a => (bs_at q a).isNone | none => false) then
    .error Fault.dangling
  else
    let q1 := { q with log := q.log ++ [Event.MFXVideoDECODE_DecodeHeader bs]
                       param := env.info.getD q.param }
    if env.header < 0 then .ok (E env.header, q1)
    else
      let q2 := { q1 with NumFrameMin := env.NumFrameMin
                          NumFrameSuggested := env.NumFrameSuggested }
      if env.query < 0 then .ok (E env.query, q2)
      else
        .ok (if env.init ≠ 0 then E env.init else env.init,
             { q2 with last_ret := MFX_ERR_MORE_DATA, initialized := true })

/-- The function `reinit_decoder`. -/
def reinit_decoder (E : Int → Int) (env : InitEnv) (q : QSVDecContext) :
    Except Fault QSVDecContext :=
  let q1 := if q.initialized then
              { q with log := q.log ++ [Event.MFXVideoDECODE_Close] } else q
  let q2 := { q1 with initialized := false }
  match free_surface_pool q2 with
  | .error e => .error e
  | .ok q3 =>
    match ff_qsv_dec_init_decoder E env (free_sync q3) q3.bs with
    | .error e => .error e
    | .ok r => .ok { r.2 with reinit := none }

/-- The function `init_decoder`. -/
def init_decoder (E : Int → Int) (benv : BsEnv) (env : InitEnv) (q : QSVDecContext)
    (avpkt : AVPacket) : Except Fault QSVDecContext :=
  if avpkt.size ≠ 0 then
    match get_bitstream_from_packet benv.mallocOk benv.pktRef q avpkt with
    | (none, q1) => .ok q1
    | (some a, q1) =>
      match ff_qsv_dec_init_decoder E env q1 (some a) with
      | .error e => .error e
      | .ok r =>
        match bs_at r.2 a with
        | none => .error Fault.dangling
        | some n => .ok (bs_put r.2 a { n with bs := { n.bs with MaxLength := 0 } })
  else .ok q

/-! ## The feed call -/

/-- The fields of the output `AVFrame` that `ff_qsv_dec_frame` sets. -/
structure AVFrame where
  pts : Int
  pkt_pts : Int
  pkt_dts : Int
  repeat_pict : Int
  top_field_first : Int
  interlaced_frame : Int
  sample_aspect_ratio_num : Nat
  sample_aspect_ratio_den : Nat
deriving DecidableEq, Repr

/-- What a call of `ff_qsv_dec_frame` hands back: its return value,
`*got_frame` and the frame. -/
structure FeedResult where
  ret : Int
  got_frame : Nat
  frame : Option AVFrame
deriving DecidableEq, Repr

/-- The local variables of `ff_qsv_dec_frame` that live across the
submission loop, with the context. -/
structure LoopSt where
  q : QSVDecContext
  inbs : Option Nat
  curbs : Option Nat
  ret : Int
  flush : Bool
  busymsec : Int
  outsurf : Option Nat
  outsync : Nat
deriving DecidableEq, Repr

/-- The loop condition of the `do ... while`. -/
def retry_status (ret : Int) : Bool :=
  ret == MFX_ERR_MORE_SURFACE || ret == MFX_ERR_MORE_DATA || ret == MFX_WRN_DEVICE_BUSY ||
  ret == MFX_WRN_VIDEO_PARAM_CHANGED || ret == MFX_ERR_INCOMPATIBLE_VIDEO_PARAM

/-- First statement of the loop body:
`if (inbs && !inbs->DataLength) { inbs->MaxLength = 0; inbs = NULL; }`. -/
def drop_consumed (st : LoopSt) : Except Fault LoopSt :=
  match st.inbs with
  | none => .ok st
  | some a =>
    match bs_at st.q a with
    | none => .error Fault.dangling
    | some n =>
      if n.bs.DataLength = 0 then
        .ok { st with q := bs_put st.q a { n with bs := { n.bs with MaxLength := 0 } }
                      inbs := none }
      else .ok st

/-- The test `inbs && inbs->DataLength > 0`. -/
def inbs_has_data (st : LoopSt) : Except Fault Bool :=
  match st.inbs with
  | none => .ok false
  | some a =>
    match bs_at st.q a with
    | none => .error Fault.dangling
    | some n => .ok (decide (n.bs.DataLength > 0))

/-- The `if (ret == MFX_ERR_MORE_DATA) ... else if ...` chain of the loop
body.  The flag is `true` when the chain ends in `break`. -/
def select_input (size : Nat) (st : LoopSt) : Except Fault (LoopSt × Bool) :=
  if st.ret = MFX_ERR_MORE_DATA then
    if st.flush then .ok (st, true)
    else
      match inbs_has_data st with
      | .error e => .error e
      | .ok true => .ok (st, false)
      | .ok false =>
        if st.q.pending_dec.isSome then
          match get_pending_bitstream st.q with
          | .error e => .error e
          | .ok r => .ok ({ st with q := r.2, inbs := some r.1 }, false)
        else if st.curbs.isSome then .ok ({ st with inbs := st.curbs, curbs := none }, false)
        else if size = 0 then .ok ({ st with flush := true }, false)
        else .ok (st, true)
  else if st.ret = MFX_WRN_VIDEO_PARAM_CHANGED then .ok (st, false)
  else if st.ret = MFX_ERR_INCOMPATIBLE_VIDEO_PARAM then
    if st.flush then .ok (st, true)
    else .ok ({ st with flush := true, q := { st.q with reinit := st.inbs } }, false)
  else .ok (st, false)

/-- The loop body up to and including `if (flush) inbs = NULL;`.  The flag
is `true` when the body ended in `break`. -/
def loop_head (size : Nat) (st : LoopSt) : Except Fault (LoopSt × Bool) :=
  match drop_consumed st with
  | .error e => .error e
  | .ok st1 =>
    match select_input size st1 with
    | .error e => .error e
    | .ok (st2, true) => .ok (st2, true)
    | .ok (st2, false) => .ok ({ st2 with inbs := if st2.flush then none else st2.inbs }, false)

/-- The accelerator shows its current `Locked` counters: node `k` of the
list gets `f (a + k)`. -/
def set_locked (f : Nat → Nat) : Nat → List QSVDecSurfaceList → List QSVDecSurfaceList
  | _, [] => []
  | a, n :: rest => { n with Locked := f a } :: set_locked f (a + 1) rest

/-- The accelerator consumes `c` bytes of the bitstream it was given. -/
def accel_consume (q : QSVDecContext) (inbs : Option Nat) (c : Nat) : QSVDecContext :=
  match inbs with
  | none => q
  | some a =>
    match bs_at q a with
    | none => q
    | some n =>
      bs_put q a { n with bs := { n.bs with DataOffset := n.bs.DataOffset + min c n.bs.DataLength
                                            DataLength := n.bs.DataLength - c } }

/-- The accelerator fills in the surface it outputs. -/
def accel_output (q : QSVDecContext) (o : OutFrame) : QSVDecContext :=
  match o.surf with
  | none => q
  | some a =>
    match surf_at q a with
    | none => q
    | some n => surf_put q a { n with TimeStamp := o.TimeStamp, Info := o.Info }

/-- The loop body from `worksurf = get_surface(avctx, q)` to its end,
followed by the loop condition.  The flag is `true` when the loop is left
(by `break` or because the condition is false). -/
def loop_tail (it : IterEnv) (st : LoopSt) : Except Fault (LoopSt × Bool) :=
  let q0 := { st.q with surf_pool := set_locked it.Locked st.q.surf_base st.q.surf_pool }
  match get_surface it.mallocOk it.frameOk it.bufRet q0 with
  | .error e => .error e
  | .ok (none, q1) => .ok ({ st with q := q1 }, true)
  | .ok (some w, q1) =>
    let q2 := accel_consume q1 st.inbs it.consumed
    let q3 := match it.out with
              | none => q2
              | some o => accel_output q2 o
    let q4 := { q3 with log := q3.log ++ [Event.MFXVideoDECODE_DecodeFrameAsync st.inbs w
                  it.status (match it.out with | none => 0 | some o => o.sync)] }
    let st1 := { st with q := q4, ret := it.status
                         outsurf := match it.out with | none => st.outsurf | some o => o.surf
                         outsync := match it.out with | none => st.outsync | some o => o.sync }
    if it.status = MFX_WRN_DEVICE_BUSY then
      if st.busymsec > q4.timeout then .ok (st1, true)
      else
        .ok ({ st1 with q := { q4 with log := q4.log ++ [Event.av_usleep] }
                        busymsec := wrap32 (st.busymsec + 1) }, false)
    else .ok ({ st1 with busymsec := 0 }, !retry_status it.status)

/-- The `do ... while` loop of `ff_qsv_dec_frame`.  Each iteration that
reaches `get_surface` takes the next entry of the script; the result is the
state at the loop exit. -/
def dec_loop (size : Nat) : List IterEnv → LoopSt → Except Fault LoopSt
  | [], st =>
    match loop_head size st with
    | .error e => .error e
    | .ok (st1, true) => .ok st1
    | .ok (_, false) => .error Fault.noResponse
  | it :: rest, st =>
    match loop_head size st with
    | .error e => .error e
    | .ok (st1, true) => .ok st1
    | .ok (st1, false) =>
      match loop_tail it st1 with
      | .error e => .error e
      | .ok (st2, true) => .ok st2
      | .ok (st2, false) => dec_loop size rest st2

/-- The guard of `reinit_decoder` in `ff_qsv_dec_frame`:
`q->reinit && q->last_ret == MFX_ERR_MORE_DATA && !q->nb_sync`. -/
def reinit_due (q : QSVDecContext) : Bool :=
  q.reinit.isSome && q.last_ret == MFX_ERR_MORE_DATA && q.nb_sync == 0

/-- The function `ff_qsv_dec_frame` from its start to the entry of the
loop.  `Sum.inl` is an early `return`, `Sum.inr` the state in which the loop
is entered. -/
def feed_pre (E : Int → Int) (env : FeedEnv) (q : QSVDecContext) (avpkt : AVPacket) :
    Except Fault (Sum (FeedResult × QSVDecContext) LoopSt) :=
  match (if reinit_due q then reinit_decoder E env.reinit q else .ok q) with
  | .error e => .error e
  | .ok q1 =>
    match (if q1.initialized then .ok q1 else init_decoder E env.initBs env.init q1 avpkt) with
    | .error e => .error e
    | .ok q2 =>
      if q2.initialized = false then .ok (Sum.inl (⟨avpkt.size, 0, none⟩, q2))
      else
        let enter (curbs : Option Nat) (q3 : QSVDecContext) : LoopSt :=
          { q := q3, inbs := q3.bs, curbs := curbs, ret := q3.last_ret
            flush := q3.reinit.isSome, busymsec := 0, outsurf := none, outsync := 0 }
        if avpkt.size ≠ 0 then
          match put_dts env.tsAllocOk q2 avpkt.pts avpkt.dts with
          | .error e => .error e
          | .ok (ret, q3) =>
            if ret < 0 then .ok (Sum.inl (⟨ret, 0, none⟩, q3))
            else
              match get_bitstream_from_packet env.curBs.mallocOk env.curBs.pktRef q3 avpkt with
              | (none, q4) => .ok (Sum.inl (⟨AVERROR_ENOMEM, 0, none⟩, q4))
              | (some c, q4) => .ok (Sum.inr (enter (some c) q4))
        else .ok (Sum.inr (enter none q2))

/-- The frame `ff_qsv_dec_frame` emits from the surface node `n`. -/
def frame_of (n : QSVDecSurfaceList) (pts dts : Int) : AVFrame :=
  { pts := pts
    pkt_pts := pts
    pkt_dts := dts
    repeat_pict :=
      if n.Info.PicStruct &&& MFX_PICSTRUCT_FRAME_TRIPLING ≠ 0 then 4
      else if n.Info.PicStruct &&& MFX_PICSTRUCT_FRAME_DOUBLING ≠ 0 then 2
      else if n.Info.PicStruct &&& MFX_PICSTRUCT_FIELD_REPEATED ≠ 0 then 1 else 0
    top_field_first := if n.Info.PicStruct &&& MFX_PICSTRUCT_FIELD_TFF ≠ 0 then 1 else 0
    interlaced_frame := if n.Info.PicStruct &&& MFX_PICSTRUCT_PROGRESSIVE ≠ 0 then 0 else 1
    sample_aspect_ratio_num := n.Info.AspectRatioW
    sample_aspect_ratio_den := n.Info.AspectRatioH }

/-- The guard of the drain block:
`q->pending_sync && (q->nb_sync >= q->req.NumFrameMin || !size || q->reinit)`. -/
def drain_due (size : Nat) (q : QSVDecContext) : Bool :=
  q.pending_sync.isSome &&
    (decide (q.nb_sync ≥ (q.NumFrameMin : Int)) || size == 0 || q.reinit.isSome)

/-- The drain block of `ff_qsv_dec_frame` and the final `return`; `ret` is
the value of the local `ret` when the block is reached, `syncRet` the
status of `MFXVideoCORE_SyncOperation`. -/
def feed_drain (E : Int → Int) (syncRet : Int) (size : Nat) (ret : Int) (q : QSVDecContext) :
    Except Fault (FeedResult × QSVDecContext) :=
  if drain_due size q then
    match get_sync q with
    | .error e => .error e
    | .ok (surf, sync, q1) =>
      let q2 := { q1 with log := q1.log ++ [Event.MFXVideoCORE_SyncOperation sync] }
      if syncRet < 0 then .ok (⟨E syncRet, 0, none⟩, q2)
      else
        match surf_at q2 surf with
        | none => .error Fault.dangling
        | some n =>
          match get_dts q2 (toI64 n.TimeStamp) with
          | .error e => .error e
          | .ok (r, dts, q3) =>
            if r < 0 then .ok (⟨r, 0, none⟩, q3)
            else
              match n.MemId with
              | FrameRef.null => .error Fault.nullDeref
              | FrameRef.freed => .error Fault.dangling
              | FrameRef.live _ =>
                let q4 := surf_put q3 surf { n with MemId := FrameRef.live false }
                .ok (⟨if r < 0 then r else size, 1,
                      some (frame_of n (toI64 n.TimeStamp) (dts.getD 0))⟩,
                     release_surface q4 surf)
  else .ok (⟨if ret < 0 then ret else size, 0, none⟩, q)

/-- The function `ff_qsv_dec_frame` from the loop exit to its end. -/
def feed_post (E : Int → Int) (syncRet : Int) (size : Nat) (st : LoopSt) :
    Except Fault (FeedResult × QSVDecContext) :=
  let q1 := { st.q with last_ret := st.ret, bs := st.inbs }
  match (match st.curbs with
         | some c => put_pending_bitstream q1 c
         | none => .ok q1) with
  | .error e => .error e
  | .ok q2 =>
    match (if st.outsync ≠ 0 then put_sync q2 st.outsurf st.outsync else .ok q2) with
    | .error e => .error e
    | .ok q3 =>
      feed_drain E syncRet size (if st.ret = MFX_ERR_MORE_DATA then 0 else E st.ret) q3

/-- The function `ff_qsv_dec_frame`. -/
def ff_qsv_dec_frame (E : Int → Int) (env : FeedEnv) (q : QSVDecContext) (avpkt : AVPacket) :
    Except Fault (FeedResult × QSVDecContext) :=
  match feed_pre E env q avpkt with
  | .error e => .error e
  | .ok (Sum.inl r) => .ok r
  | .ok (Sum.inr st0) =>
    match dec_loop avpkt.size env.iters st0 with
    | .error e => .error e
    | .ok st => feed_post E env.sync avpkt.size st

/-! ## Flush and close -/

/-- The function `ff_qsv_dec_flush`; `resetRet` is the status of
`MFXVideoDECODE_Reset`. -/
def ff_qsv_dec_flush (E : Int → Int) (resetRet : Int) (q : QSVDecContext) :
    Except Fault (Int × QSVDecContext) :=
  let q1 := { q with log := q.log ++ [Event.MFXVideoDECODE_Reset]
                     last_ret := MFX_ERR_MORE_DATA }
  match q1.bs with
  | none => .error Fault.nullDeref
  | some a =>
    match bs_at q1 a with
    | none => .error Fault.dangling
    | some n =>
      let q2 := bs_put q1 a { n with bs := { n.bs with DataOffset := 0, DataLength := 0 } }
      match free_surface_pool q2 with
      | .error e => .error e
      | .ok q3 =>
        .ok (E resetRet, free_bitstream_pool { free_sync q3 with ts := [] })

/-! ## Auxiliary definitions used in statements -/

/-- The pool `get_surface` works on: the old pool, with a zeroed node
appended when no node is free. -/
def surf_pool_ext (q : QSVDecContext) : List QSVDecSurfaceList :=
  if q.surf_pool.findIdx surf_free = q.surf_pool.length then q.surf_pool ++ [({} : QSVDecSurfaceList)]
  else q.surf_pool

/-- The pool `get_bitstream_from_packet` works on: the old pool, with a
zeroed node appended when no node is free. -/
def bs_pool_ext (q : QSVDecContext) : List QSVDecBitstreamList :=
  if q.bs_pool.findIdx bs_free = q.bs_pool.length then q.bs_pool ++ [({} : QSVDecBitstreamList)]
  else q.bs_pool

/-- A tracker with one occupied and one free slot. -/
def q_a : QSVDecContext :=
  { NumFrameSuggested := 2, ts := [⟨7, 3⟩, ⟨AV_NOPTS_VALUE, 0⟩], nb_ts := 2 }

/-- A surface pool whose first node is pending-sync and whose second node
is free. -/
def q_s : QSVDecContext :=
  { initialized := true
    surf_pool := [{ MemId := FrameRef.live true, sync := 5 }, {}]
    pending_sync := some 0, pending_sync_end := some 0, nb_sync := 1 }

/-- The context `q_s` after `get_surface`. -/
def q_s1 : QSVDecContext :=
  { initialized := true
    surf_pool := [{ MemId := FrameRef.live true, sync := 5 }, { MemId := FrameRef.live true }]
    pending_sync := some 0, pending_sync_end := some 0, nb_sync := 1 }

/-- A bitstream pool whose first node is bound and whose second node is
free. -/
def q_b : QSVDecContext :=
  { initialized := true
    bs_pool := [{ bs := { Data := 1, DataLength := 3, MaxLength := 3 } }, {}]
    bs := some 0 }

/-- Contexts that the codec init functions (`qsv_dec_init` of
`qsvdec_h264.c` and `qsvdec_mpeg2.c`) hand to the first feed call: pools,
queues and tracker are zeroed; the options, `ts_by_qsv` and, when the
session was opened from extradata, what `ff_qsv_dec_init_decoder` stored are
free. -/
def Initial (q : QSVDecContext) : Prop :=
  q = { async_depth := q.async_depth, timeout := q.timeout, ts_by_qsv := q.ts_by_qsv
        initialized := q.initialized, last_ret := q.last_ret, param := q.param
        NumFrameMin := q.NumFrameMin, NumFrameSuggested := q.NumFrameSuggested
        log := q.log }

/-- Contexts reachable from an initial context by feed calls that return. -/
inductive Reachable (E : Int → Int) : QSVDecContext → Prop where
  | init (q : QSVDecContext) : Initial q → Reachable E q
  | feed (env : FeedEnv) (q : QSVDecContext) (avpkt : AVPacket) (r : FeedResult)
      (q' : QSVDecContext) :
      Reachable E q → ff_qsv_dec_frame E env q avpkt = .ok (r, q') → Reachable E q'

/-- The `next` link of the surface node at address `a`, when the address
resolves. -/
def nx (q : QSVDecContext) (a : Nat) : Option (Option Nat) := (surf_at q a).map (·.next)

/-- A walk along `next` links: starting from the pointer `p`, the nodes
visited are exactly `L`, and the link of the last one is `t`. -/
def SChain (f : Nat → Option (Option Nat)) : Option Nat → List Nat → Option Nat → Prop
  | p, [], t => p = t
  | p, a :: rest, t => p = some a ∧ ∃ v, f a = some v ∧ SChain f v rest t

/-- The sync-queue invariant on a link map `f`, head `p`, tail pointer `e`
and counter `nb`: the walk from `p` visits at most `nb` nodes and then ends,
or it visits at most `nb - 1` nodes and the last one, which is `e`, links to
itself. -/
def SyncInvF (f : Nat → Option (Option Nat)) (p e : Option Nat) (nb : Int) : Prop :=
  ∃ L : List Nat,
    (SChain f p L none ∧ (L.length : Int) ≤ nb) ∨
    (∃ z, SChain f p L (some z) ∧ L.getLast? = some z ∧ e = some z ∧ (L.length : Int) + 1 ≤ nb)

/-- The fields of the context that the sync-queue invariant reads. -/
def sfields (q : QSVDecContext) :
    Nat × List QSVDecSurfaceList × Option Nat × Option Nat × Int :=
  (q.surf_base, q.surf_pool, q.pending_sync, q.pending_sync_end, q.nb_sync)

/-- The context carried by the result of `feed_pre`. -/
def pre_ctx : Sum (FeedResult × QSVDecContext) LoopSt → QSVDecContext
  | Sum.inl r => r.2
  | Sum.inr st => st.q

/-- Loop invariant behind the reinit input: a pending reinit implies
flushing, and flushing implies that no input bitstream is current. -/
def FlushInv (st : LoopSt) : Prop :=
  (st.q.reinit.isSome = true → st.flush = true) ∧ (st.flush = true → st.inbs = none)

/-- Invariant behind the reinit input: while a reinit is pending, `q->bs`
is `NULL`. -/
def ReinitInv (q : QSVDecContext) : Prop := q.reinit.isSome = true → q.bs = none

/-- The bitstream pointer `p` is `NULL` or points into the bitstream pool. -/
def bs_live (q : QSVDecContext) (p : Option Nat) : Prop :=
  ∀ a, p = some a → q.bs_base ≤ a ∧ a < q.bs_base + q.bs_pool.length

/-- No surface node of the pool carries a freed frame. -/
def no_freed (q : QSVDecContext) : Prop :=
  ∀ n ∈ q.surf_pool, n.MemId ≠ FrameRef.freed

/-- The fields that the drain guard reads besides `reinit`. -/
def dfields (q : QSVDecContext) : Option Nat × Int × Nat :=
  (q.pending_sync, q.nb_sync, q.NumFrameMin)

/-- What the busy-timeout theorem needs of a loop state: the bitstream
pointers the call may follow are `NULL` or live, no surface carries a freed
frame, no completion handle is held, the fields read by the drain guard are
`s` and the timeout option is `t`. -/
def BusyOk (t : Int) (s : Option Nat × Int × Nat) (st : LoopSt) : Prop :=
  bs_live st.q st.inbs ∧ bs_live st.q st.curbs ∧ bs_live st.q st.q.pending_dec_end ∧
    no_freed st.q ∧ st.outsync = 0 ∧ dfields st.q = s ∧ st.q.timeout = t

/-- Answers of a busy accelerator with a surface available: the status is
device-busy, the out parameters are left alone and the allocations of
`get_surface` succeed. -/
def busy_iter (it : IterEnv) : Prop :=
  it.status = MFX_WRN_DEVICE_BUSY ∧ it.out = none ∧ it.mallocOk = true ∧ it.frameOk = true ∧
    0 ≤ it.bufRet

/-- Pointer validity at the loop entry: `inbs`, `curbs`, `pending_dec` and
`pending_dec_end` are `NULL` or point into the bitstream pool, and no surface
carries a freed frame. -/
def LoopEntryOk (st : LoopSt) : Prop :=
  bs_live st.q st.inbs ∧ bs_live st.q st.curbs ∧ bs_live st.q st.q.pending_dec ∧
    bs_live st.q st.q.pending_dec_end ∧ no_freed st.q

/-- Whether a logged call returned a completion handle. -/
def is_handle : Event → Bool
  | Event.MFXVideoDECODE_DecodeFrameAsync _ _ _ sync => sync != 0
  | _ => false

/-- Whether a logged call is a wait on a completion handle. -/
def is_wait : Event → Bool
  | Event.MFXVideoCORE_SyncOperation _ => true
  | _ => false

/-- Number of completion handles the accelerator returned from
submissions. -/
def handles (log : List Event) : Nat := log.countP is_handle

/-- Number of waits on a completion handle. -/
def waits (log : List Event) : Nat := log.countP is_wait

/-- The sync queue is exactly the list `L` of surface addresses: the walk
from `pending_sync` visits `L` and ends, the nodes are pairwise distinct and
pending-sync, `nb_sync` is the length of `L`, `pending_sync_end` is its last
node, and the queue is empty while the session is not initialized. -/
def SyncExact (q : QSVDecContext) (L : List Nat) : Prop :=
  SChain (nx q) q.pending_sync L none ∧ L.Nodup ∧
    (∀ a ∈ L, ∃ n, surf_at q a = some n ∧ n.sync ≠ 0) ∧
    q.nb_sync = (L.length : Int) ∧ q.pending_sync_end = L.getLast? ∧
    (q.initialized = false → L = [])

/-- Conservation invariant: every completion handle returned so far has
been waited on or is in the sync queue. -/
def ConsInv (q : QSVDecContext) : Prop :=
  ∃ L, SyncExact q L ∧ handles q.log = waits q.log + L.length

/-- An answer of the accelerator that carries a completion handle has a
status that ends the submission loop. -/
def handle_ends_loop (it : IterEnv) : Bool :=
  match it.out with
  | some o => o.sync == 0 || !retry_status it.status
  | none => true

/-- The surface that comes with the completion handle held at the loop exit
is a node of the pool that is not pending-sync. -/
def out_surface_fresh (st : LoopSt) : Bool :=
  st.outsync == 0 ||
    match st.outsurf with
    | some a =>
      (match surf_at st.q a with
       | some n => n.sync == 0
       | none => false)
    | none => false

/-- The accelerator behaves in one feed call: completion handles come only
with loop-ending statuses and for a fresh pool surface. -/
def good_call (E : Int → Int) (env : FeedEnv) (q : QSVDecContext) (avpkt : AVPacket) : Bool :=
  env.iters.all handle_ends_loop &&
    match feed_pre E env q avpkt with
    | .ok (Sum.inr st0) =>
      (match dec_loop avpkt.size env.iters st0 with
       | .ok st => out_surface_fresh st
       | .error _ => true)
    | _ => true

/-- Every wait the call started yielded a frame: no wait and no timestamp
resolution failed. -/
def no_failed_wait (q q' : QSVDecContext) (r : FeedResult) : Bool :=
  waits q'.log == waits q.log + r.got_frame

/-- A sequence of feed calls, each with its environment and packet.  The
result is the list of what the calls handed back and the final context. -/
def feed_run (E : Int → Int) :
    QSVDecContext → List (FeedEnv × AVPacket) → Except Fault (List FeedResult × QSVDecContext)
  | q, [] => .ok ([], q)
  | q, (env, avpkt) :: rest =>
    match ff_qsv_dec_frame E env q avpkt with
    | .error e => .error e
    | .ok (r, q1) =>
      match feed_run E q1 rest with
      | .error e => .error e
      | .ok (rs, q2) => .ok (r :: rs, q2)

/-- Every call of the sequence satisfies `good_call` and
`no_failed_wait`. -/
def good_run (E : Int → Int) : QSVDecContext → List (FeedEnv × AVPacket) → Bool
  | _, [] => true
  | q, (env, avpkt) :: rest =>
    good_call E env q avpkt &&
      match ff_qsv_dec_frame E env q avpkt with
      | .ok (r, q1) => no_failed_wait q q1 r && good_run E q1 rest
      | .error _ => true

/-- Total number of frames emitted by a sequence of calls. -/
def emitted (rs : List FeedResult) : Nat := (rs.map (·.got_frame)).sum

/-- Loop invariant for conservation: the sync queue is `L`, `w` waits were
made, and `k` completion handles were returned apart from the one held in
`outsync`. -/
def LoopCons (L : List Nat) (k w : Nat) (st : LoopSt) : Prop :=
  SyncExact st.q L ∧ st.q.initialized = true ∧ waits st.q.log = w ∧
    handles st.q.log = k + (if st.outsync = 0 then 0 else 1)

/-- Whether a logged call is a submission to the accelerator. -/
def is_submit : Event → Bool
  | Event.MFXVideoDECODE_DecodeFrameAsync _ _ _ _ => true
  | _ => false

/-- Whether a logged call is a one-millisecond sleep. -/
def is_sleep : Event → Bool
  | Event.av_usleep => true
  | _ => false

/-- Number of submissions to the accelerator. -/
def submissions (log : List Event) : Nat := log.countP is_submit

/-- Number of one-millisecond sleeps. -/
def sleeps (log : List Event) : Nat := log.countP is_sleep

/-- The function `ff_qsv_dec_frame` from the loop exit up to the drain
block: `q->last_ret = ret; q->bs = inbs;`, the optional
`put_pending_bitstream` and the optional `put_sync`. -/
def feed_queue (st : LoopSt) : Except Fault QSVDecContext :=
  let q1 := { st.q with last_ret := st.ret, bs := st.inbs }
  match (match st.curbs with
         | some c => put_pending_bitstream q1 c
         | none => .ok q1) with
  | .error e => .error e
  | .ok q2 => if st.outsync ≠ 0 then put_sync q2 st.outsurf st.outsync else .ok q2

/-- Whether `get_dts` returns success for `pts`. -/
def resolves (q : QSVDecContext) (pts : Int) : Bool :=
  match get_dts q pts with
  | .ok (r, _, _) => decide (0 ≤ r)
  | .error _ => false

/-- The sync queue holds exactly the entries `L` (surface address and
completion handle), oldest first: the walk from `pending_sync` along the
`next` links visits the surfaces of `L` and ends, they are pairwise distinct,
each carries its handle in `sync`, `nb_sync` is the length of `L` and
`pending_sync_end` is the last surface (`NULL` when `L` is empty). -/
def QueueIs (q : QSVDecContext) (L : List (Nat × Nat)) : Prop :=
  SChain (nx q) q.pending_sync (L.map Prod.fst) none ∧ (L.map Prod.fst).Nodup ∧
    (∀ x ∈ L, ∃ n, surf_at q x.1 = some n ∧ n.sync = x.2) ∧
    q.nb_sync = (L.length : Int) ∧ q.pending_sync_end = (L.map Prod.fst).getLast?

/-- Successive calls `put_sync(q, s, h)` for the entries `(s, h)` of a
list. -/
def put_syncs : QSVDecContext → List (Nat × Nat) → Except Fault QSVDecContext
  | q, [] => .ok q
  | q, (s, h) :: rest =>
    match put_sync q (some s) h with
    | .error e => .error e
    | .ok q1 => put_syncs q1 rest

/-- The results of `n` successive calls of `get_sync`, and the final
context. -/
def get_syncs : QSVDecContext → Nat → Except Fault (List (Nat × Nat) × QSVDecContext)
  | q, 0 => .ok ([], q)
  | q, n + 1 =>
    match get_sync q with
    | .error e => .error e
    | .ok (s, h, q1) =>
      match get_syncs q1 n with
      | .error e => .error e
      | .ok (l, q2) => .ok ((s, h) :: l, q2)

/-- The `next` link of the bitstream node at address `a`, when the address
resolves. -/
def bnx (q : QSVDecContext) (a : Nat) : Option (Option Nat) := (bs_at q a).map (·.next)

/-- The pending-input queue holds exactly the entries `L` (descriptor
address and the packet it wraps), oldest first: the walk from `pending_dec`
along the `next` links visits the descriptors of `L` and ends, they are
pairwise distinct, each is a bound node of the pool (non-zero `MaxLength`)
that wraps its packet, `pending_dec_end` is the last one, and the nodes
outside the queue have a `NULL` link. -/
def PendIs (q : QSVDecContext) (L : List (Nat × AVPacket)) : Prop :=
  SChain (bnx q) q.pending_dec (L.map Prod.fst) none ∧ (L.map Prod.fst).Nodup ∧
    (∀ x ∈ L, ∃ n, bs_at q x.1 = some n ∧ n.bs.MaxLength ≠ 0 ∧ n.pkt = some x.2) ∧
    q.pending_dec_end = (L.map Prod.fst).getLast? ∧
    (∀ a n, bs_at q a = some n → a ∉ L.map Prod.fst → n.next = none)

/-- The bitstream pointer `p` is `NULL`, or it points to a bound node of
the pool that is not in the queue `L`. -/
def CurIs (q : QSVDecContext) (L : List (Nat × AVPacket)) (p : Option Nat) : Prop :=
  ∀ a, p = some a → a ∉ L.map Prod.fst ∧ ∃ n, bs_at q a = some n ∧ n.bs.MaxLength ≠ 0

/-- Between calls: the pending-input queue is `L` and the in-progress
input `q->bs` is outside it. -/
def CallOrd (q : QSVDecContext) (L : List (Nat × AVPacket)) : Prop :=
  PendIs q L ∧ CurIs q L q.bs

/-- Inside the loop: the pending-input queue is `L`, the current input is
outside it, and the new descriptor `curbs`, while it is held, is a bound
node outside the queue, different from the current input, that wraps the
packet `C`. -/
def LoopOrd (L : List (Nat × AVPacket)) (C : Option AVPacket) (st : LoopSt) : Prop :=
  PendIs st.q L ∧ CurIs st.q L st.inbs ∧
    ((st.curbs = none ∧ C = none) ∨
     ∃ c p n, st.curbs = some c ∧ C = some p ∧ c ∉ L.map Prod.fst ∧ st.inbs ≠ some c ∧
       bs_at st.q c = some n ∧ n.bs.MaxLength ≠ 0 ∧ n.pkt = some p)

/-- The packet of the descriptor that the loop head makes the current
input: the one it pops from the pending-input queue or the new
descriptor. -/
def head_pick (size : Nat) (st : LoopSt) : List AVPacket :=
  match drop_consumed st with
  | .ok st1 =>
    (match select_input size st1 with
     | .ok (st2, _) =>
       if st2.inbs = st1.inbs then []
       else
         (match st2.inbs with
          | some a => ((bs_at st2.q a).bind (·.pkt)).toList
          | none => [])
     | .error _ => [])
  | .error _ => []

/-- The packets of the descriptors made current during the submission
loop, in order. -/
def loop_picks (size : Nat) : List IterEnv → LoopSt → List AVPacket
  | [], st => head_pick size st
  | it :: rest, st =>
    head_pick size st ++
      (match loop_head size st with
       | .ok (st1, false) =>
         (match loop_tail it st1 with
          | .ok (st2, false) => loop_picks size rest st2
          | _ => [])
       | _ => [])

/-- The packets of the descriptors made current during a feed call. -/
def feed_picks (E : Int → Int) (env : FeedEnv) (q : QSVDecContext) (avpkt : AVPacket) :
    List AVPacket :=
  match feed_pre E env q avpkt with
  | .ok (Sum.inr st0) => loop_picks avpkt.size env.iters st0
  | _ => []

/-- The packet reference that a feed call wraps in a new descriptor, when
it reaches the loop with one. -/
def feed_wrapped (E : Int → Int) (env : FeedEnv) (q : QSVDecContext) (avpkt : AVPacket) :
    List AVPacket :=
  match feed_pre E env q avpkt with
  | .ok (Sum.inr st0) =>
    (match st0.curbs, env.curBs.pktRef with
     | some _, some d => [{ avpkt with data := d }]
     | _, _ => [])
  | _ => []

/-- The packets of the descriptors made current during a sequence of feed
calls, in order. -/
def run_picks (E : Int → Int) : QSVDecContext → List (FeedEnv × AVPacket) → List AVPacket
  | _, [] => []
  | q, (env, avpkt) :: rest =>
    feed_picks E env q avpkt ++
      (match ff_qsv_dec_frame E env q avpkt with
       | .ok (_, q1) => run_picks E q1 rest
       | .error _ => [])

/-- The packets wrapped in new descriptors during a sequence of feed
calls, in feeding order. -/
def run_wrapped (E : Int → Int) : QSVDecContext → List (FeedEnv × AVPacket) → List AVPacket
  | _, [] => []
  | q, (env, avpkt) :: rest =>
    feed_wrapped E env q avpkt ++
      (match ff_qsv_dec_frame E env q avpkt with
       | .ok (_, q1) => run_wrapped E q1 rest
       | .error _ => [])

/-- What the pending-input queue reads of the bitstream node at address
`a`: its link, its packet and its capacity. -/
def bview (q : QSVDecContext) (a : Nat) : Option (Option Nat × Option AVPacket × Nat) :=
  (bs_at q a).map (fun n => (n.next, n.pkt, n.bs.MaxLength))

/-- The fields of the context that hold the input side: the bitstream
pool, the pending-input queue and the descriptor in use. -/
def bfields (q : QSVDecContext) :
    Nat × List QSVDecBitstreamList × Option Nat × Option Nat × Option Nat :=
  (q.bs_base, q.bs_pool, q.pending_dec, q.pending_dec_end, q.bs)

/-- One operation on the sync queue: `put_sync` of a surface address with a
completion handle, `get_sync`, or `free_sync`. -/
inductive SyncOp where
  | put (surf : Nat) (sync : Nat)
  | get
  | free
deriving DecidableEq, Repr

/-- The context after one operation on the sync queue. -/
def sync_op (q : QSVDecContext) : SyncOp → Except Fault QSVDecContext
  | SyncOp.put s h => put_sync q (some s) h
  | SyncOp.get =>
    match get_sync q with
    | .error e => .error e
    | .ok (_, _, q1) => .ok q1
  | SyncOp.free => .ok (free_sync q)

/-- The context after a sequence of operations on the sync queue. -/
def sync_ops : QSVDecContext → List SyncOp → Except Fault QSVDecContext
  | q, [] => .ok q
  | q, op :: rest =>
    match sync_op q op with
    | .error e => .error e
    | .ok q1 => sync_ops q1 rest

/-- The entries (surface, handle) that a sequence of operations leaves in a
queue that held `L`, oldest first; `none` when the sequence applies
`put_sync` to a surface that is queued or `get_sync` to an empty queue. -/
def queue_after : List (Nat × Nat) → List SyncOp → Option (List (Nat × Nat))
  | L, [] => some L
  | L, SyncOp.put s h :: rest =>
    if s ∈ L.map Prod.fst then none else queue_after (L ++ [(s, h)]) rest
  | [], SyncOp.get :: _ => none
  | _ :: L, SyncOp.get :: rest => queue_after L rest
  | _, SyncOp.free :: rest => queue_after [] rest

deriving instance DecidableEq for Except

/-- Modelled from the spec: `ff_qsv_error` of `qsv.c`, which is not among
the sources.  The spec only says that a negative device status is mapped to
a failure and that an exceeded busy-wait is a Timeout failure; this sample
mapping sends `MFX_ERR_NONE` to 0 and every other status to a negative
value.  It is used to instantiate the parameter `E` in examples. -/
def ff_qsv_error (ret : Int) : Int := if ret = 0 then 0 else if ret < 0 then ret else -ret

/-- Packet of `n` bytes with presentation timestamp `pts` and decode
timestamp `dts`. -/
def pkt_x (n : Nat) (pts dts : Int) : AVPacket := ⟨1, n, pts, dts⟩

/-- First call of the sample run: the session is opened from the packet
(two frames buffered at least, four suggested) and the accelerator consumes
the packet and asks for more input. -/
def env_x1 : FeedEnv :=
  { init := { NumFrameMin := 2, NumFrameSuggested := 4 }
    iters := [{ status := MFX_ERR_MORE_DATA, consumed := 100 }] }

/-- Second call of the sample run: the accelerator consumes the packet and
outputs surface 0 with completion handle 77. -/
def env_x2 : FeedEnv :=
  { iters := [{ status := MFX_ERR_NONE, consumed := 100
                out := some { surf := some 0, sync := 77, TimeStamp := 10 } }] }

/-- The zeroed context with `timeout = 3`. -/
def q_x0 : QSVDecContext := { timeout := 3 }

/-- The context after the first call of the sample run. -/
def q_x1 : QSVDecContext :=
  { timeout := 3, initialized := true, last_ret := -10, NumFrameMin := 2, NumFrameSuggested := 4
    ts := [⟨10, 5⟩, ⟨AV_NOPTS_VALUE, AV_NOPTS_VALUE⟩, ⟨AV_NOPTS_VALUE, AV_NOPTS_VALUE⟩,
           ⟨AV_NOPTS_VALUE, AV_NOPTS_VALUE⟩]
    nb_ts := 4, ts_cnt := 1
    bs_pool := [{ bs := { Data := 1, DataOffset := 100, DataLength := 0, MaxLength := 0
                          TimeStamp := 10 }
                  pkt := some ⟨1, 100, 10, 5⟩ }]
    surf_pool := [{ MemId := FrameRef.live true }]
    log := [Event.MFXVideoDECODE_DecodeHeader (some 0),
            Event.MFXVideoDECODE_DecodeFrameAsync (some 0) 0 (-10) 0] }

/-- The context after the first two calls of the sample run. -/
def q_x2 : QSVDecContext :=
  { q_x1 with
    last_ret := 0
    ts := [⟨10, 5⟩, ⟨20, 6⟩, ⟨AV_NOPTS_VALUE, AV_NOPTS_VALUE⟩, ⟨AV_NOPTS_VALUE, AV_NOPTS_VALUE⟩]
    ts_cnt := 2
    bs_pool := [{ bs := { Data := 1, DataOffset := 100, DataLength := 0, MaxLength := 100
                          TimeStamp := 20 }
                  pkt := some ⟨1, 100, 20, 6⟩ }]
    bs := some 0
    surf_pool := [{ MemId := FrameRef.live true, TimeStamp := 10, sync := 77 }]
    pending_sync := some 0, pending_sync_end := some 0, nb_sync := 1
    log := q_x1.log ++ [Event.MFXVideoDECODE_DecodeFrameAsync (some 0) 0 0 77] }

/-- The frame emitted from surface 0 of `q_x2`. -/
def frame_x : AVFrame := ⟨10, 10, 5, 0, 0, 1, 0, 0⟩

/-- The context `q_x2` after one `ff_qsv_dec_flush`. -/
def q_xf : QSVDecContext :=
  { q_x2 with
    last_ret := MFX_ERR_MORE_DATA
    ts := []
    bs_base := 1, bs_pool := []
    surf_base := 1, surf_pool := []
    pending_sync := none, pending_sync_end := none, nb_sync := 0
    log := q_x2.log ++ [Event.MFXVideoDECODE_Reset] }

/-- A call in which the accelerator reports an incompatible parameter
change and, once flushing, asks for more input. -/
def env_r2 : FeedEnv :=
  { iters := [{ status := MFX_ERR_INCOMPATIBLE_VIDEO_PARAM }, { status := MFX_ERR_MORE_DATA }] }

/-- The context after feeding a second packet to `q_x1` under `env_r2`: a
reinit is pending with bitstream node 0 remembered, the last status is
need-more-input and the sync queue is empty. -/
def q_r2 : QSVDecContext :=
  { q_x1 with
    ts := [⟨10, 5⟩, ⟨20, 6⟩, ⟨AV_NOPTS_VALUE, AV_NOPTS_VALUE⟩, ⟨AV_NOPTS_VALUE, AV_NOPTS_VALUE⟩]
    ts_cnt := 2
    bs_pool := [{ bs := { Data := 1, DataOffset := 0, DataLength := 100, MaxLength := 100
                          TimeStamp := 20 }
                  pkt := some ⟨1, 100, 20, 6⟩ }]
    reinit := some 0
    log := q_x1.log ++ [Event.MFXVideoDECODE_DecodeFrameAsync (some 0) 0 (-14) 0,
                        Event.MFXVideoDECODE_DecodeFrameAsync none 0 (-10) 0] }

/-- A call in which every submission is answered with device-busy. -/
def env_busy : FeedEnv :=
  { iters := List.replicate 5 { status := MFX_WRN_DEVICE_BUSY } }

/-- The loop entry state of the call that feeds a second packet to
`q_x1`. -/
def st_b : LoopSt :=
  { q := { q_x1 with
           ts := [⟨10, 5⟩, ⟨20, 6⟩, ⟨AV_NOPTS_VALUE, AV_NOPTS_VALUE⟩,
                  ⟨AV_NOPTS_VALUE, AV_NOPTS_VALUE⟩]
           ts_cnt := 2
           bs_pool := [{ bs := { Data := 1, DataOffset := 0, DataLength := 100, MaxLength := 100
                                 TimeStamp := 20 }
                         pkt := some ⟨1, 100, 20, 6⟩ }] }
    inbs := none, curbs := some 0, ret := -10, flush := false, busymsec := 0
    outsurf := none, outsync := 0 }

/-- An end-of-stream call in which the accelerator, given no input, twice
asks for more input. -/
def env_e2 : FeedEnv :=
  { iters := [{ status := MFX_ERR_MORE_DATA }, { status := MFX_ERR_MORE_DATA }] }

/-- An end-of-stream call in which the accelerator, given no input, asks
for more input. -/
def env_e1 : FeedEnv := { iters := [{ status := MFX_ERR_MORE_DATA }] }

/-- A call in which the accelerator first reports a compatible parameter
change together with output surface 0 and completion handle 77, then, with
surface 0 locked, outputs surface 1 with completion handle 78. -/
def env_c2 : FeedEnv :=
  { iters := [{ status := MFX_WRN_VIDEO_PARAM_CHANGED, consumed := 60
                out := some { surf := some 0, sync := 77, TimeStamp := 10 } },
              { Locked := fun a => if a = 0 then 1 else 0
                status := MFX_ERR_NONE, consumed := 40
                out := some { surf := some 1, sync := 78, TimeStamp := 20 } }] }

/-- The context after the sample run and one end-of-stream call: the frame
of surface 0 was emitted. -/
def q_x3 : QSVDecContext :=
  { q_x2 with
    last_ret := -10
    ts := [⟨AV_NOPTS_VALUE, 5⟩, ⟨20, 6⟩, ⟨AV_NOPTS_VALUE, AV_NOPTS_VALUE⟩,
           ⟨AV_NOPTS_VALUE, AV_NOPTS_VALUE⟩]
    bs_pool := [{ bs := { Data := 1, DataOffset := 100, DataLength := 0, MaxLength := 0
                          TimeStamp := 20 }
                  pkt := some ⟨1, 100, 20, 6⟩ }]
    bs := none
    surf_pool := [{ MemId := FrameRef.live false, TimeStamp := 10 },
                  { MemId := FrameRef.live true }]
    pending_sync := none, pending_sync_end := none, nb_sync := 0
    log := q_x2.log ++ [Event.MFXVideoDECODE_DecodeFrameAsync none 1 (-10) 0,
                        Event.MFXVideoDECODE_DecodeFrameAsync none 1 (-10) 0,
                        Event.MFXVideoCORE_SyncOperation 77] }

/-- The context after a second end-of-stream call, which takes surface 0
as work surface again. -/
def q_x4 : QSVDecContext :=
  { q_x3 with
    surf_pool := [{ MemId := FrameRef.live true, TimeStamp := 10 },
                  { MemId := FrameRef.live true }]
    log := q_x3.log ++ [Event.MFXVideoDECODE_DecodeFrameAsync none 0 (-10) 0] }

/-- The sample run followed by one end-of-stream call. -/
def steps_x : List (FeedEnv × AVPacket) :=
  [(env_x1, pkt_x 100 10 5), (env_x2, pkt_x 100 20 6), (env_e2, pkt_x 0 0 0)]

/-- What the calls of `steps_x` hand back. -/
def rs_x : List FeedResult := [⟨100, 0, none⟩, ⟨100, 0, none⟩, ⟨0, 1, some frame_x⟩]

/-- An empty tracker of a session that suggests four frames. -/
def q_t0 : QSVDecContext := { NumFrameSuggested := 4 }

/-- The tracker `q_t0` after `put_dts 9 4`. -/
def q_t1 : QSVDecContext :=
  { NumFrameSuggested := 4
    ts := [⟨9, 4⟩, ⟨AV_NOPTS_VALUE, AV_NOPTS_VALUE⟩, ⟨AV_NOPTS_VALUE, AV_NOPTS_VALUE⟩,
           ⟨AV_NOPTS_VALUE, AV_NOPTS_VALUE⟩]
    nb_ts := 4, ts_cnt := 1 }

/-- A tracker whose two slots are occupied. -/
def q_t2 : QSVDecContext := { ts := [⟨7, 3⟩, ⟨8, 4⟩], nb_ts := 2, ts_cnt := 2 }

/-- The context `q_x1` with the largest timeout the option accepts. -/
def q_m1 : QSVDecContext := { q_x1 with timeout := 2147483647 }

/-- The loop entry state of the call that feeds a second packet to
`q_m1`. -/
def st_m : LoopSt := { st_b with q := { st_b.q with timeout := 2147483647 } }

/-- The loop entry state of an end-of-stream call on `q_x2`. -/
def st_e0 : LoopSt :=
  { q := q_x2, inbs := some 0, curbs := none, ret := 0, flush := false, busymsec := 0
    outsurf := none, outsync := 0 }

/-- The loop exit state of that call under `env_e2`: the consumed input was
dropped, surface 1 was allocated and two submissions of no input were
answered with need-more-input. -/
def st_e1 : LoopSt :=
  { q := { q_x2 with
           bs_pool := [{ bs := { Data := 1, DataOffset := 100, DataLength := 0, MaxLength := 0
                                 TimeStamp := 20 }
                         pkt := some ⟨1, 100, 20, 6⟩ }]
           surf_pool := [{ MemId := FrameRef.live true, TimeStamp := 10, sync := 77 },
                         { MemId := FrameRef.live true }]
           log := q_x2.log ++ [Event.MFXVideoDECODE_DecodeFrameAsync none 1 (-10) 0,
                               Event.MFXVideoDECODE_DecodeFrameAsync none 1 (-10) 0] }
    inbs := none, curbs := none, ret := -10, flush := true, busymsec := 0
    outsurf := none, outsync := 0 }

/-- The context of that call when the drain block is reached. -/
def q_e3 : QSVDecContext := { st_e1.q with last_ret := -10, bs := none }

/-- A call in which the accelerator consumes 40 bytes and outputs surface 0
with completion handle 77. -/
def env_o2 : FeedEnv :=
  { iters := [{ status := MFX_ERR_NONE, consumed := 40
                out := some { surf := some 0, sync := 77, TimeStamp := 20 } }] }

/-- A call in which the accelerator consumes 60 bytes and outputs surface 1
with completion handle 78. -/
def env_o3 : FeedEnv :=
  { iters := [{ status := MFX_ERR_NONE, consumed := 60
                out := some { surf := some 1, sync := 78, TimeStamp := 30 } }] }

/-- Three packets fed to a fresh session; the accelerator finishes the
second packet only during the third call, so the third packet is queued. -/
def steps_o : List (FeedEnv × AVPacket) :=
  [(env_x1, pkt_x 100 10 5), (env_o2, pkt_x 100 20 6), (env_o3, pkt_x 100 30 7)]

/-- What the calls of `steps_o` hand back. -/
def rs_o : List FeedResult :=
  [⟨100, 0, none⟩, ⟨100, 0, none⟩,
   ⟨100, 1, some { pts := 20, pkt_pts := 20, pkt_dts := 6, repeat_pict := 0, top_field_first := 0
                   interlaced_frame := 1, sample_aspect_ratio_num := 0
                   sample_aspect_ratio_den := 0 }⟩]

/-- The context after `steps_o`: the descriptor of the second packet is in
use, that of the third packet is the only entry of the pending-input
queue. -/
def q_o3 : QSVDecContext :=
  { timeout := 3, initialized := true, last_ret := 0, NumFrameMin := 2, NumFrameSuggested := 4
    ts := [⟨10, 5⟩, ⟨AV_NOPTS_VALUE, 6⟩, ⟨30, 7⟩, ⟨AV_NOPTS_VALUE, AV_NOPTS_VALUE⟩]
    nb_ts := 4, ts_cnt := 3
    bs_pool := [{ bs := { Data := 1, DataOffset := 100, DataLength := 0, MaxLength := 100
                          TimeStamp := 20 }
                  pkt := some ⟨1, 100, 20, 6⟩ },
                { bs := { Data := 1, DataOffset := 0, DataLength := 100, MaxLength := 100
                          TimeStamp := 30 }
                  pkt := some ⟨1, 100, 30, 7⟩ }]
    pending_dec := some 1, pending_dec_end := some 1, bs := some 0
    surf_pool := [{ MemId := FrameRef.live false, TimeStamp := 20 },
                  { MemId := FrameRef.live true, TimeStamp := 30, sync := 78 }]
    pending_sync := some 1, pending_sync_end := some 1, nb_sync := 1
    log := [Event.MFXVideoDECODE_DecodeHeader (some 0),
            Event.MFXVideoDECODE_DecodeFrameAsync (some 0) 0 (-10) 0,
            Event.MFXVideoDECODE_DecodeFrameAsync (some 0) 0 0 77,
            Event.MFXVideoDECODE_DecodeFrameAsync (some 0) 1 0 78,
            Event.MFXVideoCORE_SyncOperation 77] }

/-- A tracker in accelerator-assigned mode with two packets recorded. -/
def q_b2 : QSVDecContext := { ts_by_qsv := true, ts_cnt := 2 }

/-- A call on a context with a reinit due: the reopen fails on the header
(status `MFX_ERR_NULL_PTR`), the session is then opened from the new packet,
which the accelerator consumes. -/
def env_r3 : FeedEnv :=
  { reinit := { header := -2 }
    init := { NumFrameMin := 2, NumFrameSuggested := 4 }
    iters := [{ status := MFX_ERR_MORE_DATA, consumed := 100 }] }

/-- The context `q_o3` after one `ff_qsv_dec_flush`. -/
def q_of : QSVDecContext :=
  { q_o3 with
    last_ret := MFX_ERR_MORE_DATA
    ts := []
    bs_base := 2, bs_pool := []
    surf_base := 2, surf_pool := []
    pending_sync := none, pending_sync_end := none, nb_sync := 0
    log := q_o3.log ++ [Event.MFXVideoDECODE_Reset] }

/-- Operations on the sync queue of `q_x3` (two surfaces, empty queue):
surface 0 is queued, the queue is freed, surfaces 1 and 0 are queued, the
head is taken and surface 1 is queued again. -/
def ops_x : List SyncOp :=
  [SyncOp.put 0 77, SyncOp.free, SyncOp.put 1 78, SyncOp.put 0 79, SyncOp.get, SyncOp.put 1 80]

/-- The tracker `q_t1` with the count `ts_cnt` at `INT_MAX`. -/
def q_tm : QSVDecContext := { q_t1 with ts_cnt := 2147483647 }

/-- A tracker in accelerator-assigned mode with the count `ts_cnt` at
`INT_MAX`. -/
def q_bm : QSVDecContext := { ts_by_qsv := true, ts_cnt := 2147483647 }

theorem scan_ts_ok {ts : List QSVDecTimeStamp} {p : Int} :
    ∀ (n i j : Nat), scan_ts ts p n i = .ok j →
      i ≤ j ∧ j ≤ i + n ∧
      (∀ k, i ≤ k → k < j → ∃ s, ts[k]? = some s ∧ s.pts ≠ p) ∧
      (j < i + n → ∃ s, ts[j]? = some s ∧ s.pts = p) := by
  intro n
  induction n with
  | zero =>
    intro i j h
    simp only [scan_ts, Except.ok.injEq] at h
    subst h
    refine ⟨le_refl _, le_refl _, ?_, ?_⟩
    · intro k h1 h2; omega
    · intro h; omega
  | succ n ih =>
    intro i j h
    unfold scan_ts at h
    cases hs : ts[i]? with
    | none => simp [hs] at h
    | some s =>
      simp only [hs] at h
      by_cases hp : s.pts = p
      · simp only [hp, if_true, Except.ok.injEq] at h
        subst h
        refine ⟨le_refl _, by omega, ?_, ?_⟩
        · intro k h1 h2; omega
        · intro _; exact ⟨s, hs, hp⟩
      · simp only [hp, if_false] at h
        obtain ⟨h1, h2, h3, h4⟩ := ih (i + 1) j h
        refine ⟨by omega, by omega, ?_, ?_⟩
        · intro k hk1 hk2
          by_cases hki : k = i
          · subst hki; exact ⟨s, hs, hp⟩
          · exact h3 k (by omega) hk2
        · intro hj; exact h4 (by omega)

theorem scan_ts_found {ts : List QSVDecTimeStamp} {p : Int} :
    ∀ (n i j : Nat), i ≤ j → j < i + n →
      (∀ k, i ≤ k → k < j → ∃ s, ts[k]? = some s ∧ s.pts ≠ p) →
      (∃ s, ts[j]? = some s ∧ s.pts = p) →
      scan_ts ts p n i = .ok j := by
  intro n
  induction n with
  | zero => intro i j h1 h2; omega
  | succ n ih =>
    intro i j h1 h2 hbefore hat
    unfold scan_ts
    by_cases hij : i = j
    · subst hij
      obtain ⟨s, hs, hp⟩ := hat
      simp [hs, hp]
    · obtain ⟨s, hs, hp⟩ := hbefore i (le_refl _) (by omega)
      simp only [hs, hp, if_false]
      exact ih (i + 1) j (by omega) (by omega)
        (fun k hk1 hk2 => hbefore k (by omega) hk2) hat

theorem scan_ts_none {ts : List QSVDecTimeStamp} {p : Int} :
    ∀ (n i : Nat),
      (∀ k, i ≤ k → k < i + n → ∃ s, ts[k]? = some s ∧ s.pts ≠ p) →
      scan_ts ts p n i = .ok (i + n) := by
  intro n
  induction n with
  | zero => intro i _; rfl
  | succ n ih =>
    intro i h
    unfold scan_ts
    obtain ⟨s, hs, hp⟩ := h i (le_refl _) (by omega)
    simp only [hs, hp, if_false]
    have := ih (i + 1) (fun k hk1 hk2 => h k (by omega) (by omega))
    rw [this]; congr 1; omega


theorem getElem?_realloc (q : QSVDecContext) (old new k : Nat) (hk : k < old) (hn : k < new)
    (s : QSVDecTimeStamp) (hs : q.ts[k]? = some s) :
    (realloc_ts true q old new).2.ts[k]? = some s := by
  simp only [realloc_ts, if_true]
  rw [List.getElem?_map, List.getElem?_range hn]
  simp only [Option.map_some']
  have : ¬ old ≤ k := by omega
  simp only [this, if_false]
  have hlt : k < q.ts.length := by
    by_contra hc
    rw [List.getElem?_eq_none (by omega)] at hs
    cases hs
  simp [List.getD, hs]

theorem store_ts_get (q q' : QSVDecContext) (i : Nat) (T D : Int) (n : Nat)
    (hmode : q.ts_by_qsv = false) (hT : T ≠ AV_NOPTS_VALUE)
    (hn : q.nb_ts = n) (hi : i < n)
    (hbefore : ∀ k, k < i → ∃ s, q.ts[k]? = some s ∧ s.pts ≠ T)
    (hst : store_ts q i T D = .ok (0, q')) :
    ∃ q'', get_dts q' T = .ok (0, some D, q'') := by
  unfold store_ts at hst
  by_cases hlen : i < q.ts.length
  · simp only [hlen, if_true, Except.ok.injEq, Prod.mk.injEq, true_and] at hst
    subst hst
    have hscan : scan_ts (q.ts.set i ⟨T, D⟩) T n 0 = .ok i := by
      apply scan_ts_found n 0 i (Nat.zero_le _) (by omega)
      · intro k _ hk
        obtain ⟨s, hs, hp⟩ := hbefore k hk
        refine ⟨s, ?_, hp⟩
        rw [List.getElem?_set_ne (by omega)]; exact hs
      · exact ⟨⟨T, D⟩, List.getElem?_set_self hlen, rfl⟩
    have hne : i ≠ n := by omega
    simp only [get_dts, hmode, hT, hn, hscan, hne, if_false, Bool.false_eq_true,
      List.getElem?_set_self hlen]
    exact ⟨_, rfl⟩
  · simp [hlen] at hst


/-! ## Lemmas: surface pool -/

theorem surf_free_iff (n : QSVDecSurfaceList) : surf_free n = true ↔ n.Locked = 0 ∧ n.sync = 0 := by
  simp [surf_free]

theorem set_surface_data_keeps {frameOk : Bool} {bufRet : Int} {q : QSVDecContext}
    {list : QSVDecSurfaceList} {r : Int × QSVDecSurfaceList}
    (h : set_surface_data frameOk bufRet q list = .ok r) :
    r.2.Locked = list.Locked ∧ r.2.sync = list.sync ∧ r.2.next = list.next := by
  unfold set_surface_data at h
  split at h
  · cases h
  · split at h
    · split at h <;> (cases h; simp)
    · cases h; simp
  · cases h; simp
  · split at h <;> (cases h; simp)

theorem get_surface_spec {mallocOk frameOk : Bool} {bufRet : Int} {q q' : QSVDecContext}
    {res : Option Nat}
    (h : get_surface mallocOk frameOk bufRet q = .ok (res, q')) :
    (res = none ∧ q' = q) ∨
    ∃ n', q' = { q with surf_pool := (surf_pool_ext q).set (q.surf_pool.findIdx surf_free) n' } ∧
      n'.Locked = ((surf_pool_ext q).getD (q.surf_pool.findIdx surf_free) {}).Locked ∧
      n'.sync = ((surf_pool_ext q).getD (q.surf_pool.findIdx surf_free) {}).sync ∧
      n'.next = none ∧
      (res = none ∨ res = some (q.surf_base + q.surf_pool.findIdx surf_free)) := by
  unfold get_surface at h
  simp only at h
  split at h
  · cases h; exact Or.inl ⟨rfl, rfl⟩
  · split at h
    · cases h
    · rename_i r hs
      obtain ⟨k1, k2, k3⟩ := set_surface_data_keeps hs
      simp only [Except.ok.injEq, Prod.mk.injEq] at h
      obtain ⟨h1, h2⟩ := h
      refine Or.inr ⟨r.2, h2.symm, k1, k2, k3, ?_⟩
      rw [← h1]
      split
      · exact Or.inl rfl
      · exact Or.inr rfl

theorem surf_pool_ext_old (q : QSVDecContext) (j : Nat) (n : QSVDecSurfaceList)
    (h : q.surf_pool[j]? = some n) : (surf_pool_ext q)[j]? = some n := by
  unfold surf_pool_ext
  split
  · have hj : j < q.surf_pool.length := by
      by_contra hc
      rw [List.getElem?_eq_none (by omega)] at h; cases h
    rw [List.getElem?_append_left hj]; exact h
  · exact h

theorem surf_pool_ext_idx (q : QSVDecContext) :
    ∃ n0, (surf_pool_ext q)[q.surf_pool.findIdx surf_free]? = some n0 ∧
      (surf_pool_ext q).getD (q.surf_pool.findIdx surf_free) {} = n0 ∧
      n0.Locked = 0 ∧ n0.sync = 0 ∧
      (q.surf_pool.findIdx surf_free < q.surf_pool.length →
        q.surf_pool[q.surf_pool.findIdx surf_free]? = some n0) := by
  unfold surf_pool_ext
  by_cases hfull : q.surf_pool.findIdx surf_free = q.surf_pool.length
  · simp only [hfull, if_true]
    refine ⟨{}, by simp, by simp [List.getD], rfl, rfl, fun hc => absurd hc (lt_irrefl _)⟩
  · simp only [hfull, if_false]
    have hlt : q.surf_pool.findIdx surf_free < q.surf_pool.length :=
      lt_of_le_of_ne (List.findIdx_le_length _) hfull
    have hfree := (surf_free_iff _).1 (List.findIdx_getElem (w := hlt))
    exact ⟨_, List.getElem?_eq_getElem hlt, by simp [List.getD, List.getElem?_eq_getElem hlt],
      hfree.1, hfree.2, fun _ => List.getElem?_eq_getElem hlt⟩

theorem surf_pool_ext_length (q : QSVDecContext) :
    (q.surf_pool.findIdx surf_free < q.surf_pool.length →
      (surf_pool_ext q).length = q.surf_pool.length) ∧
    (q.surf_pool.findIdx surf_free = q.surf_pool.length →
      (surf_pool_ext q).length = q.surf_pool.length + 1) := by
  unfold surf_pool_ext
  constructor
  · intro h; simp [Nat.ne_of_lt h]
  · intro h; simp [h]

theorem before_findIdx_busy (q : QSVDecContext) (j : Nat) (n : QSVDecSurfaceList)
    (hj : j < q.surf_pool.findIdx surf_free) (hn : q.surf_pool[j]? = some n) :
    n.Locked ≠ 0 ∨ n.sync ≠ 0 := by
  have hlen : j < q.surf_pool.length :=
    lt_of_lt_of_le hj (List.findIdx_le_length _)
  have hf := List.not_of_lt_findIdx hj
  rw [List.getElem?_eq_getElem hlen] at hn
  cases hn
  by_contra hc
  push_neg at hc
  rw [(surf_free_iff _).2 hc] at hf
  cases hf


/-! ## Lemmas: bitstream pool -/

theorem get_bitstream_from_packet_spec (mallocOk : Bool) (pktRef : Option Nat)
    (q : QSVDecContext) (pkt : AVPacket) :
    get_bitstream_from_packet mallocOk pktRef q pkt = (none, q) ∨
    get_bitstream_from_packet mallocOk pktRef q pkt =
      (if (set_bitstream_data pktRef q
            ((bs_pool_ext q).getD (q.bs_pool.findIdx bs_free) {}) pkt).1 < 0 then none
       else some (q.bs_base + q.bs_pool.findIdx bs_free),
       { q with bs_pool := ((bs_pool_ext q).set (q.bs_pool.findIdx bs_free)
          (set_bitstream_data pktRef q
            ((bs_pool_ext q).getD (q.bs_pool.findIdx bs_free) {}) pkt).2) }) := by
  unfold get_bitstream_from_packet
  simp only
  split
  · exact Or.inl rfl
  · exact Or.inr rfl

theorem bs_pool_ext_old (q : QSVDecContext) (j : Nat) (n : QSVDecBitstreamList)
    (h : q.bs_pool[j]? = some n) : (bs_pool_ext q)[j]? = some n := by
  unfold bs_pool_ext
  split
  · have hj : j < q.bs_pool.length := by
      by_contra hc
      rw [List.getElem?_eq_none (by omega)] at h; cases h
    rw [List.getElem?_append_left hj]; exact h
  · exact h

theorem bs_pool_ext_idx (q : QSVDecContext) :
    ∃ n0, (bs_pool_ext q)[q.bs_pool.findIdx bs_free]? = some n0 ∧
      (bs_pool_ext q).getD (q.bs_pool.findIdx bs_free) {} = n0 ∧
      n0.bs.MaxLength = 0 ∧
      (q.bs_pool.findIdx bs_free < q.bs_pool.length →
        q.bs_pool[q.bs_pool.findIdx bs_free]? = some n0) := by
  unfold bs_pool_ext
  by_cases hfull : q.bs_pool.findIdx bs_free = q.bs_pool.length
  · simp only [hfull, if_true]
    refine ⟨{}, by simp, by simp [List.getD], rfl, fun hc => absurd hc (lt_irrefl _)⟩
  · simp only [hfull, if_false]
    have hlt : q.bs_pool.findIdx bs_free < q.bs_pool.length :=
      lt_of_le_of_ne (List.findIdx_le_length _) hfull
    have hfree : bs_free q.bs_pool[q.bs_pool.findIdx bs_free] = true :=
      List.findIdx_getElem (w := hlt)
    exact ⟨_, List.getElem?_eq_getElem hlt, by simp [List.getD, List.getElem?_eq_getElem hlt],
      by simpa [bs_free] using hfree, fun _ => List.getElem?_eq_getElem hlt⟩

theorem bs_pool_ext_length (q : QSVDecContext) :
    (q.bs_pool.findIdx bs_free < q.bs_pool.length →
      (bs_pool_ext q).length = q.bs_pool.length) ∧
    (q.bs_pool.findIdx bs_free = q.bs_pool.length →
      (bs_pool_ext q).length = q.bs_pool.length + 1) := by
  unfold bs_pool_ext
  constructor
  · intro h; simp [Nat.ne_of_lt h]
  · intro h; simp [h]

theorem before_findIdx_bound (q : QSVDecContext) (j : Nat) (n : QSVDecBitstreamList)
    (hj : j < q.bs_pool.findIdx bs_free) (hn : q.bs_pool[j]? = some n) :
    n.bs.MaxLength ≠ 0 := by
  have hlen : j < q.bs_pool.length :=
    lt_of_lt_of_le hj (List.findIdx_le_length _)
  have hf := List.not_of_lt_findIdx hj
  rw [List.getElem?_eq_getElem hlen] at hn
  cases hn
  simpa [bs_free] using hf

theorem set_bitstream_data_ok {pktRef : Option Nat} {q : QSVDecContext}
    {list : QSVDecBitstreamList} {pkt : AVPacket}
    (h : ¬ (set_bitstream_data pktRef q list pkt).1 < 0) :
    (set_bitstream_data pktRef q list pkt).2.bs.MaxLength = pkt.size ∧
    (set_bitstream_data pktRef q list pkt).2.bs.DataLength = pkt.size ∧
    (set_bitstream_data pktRef q list pkt).2.bs.DataOffset = 0 ∧
    (set_bitstream_data pktRef q list pkt).2.next = list.next := by
  cases pktRef with
  | none => exact absurd (by simp [set_bitstream_data, AVERROR_ENOMEM]) h
  | some d => simp [set_bitstream_data]


/-! ## Lemmas: the sample run -/

theorem q_x1_reached :
    ff_qsv_dec_frame ff_qsv_error env_x1 q_x0 (pkt_x 100 10 5) = .ok (⟨100, 0, none⟩, q_x1) := by
  decide!

theorem q_x2_reached :
    ff_qsv_dec_frame ff_qsv_error env_x2 q_x1 (pkt_x 100 20 6) = .ok (⟨100, 0, none⟩, q_x2) := by
  decide!

theorem q_r2_reached :
    ff_qsv_dec_frame ff_qsv_error env_r2 q_x1 (pkt_x 100 20 6) = .ok (⟨100, 0, none⟩, q_r2) := by
  decide!

theorem q_x0_initial : Initial q_x0 := by
  unfold Initial
  decide!

theorem q_x1_reachable : Reachable ff_qsv_error q_x1 :=
  Reachable.feed env_x1 q_x0 (pkt_x 100 10 5) _ q_x1 (Reachable.init q_x0 q_x0_initial)
    q_x1_reached

theorem q_x2_reachable : Reachable ff_qsv_error q_x2 :=
  Reachable.feed env_x2 q_x1 (pkt_x 100 20 6) _ q_x2 q_x1_reachable q_x2_reached

theorem q_r2_reachable : Reachable ff_qsv_error q_r2 :=
  Reachable.feed env_r2 q_x1 (pkt_x 100 20 6) _ q_r2 q_x1_reachable q_r2_reached

/-! ## Lemmas: walks along the sync queue -/

theorem schain_congr {f g : Nat → Option (Option Nat)} :
    ∀ (L : List Nat) (p t : Option Nat), (∀ a ∈ L, ∀ v, f a = some v → g a = some v) →
      SChain f p L t → SChain g p L t := by
  intro L
  induction L with
  | nil => intro p t _ h; exact h
  | cons a rest ih =>
    intro p t hag h
    obtain ⟨hp, v, hv, hrest⟩ := h
    exact ⟨hp, v, hag a (List.mem_cons_self _ _) v hv,
      ih v t (fun b hb => hag b (List.mem_cons_of_mem _ hb)) hrest⟩

theorem schain_append {f : Nat → Option (Option Nat)} :
    ∀ (L1 L2 : List Nat) (p m t : Option Nat),
      SChain f p L1 m → SChain f m L2 t → SChain f p (L1 ++ L2) t := by
  intro L1
  induction L1 with
  | nil => intro L2 p m t h1 h2; simp only [SChain] at h1; subst h1; exact h2
  | cons a rest ih =>
    intro L2 p m t h1 h2
    obtain ⟨hp, v, hv, hrest⟩ := h1
    exact ⟨hp, v, hv, ih L2 v m t hrest h2⟩

theorem schain_resolves {f : Nat → Option (Option Nat)} :
    ∀ (L : List Nat) (p t : Option Nat), SChain f p L t → ∀ a ∈ L, ∃ v, f a = some v := by
  intro L
  induction L with
  | nil => intro p t _ a ha; cases ha
  | cons b rest ih =>
    intro p t h a ha
    obtain ⟨_, v, hv, hrest⟩ := h
    rcases List.mem_cons.1 ha with rfl | hmem
    · exact ⟨v, hv⟩
    · exact ih v t hrest a hmem

/-- Redirecting the link of a node `X` of the walk to `w` cuts the walk at
the first visit of `X`. -/
theorem schain_cut {f g : Nat → Option (Option Nat)} {X : Nat} {w : Option Nat}
    (hag : ∀ a, a ≠ X → ∀ v, f a = some v → g a = some v) (hX : g X = some w) :
    ∀ (L : List Nat) (p t : Option Nat), SChain f p L t → X ∈ L →
      ∃ L', SChain g p L' w ∧ L'.length ≤ L.length ∧ L'.getLast? = some X ∧
        L'.head? = L.head? := by
  intro L
  induction L with
  | nil => intro p t _ hmem; cases hmem
  | cons a rest ih =>
    intro p t h hmem
    obtain ⟨hp, v, hv, hrest⟩ := h
    by_cases hax : a = X
    · subst hax
      exact ⟨[a], ⟨hp, w, hX, rfl⟩, by simp, rfl, rfl⟩
    · have hmem' : X ∈ rest := by
        rcases List.mem_cons.1 hmem with h1 | h1
        · exact absurd h1.symm hax
        · exact h1
      obtain ⟨L', hc, hlen, hlast, _⟩ := ih v t hrest hmem'
      refine ⟨a :: L', ⟨hp, v, hag a hax v hv, hc⟩, by simp; omega, ?_, rfl⟩
      cases L' with
      | nil => cases hlast
      | cons b tl => simpa [List.getLast?_cons_cons] using hlast

/-- Changing the link of a node that the walk does not visit leaves the
walk as it is. -/
theorem schain_keep {f g : Nat → Option (Option Nat)} {X : Nat}
    (hag : ∀ a, a ≠ X → ∀ v, f a = some v → g a = some v)
    (L : List Nat) (p t : Option Nat) (h : SChain f p L t) (hX : X ∉ L) :
    SChain g p L t :=
  schain_congr L p t (fun a ha => hag a (fun hc => hX (hc ▸ ha))) h

theorem SyncInvF.init (f : Nat → Option (Option Nat)) (e : Option Nat) :
    SyncInvF f none e 0 :=
  ⟨[], Or.inl ⟨rfl, by simp⟩⟩

/-- A change of the link map that keeps every resolving link keeps the
invariant. -/
theorem SyncInvF.frame {f g : Nat → Option (Option Nat)} {p e : Option Nat} {nb : Int}
    (h : SyncInvF f p e nb) (hag : ∀ a v, f a = some v → g a = some v) :
    SyncInvF g p e nb := by
  obtain ⟨L, ⟨hc, hlen⟩ | ⟨z, hc, hlast, he, hlen⟩⟩ := h
  · exact ⟨L, Or.inl ⟨schain_congr L p none (fun a _ => hag a) hc, hlen⟩⟩
  · exact ⟨L, Or.inr ⟨z, schain_congr L p (some z) (fun a _ => hag a) hc, hlast, he, hlen⟩⟩

/-- The queue update of `get_sync`: the head `h` is taken off, the head
pointer moves to its link `w`, the tail pointer is cleared when `w` is
`NULL`, and the link of `h` is cleared. -/
theorem SyncInvF.get {f g : Nat → Option (Option Nat)} {e : Option Nat} {nb : Int}
    {h0 : Nat} {w : Option Nat} (h : SyncInvF f (some h0) e nb) (hw : f h0 = some w)
    (hag : ∀ a, a ≠ h0 → ∀ v, f a = some v → g a = some v) (hX : g h0 = some none) :
    SyncInvF g w (if w = none then none else e) (nb - 1) := by
  obtain ⟨L, ⟨hc, hlen⟩ | ⟨z, hc, hlast, he, hlen⟩⟩ := h
  · cases L with
    | nil => cases hc
    | cons a rest =>
      obtain ⟨hp, v, hv, hrest⟩ := hc
      cases hp
      rw [hw] at hv
      cases hv
      simp only [List.length_cons, Nat.cast_add, Nat.cast_one] at hlen
      by_cases hmem : h0 ∈ rest
      · obtain ⟨L', hc', hlen', _, _⟩ := schain_cut hag hX rest w none hrest hmem
        exact ⟨L', Or.inl ⟨hc', by omega⟩⟩
      · exact ⟨rest, Or.inl ⟨schain_keep hag rest w none hrest hmem, by omega⟩⟩
  · cases L with
    | nil => cases hlast
    | cons a rest =>
      obtain ⟨hp, v, hv, hrest⟩ := hc
      cases hp
      rw [hw] at hv
      cases hv
      simp only [List.length_cons, Nat.cast_add, Nat.cast_one] at hlen
      by_cases hmem : h0 ∈ rest
      · obtain ⟨L', hc', hlen', _, _⟩ := schain_cut hag hX rest w (some z) hrest hmem
        exact ⟨L', Or.inl ⟨hc', by omega⟩⟩
      · cases rest with
        | nil =>
          -- the head is the only node and links to itself
          simp only [SChain] at hrest
          simp only [List.getLast?_singleton, Option.some.injEq] at hlast
          subst hlast
          subst hrest
          exact ⟨[h0], Or.inl ⟨⟨rfl, none, hX, rfl⟩, by simp; omega⟩⟩
        | cons b tl =>
          have hwne : w ≠ none := by
            intro hc
            rw [hc] at hrest
            exact absurd hrest.1 (by simp)
          refine ⟨b :: tl, Or.inr ⟨z, schain_keep hag (b :: tl) w (some z) hrest hmem, ?_, ?_, ?_⟩⟩
          · simpa [List.getLast?_cons_cons] using hlast
          · simp [hwne, he]
          · simp only [List.length_cons, Nat.cast_add, Nat.cast_one] at hlen ⊢
            omega

/-! ## Lemmas: the sync-queue invariant under the queue and pool operations -/

theorem set_locked_getElem? (f : Nat → Nat) :
    ∀ (l : List QSVDecSurfaceList) (a k : Nat),
      (set_locked f a l)[k]? = (l[k]?).map (fun n => { n with Locked := f (a + k) }) := by
  intro l
  induction l with
  | nil => intro a k; simp [set_locked]
  | cons n rest ih =>
    intro a k
    cases k with
    | zero => simp [set_locked]
    | succ k =>
      simp only [set_locked, List.getElem?_cons_succ]
      rw [ih (a + 1) k]
      have : a + 1 + k = a + (k + 1) := by omega
      rw [this]

theorem store_ts_frame {q q' : QSVDecContext} {i : Nat} {pts dts r : Int}
    (h : store_ts q i pts dts = .ok (r, q')) :
    q' = { q with ts := q'.ts, ts_cnt := q'.ts_cnt } := by
  unfold store_ts at h
  split at h <;> cases h
  rfl

theorem realloc_ts_frame (allocOk : Bool) (q : QSVDecContext) (o n : Nat) :
    (realloc_ts allocOk q o n).2 =
      { q with ts := (realloc_ts allocOk q o n).2.ts, nb_ts := (realloc_ts allocOk q o n).2.nb_ts } := by
  unfold realloc_ts
  split <;> rfl

theorem put_dts_frame {allocOk : Bool} {q q' : QSVDecContext} {pts dts r : Int}
    (h : put_dts allocOk q pts dts = .ok (r, q')) :
    q' = { q with ts := q'.ts, nb_ts := q'.nb_ts, ts_cnt := q'.ts_cnt } := by
  unfold put_dts at h
  split at h
  · cases h; rfl
  · split at h
    · cases h; rfl
    · split at h
      · cases h
      · split at h
        · generalize hre : realloc_ts allocOk q q.nb_ts
            (if q.nb_ts ≠ 0 then q.nb_ts * 2 else q.NumFrameSuggested) = re at h
          have hf := realloc_ts_frame allocOk q q.nb_ts
            (if q.nb_ts ≠ 0 then q.nb_ts * 2 else q.NumFrameSuggested)
          rw [hre] at hf
          obtain ⟨ret, q1⟩ := re
          simp only at h hf
          split at h
          · cases h; rw [hf]
          · have := store_ts_frame h
            rw [this, hf]
        · have := store_ts_frame h
          rw [this]

theorem get_dts_frame {q q' : QSVDecContext} {pts r : Int} {d : Option Int}
    (h : get_dts q pts = .ok (r, d, q')) : q' = { q with ts := q'.ts } := by
  unfold get_dts at h
  repeat' split at h
  all_goals (try cases h)
  all_goals rfl

theorem get_bitstream_from_packet_frame (mallocOk : Bool) (pktRef : Option Nat)
    (q : QSVDecContext) (pkt : AVPacket) :
    (get_bitstream_from_packet mallocOk pktRef q pkt).2 =
      { q with bs_pool := (get_bitstream_from_packet mallocOk pktRef q pkt).2.bs_pool } := by
  rcases get_bitstream_from_packet_spec mallocOk pktRef q pkt with h | h <;> rw [h]

theorem put_pending_bitstream_frame {q q' : QSVDecContext} {bs : Nat}
    (h : put_pending_bitstream q bs = .ok q') :
    q' = { q with bs_pool := q'.bs_pool, pending_dec := q'.pending_dec,
                  pending_dec_end := q'.pending_dec_end } := by
  unfold put_pending_bitstream at h
  repeat' split at h
  all_goals (try cases h)
  all_goals rfl

theorem get_pending_bitstream_frame {q : QSVDecContext} {r : Nat × QSVDecContext}
    (h : get_pending_bitstream q = .ok r) :
    r.2 = { q with bs_pool := r.2.bs_pool, pending_dec := r.2.pending_dec,
                   pending_dec_end := r.2.pending_dec_end } := by
  unfold get_pending_bitstream at h
  repeat' split at h
  all_goals (try cases h)
  all_goals (simp only [bs_put]; try split)
  all_goals rfl

theorem get_surface_frame {mallocOk frameOk : Bool} {bufRet : Int} {q q' : QSVDecContext}
    {res : Option Nat} (h : get_surface mallocOk frameOk bufRet q = .ok (res, q')) :
    q' = { q with surf_pool := q'.surf_pool } := by
  rcases get_surface_spec h with ⟨_, rfl⟩ | ⟨n', rfl, _⟩ <;> rfl

theorem free_surface_pool_eq {q q' : QSVDecContext} (h : free_surface_pool q = .ok q') :
    q' = { q with surf_base := q.surf_base + q.surf_pool.length, surf_pool := [] } := by
  unfold free_surface_pool at h
  split at h <;> cases h
  rfl

theorem put_sync_frame {q q' : QSVDecContext} {surf : Option Nat} {sync : Nat}
    (h : put_sync q surf sync = .ok q') :
    q' = { q with surf_pool := q'.surf_pool, pending_sync := q'.pending_sync,
                  pending_sync_end := q'.pending_sync_end, nb_sync := q'.nb_sync } := by
  unfold put_sync at h
  repeat' (first | split at h | simp only at h)
  all_goals (try cases h)
  all_goals rfl

theorem get_sync_frame {q q' : QSVDecContext} {a s : Nat}
    (h : get_sync q = .ok (a, s, q')) :
    q' = { q with surf_pool := q'.surf_pool, pending_sync := q'.pending_sync,
                  pending_sync_end := q'.pending_sync_end, nb_sync := q'.nb_sync } := by
  unfold get_sync at h
  repeat' split at h
  all_goals (try cases h)
  all_goals (simp only [surf_put]; try split)
  all_goals rfl

theorem accel_consume_frame (q : QSVDecContext) (inbs : Option Nat) (c : Nat) :
    accel_consume q inbs c = { q with bs_pool := (accel_consume q inbs c).bs_pool } := by
  unfold accel_consume
  repeat' split
  all_goals rfl

theorem accel_output_frame (q : QSVDecContext) (o : OutFrame) :
    accel_output q o = { q with surf_pool := (accel_output q o).surf_pool } := by
  unfold accel_output
  repeat' split
  all_goals rfl

theorem release_surface_frame (q : QSVDecContext) (a : Nat) :
    release_surface q a = { q with surf_pool := (release_surface q a).surf_pool } := by
  unfold release_surface
  repeat' split
  all_goals rfl

theorem ff_qsv_dec_init_decoder_frame {E : Int → Int} {env : InitEnv} {q : QSVDecContext}
    {bs : Option Nat} {r : Int × QSVDecContext}
    (h : ff_qsv_dec_init_decoder E env q bs = .ok r) :
    r.2 = { q with log := r.2.log, param := r.2.param, NumFrameMin := r.2.NumFrameMin,
                   NumFrameSuggested := r.2.NumFrameSuggested, last_ret := r.2.last_ret,
                   initialized := r.2.initialized } := by
  unfold ff_qsv_dec_init_decoder at h
  repeat' split at h
  all_goals (try cases h)
  all_goals rfl

theorem drop_consumed_frame {st st' : LoopSt} (h : drop_consumed st = .ok st') :
    st' = { st with q := { st.q with bs_pool := st'.q.bs_pool }, inbs := st'.inbs } := by
  unfold drop_consumed at h
  repeat' (first | split at h | simp only at h)
  all_goals (try cases h)
  all_goals rfl

theorem select_input_frame {size : Nat} {st st' : LoopSt} {brk : Bool}
    (h : select_input size st = .ok (st', brk)) :
    st' = { st with q := { st.q with bs_pool := st'.q.bs_pool, pending_dec := st'.q.pending_dec
                                     pending_dec_end := st'.q.pending_dec_end
                                     reinit := st'.q.reinit }
                    inbs := st'.inbs, curbs := st'.curbs, flush := st'.flush } := by
  unfold select_input at h
  repeat' (first | split at h | simp only at h)
  all_goals (try cases h)
  all_goals (try rfl)
  rename_i r hg
  have := get_pending_bitstream_frame hg
  simp only
  rw [this]

theorem loop_head_frame {size : Nat} {st st' : LoopSt} {brk : Bool}
    (h : loop_head size st = .ok (st', brk)) :
    st' = { st with q := { st.q with bs_pool := st'.q.bs_pool, pending_dec := st'.q.pending_dec
                                     pending_dec_end := st'.q.pending_dec_end
                                     reinit := st'.q.reinit }
                    inbs := st'.inbs, curbs := st'.curbs, flush := st'.flush } := by
  unfold loop_head at h
  split at h
  · cases h
  · rename_i st1 h1
    have f1 := drop_consumed_frame h1
    split at h
    · cases h
    · rename_i st2 h2
      cases h
      have f2 := select_input_frame h2
      rw [f2, f1]
    · rename_i st2 h2
      cases h
      have f2 := select_input_frame h2
      rw [f2, f1]

theorem loop_tail_frame {it : IterEnv} {st st' : LoopSt} {stop : Bool}
    (h : loop_tail it st = .ok (st', stop)) :
    st' = { st with q := { st.q with bs_pool := st'.q.bs_pool, surf_pool := st'.q.surf_pool
                                     log := st'.q.log }
                    ret := st'.ret, busymsec := st'.busymsec, outsurf := st'.outsurf
                    outsync := st'.outsync } := by
  unfold loop_tail at h
  simp only at h
  split at h
  · cases h
  · rename_i q1 hg
    cases h
    have := get_surface_frame hg
    simp only
    rw [this]
  · rename_i w q1 hg
    have fg := get_surface_frame hg
    have fc := accel_consume_frame q1 st.inbs it.consumed
    repeat' (first | split at h | simp only at h)
    all_goals (try cases h)
    all_goals simp only
    all_goals (try (rw [accel_output_frame]))
    all_goals (rw [fc, fg])

/-! ## Lemmas: the sync-queue invariant along a feed call -/

theorem sfields_of_eq {q q' x : QSVDecContext} (h : q' = x) (hx : sfields x = sfields q) :
    sfields q' = sfields q := h ▸ hx

theorem init_decoder_sfields {E : Int → Int} {benv : BsEnv} {env : InitEnv}
    {q q' : QSVDecContext} {avpkt : AVPacket}
    (h : init_decoder E benv env q avpkt = .ok q') : sfields q' = sfields q := by
  unfold init_decoder at h
  split at h
  · have fb := get_bitstream_from_packet_frame benv.mallocOk benv.pktRef q avpkt
    split at h
    · rename_i q1 hg
      cases h
      rw [hg] at fb
      exact sfields_of_eq fb rfl
    · rename_i a q1 hg
      rw [hg] at fb
      split at h
      · cases h
      · rename_i r hr
        have fi := ff_qsv_dec_init_decoder_frame hr
        split at h
        · cases h
        · cases h
          simp only [bs_put]
          show sfields r.2 = sfields q
          rw [fi]
          show sfields q1 = sfields q
          exact sfields_of_eq fb rfl
  · cases h; rfl

theorem drop_consumed_flush {st st' : LoopSt} (h : drop_consumed st = .ok st')
    (hi : FlushInv st) : FlushInv st' := by
  unfold drop_consumed at h
  split at h
  · cases h; exact hi
  · split at h
    · cases h
    · split at h
      · cases h
        exact ⟨fun hr => hi.1 (by simpa [bs_put] using hr), fun _ => rfl⟩
      · cases h; exact hi

theorem get_pending_bitstream_reinit {q : QSVDecContext} {r : Nat × QSVDecContext}
    (h : get_pending_bitstream q = .ok r) : r.2.reinit = q.reinit := by
  unfold get_pending_bitstream at h
  repeat' split at h
  all_goals (try cases h)
  all_goals simp only [bs_put]
  all_goals (try split)
  all_goals rfl

theorem select_input_flush {size : Nat} {st st' : LoopSt} {brk : Bool}
    (h : select_input size st = .ok (st', brk)) :
    (st.flush = true → st'.flush = true) ∧
    (st'.q.reinit.isSome = true → st.q.reinit.isSome = true ∨ st'.flush = true) ∧
    (brk = true → st' = st) ∧
    (st.inbs = none → st.flush = true → st'.inbs = none) := by
  unfold select_input at h
  repeat' split at h
  all_goals (try cases h)
  all_goals (try (rename_i r hg; have hreinit := get_pending_bitstream_reinit hg))
  all_goals (refine ⟨?_, ?_, ?_, ?_⟩ <;> intros <;> simp_all)

theorem loop_head_flush {size : Nat} {st st' : LoopSt} {brk : Bool}
    (h : loop_head size st = .ok (st', brk)) (hi : FlushInv st) : FlushInv st' := by
  unfold loop_head at h
  split at h
  · cases h
  · rename_i st1 h1
    have hi1 := drop_consumed_flush h1 hi
    split at h
    · cases h
    · rename_i st2 h2
      cases h
      obtain ⟨_, _, k3, _⟩ := select_input_flush h2
      rw [k3 rfl]; exact hi1
    · rename_i st2 h2
      cases h
      obtain ⟨k1, k2, _, _⟩ := select_input_flush h2
      refine ⟨?_, ?_⟩
      · intro hr
        rcases k2 hr with hc | hc
        · exact k1 (hi1.1 hc)
        · exact hc
      · intro hf
        simp only at hf ⊢
        simp [hf]

theorem loop_tail_flush {it : IterEnv} {st st' : LoopSt} {stop : Bool}
    (h : loop_tail it st = .ok (st', stop)) (hi : FlushInv st) : FlushInv st' := by
  have f := loop_tail_frame h
  unfold FlushInv at hi ⊢
  rw [f]
  exact hi

theorem dec_loop_flush {size : Nat} :
    ∀ (iters : List IterEnv) (st st' : LoopSt), dec_loop size iters st = .ok st' →
      FlushInv st → FlushInv st' := by
  intro iters
  induction iters with
  | nil =>
    intro st st' h hi
    unfold dec_loop at h
    repeat' split at h
    all_goals (try cases h)
    rename_i hh
    exact loop_head_flush hh hi
  | cons it rest ih =>
    intro st st' h hi
    unfold dec_loop at h
    split at h
    · cases h
    · rename_i hh
      cases h
      exact loop_head_flush hh hi
    · rename_i st1 hh
      have h1 := loop_head_flush hh hi
      split at h
      · cases h
      · rename_i ht
        cases h
        exact loop_tail_flush ht h1
      · rename_i st2 ht
        exact ih st2 st' h (loop_tail_flush ht h1)

theorem reinit_decoder_reinit {E : Int → Int} {env : InitEnv} {q q' : QSVDecContext}
    (h : reinit_decoder E env q = .ok q') : q'.reinit = none := by
  unfold reinit_decoder at h
  simp only at h
  repeat' split at h
  all_goals (try cases h)
  rfl

theorem init_decoder_frame {E : Int → Int} {benv : BsEnv} {env : InitEnv}
    {q q' : QSVDecContext} {avpkt : AVPacket}
    (h : init_decoder E benv env q avpkt = .ok q') :
    q' = { q with bs_pool := q'.bs_pool, log := q'.log, param := q'.param
                  NumFrameMin := q'.NumFrameMin, NumFrameSuggested := q'.NumFrameSuggested
                  last_ret := q'.last_ret, initialized := q'.initialized } := by
  unfold init_decoder at h
  split at h
  · have fb := get_bitstream_from_packet_frame benv.mallocOk benv.pktRef q avpkt
    split at h
    · rename_i q1 hg
      cases h
      rw [hg] at fb
      simp only at fb
      rw [fb]
    · rename_i a q1 hg
      rw [hg] at fb
      simp only at fb
      split at h
      · cases h
      · rename_i r hr
        have fi := ff_qsv_dec_init_decoder_frame hr
        split at h
        · cases h
        · cases h
          simp only [bs_put]
          rw [fi, fb]
  · cases h; rfl

theorem reinitInv_feed_pre {E : Int → Int} {env : FeedEnv} {q : QSVDecContext}
    {avpkt : AVPacket} {x : Sum (FeedResult × QSVDecContext) LoopSt}
    (h : feed_pre E env q avpkt = .ok x) (hi : ReinitInv q) :
    match x with
    | Sum.inl r => ReinitInv r.2
    | Sum.inr st => FlushInv st := by
  unfold feed_pre at h
  split at h
  · cases h
  · rename_i q1 h1
    have hi1 : ReinitInv q1 := by
      split at h1
      · intro hc
        rw [reinit_decoder_reinit h1] at hc
        cases hc
      · cases h1; exact hi
    split at h
    · cases h
    · rename_i q2 h2
      have hi2 : ReinitInv q2 := by
        split at h2
        · cases h2; exact hi1
        · have f := init_decoder_frame h2
          unfold ReinitInv at hi1 ⊢
          rw [f]; exact hi1
      split at h
      · cases h; exact hi2
      · simp only at h
        split at h
        · split at h
          · cases h
          · rename_i ret q3 hp
            have hi3 : ReinitInv q3 := by
              have f := put_dts_frame hp
              unfold ReinitInv at hi2 ⊢
              rw [f]; exact hi2
            split at h
            · cases h; exact hi3
            · have fb := get_bitstream_from_packet_frame env.curBs.mallocOk env.curBs.pktRef
                q3 avpkt
              split at h
              · rename_i q4 hg
                cases h
                rw [hg] at fb
                simp only at fb
                show ReinitInv q4
                unfold ReinitInv at hi3 ⊢
                rw [fb]; exact hi3
              · rename_i c q4 hg
                cases h
                rw [hg] at fb
                simp only at fb
                show FlushInv _
                unfold ReinitInv at hi3
                unfold FlushInv
                simp only
                rw [fb]
                exact ⟨fun hc => hc, fun hc => hi3 hc⟩
        · cases h
          exact ⟨fun hc => hc, fun hc => hi2 hc⟩

theorem feed_drain_frame {E : Int → Int} {syncRet : Int} {size : Nat} {ret : Int}
    {q q' : QSVDecContext} {r : FeedResult}
    (h : feed_drain E syncRet size ret q = .ok (r, q')) :
    q' = { q with surf_pool := q'.surf_pool, pending_sync := q'.pending_sync
                  pending_sync_end := q'.pending_sync_end, nb_sync := q'.nb_sync
                  log := q'.log, ts := q'.ts } := by
  unfold feed_drain at h
  split at h
  · split at h
    · cases h
    · rename_i surf sync q1 hg
      have fg := get_sync_frame hg
      simp only at h
      split at h
      · cases h; simp only; rw [fg]
      · split at h
        · cases h
        · split at h
          · cases h
          · rename_i r0 dts q3 hd
            have fd := get_dts_frame hd
            simp only at fd
            split at h
            · cases h; rw [fd, fg]
            · split at h
              · cases h
              · cases h
              · cases h
                rw [release_surface_frame]
                simp only [surf_put]
                rw [fd, fg]
  · cases h; rfl

theorem feed_post_frame {E : Int → Int} {syncRet : Int} {size : Nat} {st : LoopSt}
    {q' : QSVDecContext} {r : FeedResult}
    (h : feed_post E syncRet size st = .ok (r, q')) :
    q' = { st.q with last_ret := st.ret, bs := st.inbs, bs_pool := q'.bs_pool
                     pending_dec := q'.pending_dec, pending_dec_end := q'.pending_dec_end
                     surf_pool := q'.surf_pool, pending_sync := q'.pending_sync
                     pending_sync_end := q'.pending_sync_end, nb_sync := q'.nb_sync
                     log := q'.log, ts := q'.ts } := by
  unfold feed_post at h
  simp only at h
  split at h
  · cases h
  · rename_i q2 hp
    have f2 : q2 = { st.q with last_ret := st.ret, bs := st.inbs, bs_pool := q2.bs_pool
                               pending_dec := q2.pending_dec
                               pending_dec_end := q2.pending_dec_end } := by
      split at hp
      · have := put_pending_bitstream_frame hp
        rw [this]
      · cases hp; rfl
    split at h
    · cases h
    · rename_i q3 hs
      have f3 : q3 = { q2 with surf_pool := q3.surf_pool, pending_sync := q3.pending_sync
                               pending_sync_end := q3.pending_sync_end
                               nb_sync := q3.nb_sync } := by
        split at hs
        · exact put_sync_frame hs
        · cases hs; rfl
      have f4 := feed_drain_frame h
      rw [f4, f3, f2]

theorem reinitInv_ff_qsv_dec_frame {E : Int → Int} {env : FeedEnv} {q q' : QSVDecContext}
    {avpkt : AVPacket} {r : FeedResult}
    (h : ff_qsv_dec_frame E env q avpkt = .ok (r, q')) (hi : ReinitInv q) : ReinitInv q' := by
  unfold ff_qsv_dec_frame at h
  split at h
  · cases h
  · rename_i r0 hp
    cases h
    exact reinitInv_feed_pre hp hi
  · rename_i st0 hp
    have h0 : FlushInv st0 := reinitInv_feed_pre hp hi
    split at h
    · cases h
    · rename_i st hl
      have h1 := dec_loop_flush _ _ _ hl h0
      have f := feed_post_frame h
      unfold ReinitInv
      rw [f]
      exact fun hc => h1.2 (h1.1 hc)

theorem reinitInv_reachable {E : Int → Int} {q : QSVDecContext} (h : Reachable E q) :
    ReinitInv q := by
  induction h with
  | init q hq =>
    unfold Initial at hq
    unfold ReinitInv
    rw [hq]
    intro hc
    cases hc
  | feed env q avpkt r q' _ hstep ih => exact reinitInv_ff_qsv_dec_frame hstep ih

/-! ## Lemmas: a call in which the accelerator is always busy -/

theorem bs_at_of_live {q : QSVDecContext} {a : Nat}
    (h : q.bs_base ≤ a ∧ a < q.bs_base + q.bs_pool.length) : ∃ n, bs_at q a = some n := by
  unfold bs_at
  have h1 : ¬ a < q.bs_base := by omega
  simp only [h1, if_false]
  exact ⟨_, List.getElem?_eq_getElem (by omega)⟩

theorem live_of_bs_at {q : QSVDecContext} {a : Nat} {n : QSVDecBitstreamList}
    (h : bs_at q a = some n) : q.bs_base ≤ a ∧ a < q.bs_base + q.bs_pool.length := by
  unfold bs_at at h
  split at h
  · cases h
  · have := (List.getElem?_eq_some.1 h).1
    omega

theorem wrap32_id {x : Int} (h1 : -2147483648 ≤ x) (h2 : x < 2147483648) : wrap32 x = x := by
  unfold wrap32
  omega

theorem set_surface_data_total {frameOk : Bool} {bufRet : Int} (q : QSVDecContext)
    {list : QSVDecSurfaceList} (hm : list.MemId ≠ FrameRef.freed) (hf : frameOk = true)
    (hb : 0 ≤ bufRet) :
    ∃ n', set_surface_data frameOk bufRet q list = .ok (0, n') ∧ n'.MemId ≠ FrameRef.freed := by
  have hnb : ¬ bufRet < 0 := by omega
  unfold set_surface_data
  split
  · rename_i hc; exact absurd hc hm
  · simp only [hf, hnb, if_true, if_false]
    exact ⟨_, rfl, by simp⟩
  · rename_i hc
    exact ⟨_, rfl, by simp [hc]⟩
  · simp only [hnb, if_false]
    exact ⟨_, rfl, by simp⟩

theorem no_freed_set_locked {q : QSVDecContext} (f : Nat → Nat) (h : no_freed q) :
    no_freed { q with surf_pool := set_locked f q.surf_base q.surf_pool } := by
  intro n hn
  obtain ⟨k, hk⟩ := List.mem_iff_getElem?.1 hn
  simp only at hk
  rw [set_locked_getElem?] at hk
  cases hq : q.surf_pool[k]? with
  | none => rw [hq] at hk; cases hk
  | some m =>
    rw [hq] at hk
    simp only [Option.map_some', Option.some.injEq] at hk
    subst hk
    exact h m (List.getElem?_mem hq)

theorem get_surface_total {mallocOk frameOk : Bool} {bufRet : Int} {q : QSVDecContext}
    (h : no_freed q) (hm : mallocOk = true) (hf : frameOk = true) (hb : 0 ≤ bufRet) :
    ∃ w q1, get_surface mallocOk frameOk bufRet q = .ok (some w, q1) ∧ no_freed q1 := by
  obtain ⟨n0, h0, hget, _, _, hold⟩ := surf_pool_ext_idx q
  have hlt : q.surf_pool.findIdx surf_free < (surf_pool_ext q).length :=
    (List.getElem?_eq_some.1 h0).1
  have hext : ∀ n ∈ surf_pool_ext q, n.MemId ≠ FrameRef.freed := by
    intro n hn
    unfold surf_pool_ext at hn
    split at hn
    · rcases List.mem_append.1 hn with h1 | h1
      · exact h n h1
      · simp only [List.mem_singleton] at h1
        subst h1
        simp
    · exact h n hn
  have hn0 : n0.MemId ≠ FrameRef.freed := hext n0 (List.getElem?_mem h0)
  obtain ⟨n', hs, hn'⟩ := @set_surface_data_total frameOk bufRet q
    { n0 with next := none } hn0 hf hb
  refine ⟨q.surf_base + q.surf_pool.findIdx surf_free,
    { q with surf_pool := (surf_pool_ext q).set (q.surf_pool.findIdx surf_free) n' }, ?_, ?_⟩
  · unfold get_surface
    simp only [hm, and_false, if_false, Bool.true_eq_false]
    have : (if q.surf_pool.findIdx surf_free = q.surf_pool.length
        then q.surf_pool ++ [({} : QSVDecSurfaceList)] else q.surf_pool) = surf_pool_ext q := rfl
    rw [this, hget, hs]
    simp
  · intro n hn
    simp only at hn
    rcases List.mem_or_eq_of_mem_set hn with h1 | h1
    · exact hext n h1
    · subst h1; exact hn'

theorem bs_live_bs_put {q : QSVDecContext} {a : Nat} {n : QSVDecBitstreamList} {p : Option Nat}
    (h : bs_live q p) : bs_live (bs_put q a n) p := by
  intro b hb
  have := h b hb
  simpa [bs_put] using this

/-- The first statement of the loop body on a live input: it returns, keeps
everything but the bitstream pool content and `inbs`. -/
theorem drop_consumed_total {t : Int} {s : Option Nat × Int × Nat} {st : LoopSt} (h : BusyOk t s st) :
    ∃ st1, drop_consumed st = .ok st1 ∧ BusyOk t s st1 ∧ st1.ret = st.ret ∧
      st1.flush = st.flush ∧ st1.busymsec = st.busymsec ∧
      st1.q.pending_dec = st.q.pending_dec ∧ st1.q.bs_base = st.q.bs_base ∧
      st1.q.bs_pool.length = st.q.bs_pool.length ∧ st1.q.reinit = st.q.reinit ∧
      st1.curbs = st.curbs := by
  obtain ⟨h1, h2, h3, h4, h5, h6, h7⟩ := h
  unfold drop_consumed
  cases hi : st.inbs with
  | none =>
    exact ⟨st, rfl, ⟨h1, h2, h3, h4, h5, h6, h7⟩, rfl, rfl, rfl, rfl, rfl, rfl, rfl, rfl⟩
  | some a =>
    obtain ⟨n, hn⟩ := bs_at_of_live (h1 a hi)
    simp only [hn]
    split
    · refine ⟨_, rfl, ⟨?_, ?_, ?_, h4, h5, h6, h7⟩, rfl, rfl, rfl, rfl, rfl, ?_, rfl, rfl⟩
      · intro b hb; cases hb
      · exact bs_live_bs_put h2
      · exact bs_live_bs_put h3
      · simp [bs_put]
    · exact ⟨st, rfl, ⟨h1, h2, h3, h4, h5, h6, h7⟩, rfl, rfl, rfl, rfl, rfl, rfl, rfl, rfl⟩

/-- The head of an iteration entered with the device-busy status. -/
theorem loop_head_busy {t : Int} {s : Option Nat × Int × Nat} {size : Nat} {st : LoopSt} (h : BusyOk t s st)
    (hret : st.ret = MFX_WRN_DEVICE_BUSY) :
    ∃ st1, loop_head size st = .ok (st1, false) ∧ BusyOk t s st1 ∧
      st1.ret = MFX_WRN_DEVICE_BUSY ∧ st1.busymsec = st.busymsec ∧
      st1.q.reinit = st.q.reinit := by
  obtain ⟨st1, hd, hok, e1, e2, e3, e4, e5, e6, e7, e8⟩ := drop_consumed_total h
  have hr1 : st1.ret = MFX_WRN_DEVICE_BUSY := e1.trans hret
  have hsel : select_input size st1 = .ok (st1, false) := by
    unfold select_input
    simp [hr1, MFX_WRN_DEVICE_BUSY, MFX_ERR_MORE_DATA, MFX_WRN_VIDEO_PARAM_CHANGED,
      MFX_ERR_INCOMPATIBLE_VIDEO_PARAM]
  unfold loop_head
  simp only [hd, hsel]
  obtain ⟨h1, h2, h3, h4, h5, h6, h7⟩ := hok
  refine ⟨_, rfl, ⟨?_, h2, h3, h4, h5, h6, h7⟩, hr1, e3, e7⟩
  intro b hb
  simp only at hb
  split at hb
  · cases hb
  · exact h1 b hb

theorem accel_consume_live (q : QSVDecContext) (inbs : Option Nat) (c : Nat) :
    (accel_consume q inbs c).bs_base = q.bs_base ∧
    (accel_consume q inbs c).bs_pool.length = q.bs_pool.length := by
  unfold accel_consume
  split
  · exact ⟨rfl, rfl⟩
  · split
    · exact ⟨rfl, rfl⟩
    · exact ⟨rfl, by simp [bs_put]⟩

/-- The tail of an iteration answered with device-busy and no output, with a
surface available. -/
theorem loop_tail_busy {t : Int} {s : Option Nat × Int × Nat} {it : IterEnv} {st : LoopSt} (h : BusyOk t s st)
    (hs : it.status = MFX_WRN_DEVICE_BUSY) (ho : it.out = none)
    (hm : it.mallocOk = true) (hf : it.frameOk = true) (hb : 0 ≤ it.bufRet) :
    ∃ st1, loop_tail it st = .ok (st1, decide (st.busymsec > t)) ∧ BusyOk t s st1 ∧
      st1.ret = MFX_WRN_DEVICE_BUSY ∧ st1.q.reinit = st.q.reinit ∧
      (¬ st.busymsec > t → st1.busymsec = wrap32 (st.busymsec + 1)) := by
  obtain ⟨h1, h2, h3, h4, h5, h6, h7⟩ := h
  obtain ⟨w, q1, hg, hnf⟩ := get_surface_total (no_freed_set_locked it.Locked h4) hm hf hb
  have fg := get_surface_frame hg
  have g1 : q1.bs_base = st.q.bs_base := by rw [fg]
  have g2 : q1.bs_pool = st.q.bs_pool := by rw [fg]
  have g3 : q1.pending_dec_end = st.q.pending_dec_end := by rw [fg]
  have g4 : dfields q1 = dfields st.q := by rw [fg]; rfl
  have g5 : q1.timeout = st.q.timeout := by rw [fg]
  have g6 : q1.reinit = st.q.reinit := by rw [fg]
  clear fg
  generalize hq2 : accel_consume q1 st.inbs it.consumed = q2
  have fc := accel_consume_frame q1 st.inbs it.consumed
  have hl := accel_consume_live q1 st.inbs it.consumed
  rw [hq2] at fc hl
  have c1 : q2.pending_dec_end = st.q.pending_dec_end := by rw [fc]; exact g3
  have c2 : dfields q2 = s := by rw [fc]; exact g4.trans h6
  have c3 : q2.timeout = t := by rw [fc]; exact g5.trans h7
  have c4 : q2.reinit = st.q.reinit := by rw [fc]; exact g6
  have c5 : no_freed q2 := by
    intro n hn
    rw [fc] at hn
    exact hnf n hn
  have hlive : ∀ p, bs_live st.q p → bs_live q2 p := by
    intro p hp b hb'
    rw [hl.1, hl.2, g1, g2]
    exact hp b hb'
  clear fc
  unfold loop_tail
  simp only [hg, hs, ho, if_true, hq2]
  rw [c3]
  by_cases hbm : st.busymsec > t
  · simp only [hbm, if_true, decide_True]
    exact ⟨_, rfl, ⟨hlive _ h1, hlive _ h2, c1 ▸ hlive _ h3, c5, h5, c2, rfl⟩, rfl, c4,
      fun hc => absurd trivial hc⟩
  · simp only [hbm, if_false, decide_False]
    exact ⟨_, rfl, ⟨hlive _ h1, hlive _ h2, c1 ▸ hlive _ h3, c5, h5, c2, rfl⟩, rfl, c4,
      fun _ => rfl⟩

/-- From an iteration entered with device-busy on, the loop runs until the
busy counter exceeds the timeout and then stops. -/
theorem dec_loop_busy {t : Int} {s : Option Nat × Int × Nat} {size : Nat} (ht : t < 2147483647) :
    ∀ (iters : List IterEnv) (st : LoopSt), BusyOk t s st → st.ret = MFX_WRN_DEVICE_BUSY →
      0 ≤ st.busymsec → st.busymsec ≤ t + 1 → t + 2 - st.busymsec ≤ iters.length →
      (∀ it ∈ iters, busy_iter it) →
      ∃ st', dec_loop size iters st = .ok st' ∧ BusyOk t s st' ∧
        st'.ret = MFX_WRN_DEVICE_BUSY ∧ st'.q.reinit = st.q.reinit := by
  intro iters
  induction iters with
  | nil =>
    intro st _ _ _ h2 h3 _
    simp only [List.length_nil, Nat.cast_zero] at h3
    omega
  | cons it rest ih =>
    intro st hok hret h1 h2 h3 hall
    obtain ⟨st1, hh, hok1, hret1, hb1, hr1⟩ := @loop_head_busy _ _ size _ hok hret
    obtain ⟨b1, b2, b3, b4, b5⟩ := hall it (List.mem_cons_self _ _)
    obtain ⟨st2, htl, hok2, hret2, hr2, hb2⟩ := loop_tail_busy hok1 b1 b2 b3 b4 b5
    unfold dec_loop
    simp only [hh, htl]
    by_cases hbm : st1.busymsec > t
    · simp only [hbm, decide_True]
      exact ⟨st2, rfl, hok2, hret2, hr2.trans hr1⟩
    · simp only [hbm, decide_False]
      have hb2' := hb2 hbm
      rw [wrap32_id (by omega) (by omega)] at hb2'
      simp only [List.length_cons, Nat.cast_add, Nat.cast_one] at h3
      obtain ⟨st', hd, hok', hret', hr'⟩ := ih st2 hok2 hret2 (by omega) (by omega) (by omega)
        (fun x hx => hall x (List.mem_cons_of_mem _ hx))
      exact ⟨st', hd, hok', hret', hr'.trans (hr2.trans hr1)⟩

theorem bs_live_none (q : QSVDecContext) : bs_live q none := by
  intro a ha
  cases ha

theorem get_pending_bitstream_total {q : QSVDecContext} {a : Nat}
    (hp : q.pending_dec = some a) (hl : q.bs_base ≤ a ∧ a < q.bs_base + q.bs_pool.length) :
    ∃ q1, get_pending_bitstream q = .ok (a, q1) ∧ q1.bs_base = q.bs_base ∧
      q1.bs_pool.length = q.bs_pool.length ∧
      (q1.pending_dec_end = none ∨ q1.pending_dec_end = q.pending_dec_end) ∧
      q1.surf_pool = q.surf_pool ∧ dfields q1 = dfields q ∧
      q1.timeout = q.timeout ∧ q1.reinit = q.reinit := by
  obtain ⟨n, hn⟩ := bs_at_of_live hl
  unfold get_pending_bitstream
  simp only [hp, hn]
  by_cases hnn : n.next = none
  · simp only [hnn, if_true]
    exact ⟨_, rfl, rfl, by simp [bs_put], Or.inl rfl, rfl, rfl, rfl, rfl⟩
  · simp only [hnn, if_false]
    exact ⟨_, rfl, rfl, by simp [bs_put], Or.inr rfl, rfl, rfl, rfl, rfl⟩

/-- The head of the first iteration of a call that is not flushing: it does
not break. -/
theorem loop_head_first {t : Int} {s : Option Nat × Int × Nat} {size : Nat} {st : LoopSt} (h : BusyOk t s st)
    (hfl : st.flush = false) (hpd : bs_live st.q st.q.pending_dec)
    (hcur : size ≠ 0 → st.curbs.isSome = true) :
    ∃ st1, loop_head size st = .ok (st1, false) ∧ BusyOk t s st1 ∧
      st1.busymsec = st.busymsec ∧
      (st.ret ≠ MFX_ERR_INCOMPATIBLE_VIDEO_PARAM → st1.q.reinit = st.q.reinit) := by
  obtain ⟨st1, hd, hok, e1, e2, e3, e4, e5, e6, e7, e8⟩ := drop_consumed_total h
  obtain ⟨h1, h2, h3, h4, h5, h6, h7⟩ := hok
  have hfl1 : st1.flush = false := e2.trans hfl
  have hdata : ∃ b, inbs_has_data st1 = .ok b := by
    unfold inbs_has_data
    cases hi : st1.inbs with
    | none => exact ⟨false, rfl⟩
    | some a =>
      obtain ⟨n, hn⟩ := bs_at_of_live (h1 a hi)
      simp only [hn]
      exact ⟨_, rfl⟩
  obtain ⟨b, hb⟩ := hdata
  have hsel : ∃ st2, select_input size st1 = .ok (st2, false) ∧ BusyOk t s st2 ∧
      st2.busymsec = st1.busymsec ∧
      (st1.ret ≠ MFX_ERR_INCOMPATIBLE_VIDEO_PARAM → st2.q.reinit = st1.q.reinit) := by
    unfold select_input
    by_cases hr : st1.ret = MFX_ERR_MORE_DATA
    · simp only [hr, if_true, hfl1, Bool.false_eq_true, if_false, hb]
      cases b with
      | true => exact ⟨st1, rfl, ⟨h1, h2, h3, h4, h5, h6, h7⟩, rfl, fun _ => rfl⟩
      | false =>
        simp only
        cases hp : st1.q.pending_dec with
        | some a =>
          have hl : st1.q.bs_base ≤ a ∧ a < st1.q.bs_base + st1.q.bs_pool.length := by
            rw [e5, e6]
            exact hpd a (e4 ▸ hp)
          obtain ⟨q1, hg, g1, g2, g3, g4, g5, g6, g7⟩ := get_pending_bitstream_total hp hl
          simp only [Option.isSome_some, if_true, hg]
          refine ⟨_, rfl, ⟨?_, ?_, ?_, ?_, h5, g5.trans h6, g6.trans h7⟩, rfl, fun _ => g7⟩
          · intro x hx
            cases hx
            rw [g1, g2]; exact hl
          · intro x hx
            rw [g1, g2]; exact h2 x hx
          · intro x hx
            rw [g1, g2]
            rcases g3 with g3 | g3
            · simp only at hx; rw [g3] at hx; cases hx
            · simp only at hx; rw [g3] at hx; exact h3 x hx
          · intro n hn
            simp only at hn
            rw [g4] at hn
            exact h4 n hn
        | none =>
          simp only [Option.isSome_none, Bool.false_eq_true, if_false]
          cases hc : st1.curbs with
          | some c =>
            simp only [Option.isSome_some, if_true]
            exact ⟨_, rfl, ⟨fun x hx => h2 x (hc ▸ hx), bs_live_none _, h3, h4, h5, h6,
              h7⟩, rfl, fun _ => rfl⟩
          | none =>
            simp only [Option.isSome_none, Bool.false_eq_true, if_false]
            have hs0 : size = 0 := by
              by_contra hne
              have := hcur hne
              rw [← e8, hc] at this
              cases this
            simp only [hs0, if_true]
            exact ⟨_, rfl, ⟨h1, bs_live_none _, h3, h4, h5, h6, h7⟩, rfl, fun _ => rfl⟩
    · simp only [hr, if_false]
      split
      · exact ⟨st1, rfl, ⟨h1, h2, h3, h4, h5, h6, h7⟩, rfl, fun _ => rfl⟩
      · split
        · rename_i hinc
          simp only [hfl1, Bool.false_eq_true, if_false]
          exact ⟨_, rfl, ⟨h1, h2, h3, h4, h5, h6, h7⟩, rfl, fun hc => absurd hinc hc⟩
        · exact ⟨st1, rfl, ⟨h1, h2, h3, h4, h5, h6, h7⟩, rfl, fun _ => rfl⟩
  obtain ⟨st2, hs2, ⟨k1, k2, k3, k4, k5, k6, k7⟩, hb2, hre2⟩ := hsel
  unfold loop_head
  simp only [hd, hs2]
  refine ⟨_, rfl, ⟨?_, k2, k3, k4, k5, k6, k7⟩, hb2.trans e3,
    fun hc => (hre2 (e1 ▸ hc)).trans e7⟩
  intro x hx
  simp only at hx
  split at hx
  · cases hx
  · exact k1 x hx

theorem feed_pre_entry {E : Int → Int} {env : FeedEnv} {q : QSVDecContext}
    {avpkt : AVPacket} {st0 : LoopSt}
    (h : feed_pre E env q avpkt = .ok (Sum.inr st0)) :
    st0.busymsec = 0 ∧ st0.outsync = 0 ∧ (avpkt.size ≠ 0 → st0.curbs.isSome = true) ∧
      st0.flush = st0.q.reinit.isSome ∧ st0.ret = st0.q.last_ret ∧ st0.inbs = st0.q.bs := by
  unfold feed_pre at h
  repeat' (first | split at h | simp only at h)
  all_goals (try cases h)
  all_goals (refine ⟨rfl, rfl, ?_, rfl, rfl, rfl⟩)
  · intro _; rfl
  · intro hc; rename_i hz; exact absurd hc hz

theorem put_pending_bitstream_total {q : QSVDecContext} {c : Nat}
    (hc : q.bs_base ≤ c ∧ c < q.bs_base + q.bs_pool.length)
    (he : bs_live q q.pending_dec_end) :
    ∃ q2, put_pending_bitstream q c = .ok q2 ∧ dfields q2 = dfields q ∧
      q2.reinit = q.reinit ∧ q2.last_ret = q.last_ret := by
  obtain ⟨n, hn⟩ := bs_at_of_live hc
  unfold put_pending_bitstream
  simp only [hn]
  cases hpe : q.pending_dec_end with
  | none => exact ⟨_, rfl, rfl, rfl, rfl⟩
  | some e =>
    obtain ⟨en, hen⟩ := bs_at_of_live (he e hpe)
    simp only [hen]
    exact ⟨_, rfl, rfl, rfl, rfl⟩

theorem feed_drain_not_due (E : Int → Int) (syncRet : Int) {size : Nat} (ret : Int)
    {q : QSVDecContext} (h : drain_due size q = false) :
    feed_drain E syncRet size ret q = .ok (⟨if ret < 0 then ret else size, 0, none⟩, q) := by
  unfold feed_drain
  simp [h]

theorem drain_not_due_of {size : Nat} {q : QSVDecContext} {s : Option Nat × Int × Nat}
    (d : dfields q = s)
    (hnd : s.1 = none ∨ (s.2.1 < (s.2.2 : Int) ∧ size ≠ 0 ∧ q.reinit = none)) :
    drain_due size q = false := by
  unfold drain_due
  unfold dfields at d
  rcases hnd with hn | ⟨hn1, hn2, hn3⟩
  · have : q.pending_sync = none := by rw [← hn, ← d]
    simp [this]
  · have e1 : q.nb_sync = s.2.1 := by rw [← d]
    have e2 : q.NumFrameMin = s.2.2 := by rw [← d]
    have : ¬ (q.nb_sync ≥ (q.NumFrameMin : Int)) := by rw [e1, e2]; omega
    simp [this, hn2, hn3]

theorem feed_post_busy (E : Int → Int) (syncRet : Int) (size : Nat) {t : Int}
    {s : Option Nat × Int × Nat} {st : LoopSt} (hok : BusyOk t s st)
    (hret : st.ret = MFX_WRN_DEVICE_BUSY)
    (hnd : s.1 = none ∨ (s.2.1 < (s.2.2 : Int) ∧ size ≠ 0 ∧ st.q.reinit = none)) :
    ∃ q', feed_post E syncRet size st =
        .ok (⟨if E MFX_WRN_DEVICE_BUSY < 0 then E MFX_WRN_DEVICE_BUSY else size, 0, none⟩, q') ∧
      q'.last_ret = MFX_WRN_DEVICE_BUSY := by
  obtain ⟨h1, h2, h3, h4, h5, h6, h7⟩ := hok
  have hne : ¬ (st.ret = MFX_ERR_MORE_DATA) := by rw [hret]; decide
  cases hc : st.curbs with
  | none =>
    have hdue : drain_due size { st.q with last_ret := st.ret, bs := st.inbs } = false :=
      drain_not_due_of (s := s) h6 hnd
    unfold feed_post
    simp only [hc, h5, ne_eq, not_true_eq_false, if_false, hne]
    rw [feed_drain_not_due E syncRet _ hdue, hret]
    exact ⟨_, rfl, rfl⟩
  | some c =>
    obtain ⟨q2, hq2, k1, k2, k3⟩ := put_pending_bitstream_total
      (q := { st.q with last_ret := st.ret, bs := st.inbs }) (h2 c hc) h3
    have hdue : drain_due size q2 = false := by
      refine drain_not_due_of (s := s) (k1.trans h6) ?_
      rcases hnd with hn | ⟨hn1, hn2, hn3⟩
      · exact Or.inl hn
      · exact Or.inr ⟨hn1, hn2, k2.trans hn3⟩
    unfold feed_post
    simp only [hc, hq2, h5, ne_eq, not_true_eq_false, if_false, hne]
    rw [feed_drain_not_due E syncRet _ hdue, hret]
    exact ⟨_, rfl, k3.trans hret⟩

/-! ## The sync queue as an exact list -/

theorem surf_at_surf_put {q : QSVDecContext} {X : Nat} {n n' : QSVDecSurfaceList}
    (hX : surf_at q X = some n) (a : Nat) :
    surf_at (surf_put q X n') a = if a = X then some n' else surf_at q a := by
  unfold surf_at at hX
  split at hX
  · cases hX
  · rename_i hge
    have hlt : X - q.surf_base < q.surf_pool.length := (List.getElem?_eq_some.1 hX).1
    simp only [surf_put, surf_at]
    by_cases hax : a = X
    · subst hax
      simp [hge, List.getElem?_set_self hlt]
    · simp only [hax, if_false]
      split
      · rfl
      · rw [List.getElem?_set_ne (by omega)]

theorem schain_split {f : Nat → Option (Option Nat)} :
    ∀ (L1 L2 : List Nat) (p t : Option Nat), SChain f p (L1 ++ L2) t →
      ∃ m, SChain f p L1 m ∧ SChain f m L2 t := by
  intro L1
  induction L1 with
  | nil => intro L2 p t h; exact ⟨p, rfl, h⟩
  | cons a rest ih =>
    intro L2 p t h
    obtain ⟨hp, v, hv, hrest⟩ := h
    obtain ⟨m, h1, h2⟩ := ih L2 v t hrest
    exact ⟨m, ⟨hp, v, hv, h1⟩, h2⟩

theorem schain_head {f : Nat → Option (Option Nat)} {p t : Option Nat} {L : List Nat}
    (h : SChain f p L t) (ht : t = none) : p = L.head? := by
  cases L with
  | nil => simp only [SChain] at h; rw [h, ht]; rfl
  | cons a rest => exact h.1

/-- A change of the pool that keeps the link and the pending-sync state of
every node of the queue keeps the queue. -/
theorem syncExact_congr {q q' : QSVDecContext} {L : List Nat}
    (hnode : ∀ a ∈ L, ∀ n, surf_at q a = some n →
      ∃ n', surf_at q' a = some n' ∧ n'.next = n.next ∧ (n.sync ≠ 0 → n'.sync ≠ 0))
    (h1 : q'.pending_sync = q.pending_sync) (h2 : q'.pending_sync_end = q.pending_sync_end)
    (h3 : q'.nb_sync = q.nb_sync) (h4 : q'.initialized = false → q.initialized = false)
    (hi : SyncExact q L) : SyncExact q' L := by
  obtain ⟨c, nd, sy, nb, en, ini⟩ := hi
  refine ⟨?_, nd, ?_, h3.trans nb, h2.trans en, fun h => ini (h4 h)⟩
  · rw [h1]
    refine schain_congr L _ _ ?_ c
    intro a ha v hv
    simp only [nx] at hv ⊢
    cases hn : surf_at q a with
    | none => rw [hn] at hv; cases hv
    | some n =>
      rw [hn] at hv
      obtain ⟨n', hn', e1, _⟩ := hnode a ha n hn
      rw [hn']
      simp only [Option.map_some', Option.some.injEq] at hv ⊢
      rw [e1]; exact hv
  · intro a ha
    obtain ⟨n, hn, hs⟩ := sy a ha
    obtain ⟨n', hn', _, e2⟩ := hnode a ha n hn
    exact ⟨n', hn', e2 hs⟩

theorem syncExact_of_fields {q q' : QSVDecContext} {L : List Nat}
    (h : sfields q' = sfields q) (h4 : q'.initialized = false → q.initialized = false)
    (hi : SyncExact q L) : SyncExact q' L := by
  simp only [sfields, Prod.mk.injEq] at h
  obtain ⟨h1, h2, h3, h4', h5⟩ := h
  refine @syncExact_congr q q' L ?_ h3 h4' h5 h4 hi
  intro a _ n hn
  refine ⟨n, ?_, rfl, fun h => h⟩
  simpa [surf_at, h1, h2] using hn

/-- A store to a node that keeps its link and does not clear a non-zero
`sync` keeps the queue. -/
theorem syncExact_surf_put_same {q : QSVDecContext} {L : List Nat} {X : Nat}
    {n n' : QSVDecSurfaceList} (hX : surf_at q X = some n) (hn : n'.next = n.next)
    (hs : n.sync ≠ 0 → n'.sync ≠ 0) (hi : SyncExact q L) :
    SyncExact (surf_put q X n') L := by
  refine @syncExact_congr q (surf_put q X n') L ?_ rfl rfl rfl (fun h => h) hi
  intro a _ m hm
  rw [surf_at_surf_put hX]
  by_cases hax : a = X
  · subst hax
    rw [hX] at hm
    cases hm
    exact ⟨n', by simp, hn, hs⟩
  · exact ⟨m, by simp [hax, hm], rfl, fun h => h⟩

/-- A store to a node outside the queue keeps the queue. -/
theorem syncExact_surf_put_other {q : QSVDecContext} {L : List Nat} {X : Nat}
    {n n' : QSVDecSurfaceList} (hX : surf_at q X = some n) (hout : X ∉ L)
    (hi : SyncExact q L) : SyncExact (surf_put q X n') L := by
  refine @syncExact_congr q (surf_put q X n') L ?_ rfl rfl rfl (fun h => h) hi
  intro a ha m hm
  rw [surf_at_surf_put hX]
  have hax : a ≠ X := fun hc => hout (hc ▸ ha)
  exact ⟨m, by simp [hax, hm], rfl, fun h => h⟩

theorem not_mem_of_sync_zero {q : QSVDecContext} {L : List Nat} {X : Nat}
    {n : QSVDecSurfaceList} (hi : SyncExact q L) (hX : surf_at q X = some n)
    (hz : n.sync = 0) : X ∉ L := by
  intro hmem
  obtain ⟨m, hm, hs⟩ := hi.2.2.1 X hmem
  rw [hX] at hm
  cases hm
  exact hs hz


theorem syncExact_set_locked {q : QSVDecContext} {L : List Nat} (f : Nat → Nat)
    (hi : SyncExact q L) :
    SyncExact { q with surf_pool := set_locked f q.surf_base q.surf_pool } L := by
  refine @syncExact_congr q { q with surf_pool := set_locked f q.surf_base q.surf_pool } L
    ?_ rfl rfl rfl (fun h => h) hi
  intro a _ n hn
  simp only [surf_at] at hn ⊢
  split at hn
  · cases hn
  · rename_i hge
    simp only [hge, if_false]
    rw [set_locked_getElem?, hn]
    exact ⟨_, rfl, rfl, fun h => h⟩

theorem syncExact_get_surface {mallocOk frameOk : Bool} {bufRet : Int} {q q' : QSVDecContext}
    {res : Option Nat} {L : List Nat}
    (h : get_surface mallocOk frameOk bufRet q = .ok (res, q'))
    (hi : SyncExact q L) : SyncExact q' L := by
  rcases get_surface_spec h with ⟨_, rfl⟩ | ⟨n', rfl, _, _, _, _⟩
  · exact hi
  · obtain ⟨n0, h0, _, _, hz, hold⟩ := surf_pool_ext_idx q
    refine @syncExact_congr q _ L ?_ rfl rfl rfl (fun h => h) hi
    intro a ha n hn
    obtain ⟨m, hm, hs⟩ := hi.2.2.1 a ha
    rw [hn] at hm
    cases hm
    refine ⟨n, ?_, rfl, fun h => h⟩
    simp only [surf_at] at hn ⊢
    split at hn
    · cases hn
    · rename_i hge
      simp only [hge, if_false]
      have hlt : a - q.surf_base < q.surf_pool.length := (List.getElem?_eq_some.1 hn).1
      have hne : q.surf_pool.findIdx surf_free ≠ a - q.surf_base := by
        intro hc
        have := hold (hc ▸ hlt)
        rw [hc, hn] at this
        cases this
        exact hs hz
      rw [List.getElem?_set_ne hne]
      exact surf_pool_ext_old q _ n hn

theorem syncExact_accel_output {q : QSVDecContext} {L : List Nat} (o : OutFrame)
    (hi : SyncExact q L) : SyncExact (accel_output q o) L := by
  unfold accel_output
  split
  · exact hi
  · split
    · exact hi
    · rename_i n hn
      exact syncExact_surf_put_same hn rfl (fun h => h) hi

theorem schain_single {f : Nat → Option (Option Nat)} {m : Option Nat} {e : Nat}
    (h : SChain f m [e] none) : m = some e ∧ f e = some none := by
  obtain ⟨h1, v, hv, hr⟩ := h
  simp only [SChain] at hr
  subst hr
  exact ⟨h1, hv⟩

/-- The function `put_sync` on a pool surface that is not pending-sync
appends it to the queue. -/
theorem syncExact_put_sync {q q' : QSVDecContext} {L : List Nat} {a s : Nat}
    {n : QSVDecSurfaceList} (h : put_sync q (some a) s = .ok q')
    (ha : surf_at q a = some n) (hz : n.sync = 0) (hs : s ≠ 0)
    (hini : q.initialized = true) (hi : SyncExact q L) : SyncExact q' (L ++ [a]) := by
  have hout : a ∉ L := not_mem_of_sync_zero hi ha hz
  have hne : ∀ b ∈ L, b ≠ a := fun b hb hc => hout (hc ▸ hb)
  obtain ⟨hc, hnd, sy, nb, en, _⟩ := hi
  simp only [put_sync, ha] at h
  split at h
  · rename_i e he
    split at h
    · cases h
    · rename_i en0 hen
      simp only [Except.ok.injEq] at h
      have he' : L.getLast? = some e := en.symm.trans he
      have hea : e ≠ a := hne e (List.mem_of_getLast?_eq_some he')
      have hat : ∀ b, surf_at q' b = if b = e then some { en0 with next := some a }
          else if b = a then some { n with sync := s, next := none } else surf_at q b := by
        intro b
        rw [← h]
        exact (surf_at_surf_put hen b).trans (by rw [surf_at_surf_put ha b])
      have f1 : q'.pending_sync = q.pending_sync := by rw [← h]; rfl
      have f2 : q'.pending_sync_end = some a := by rw [← h]
      have f3 : q'.nb_sync = q.nb_sync + 1 := by rw [← h]; rfl
      have f4 : q'.initialized = q.initialized := by rw [← h]; rfl
      clear h
      rw [surf_at_surf_put ha] at hen
      simp only [hea, if_false] at hen
      obtain ⟨pre, rfl⟩ : ∃ pre, L = pre ++ [e] :=
        ⟨L.dropLast, (List.dropLast_append_getLast? e he').symm⟩
      have hpre : ∀ b ∈ pre, b ≠ e := by
        intro b hb hcc
        subst hcc
        exact (List.nodup_append.1 hnd).2.2 hb (by simp)
      obtain ⟨m, c1, c2⟩ := schain_split pre [e] _ none hc
      obtain ⟨rfl, hve⟩ := schain_single c2
      have hsy : en0.sync ≠ 0 := by
        obtain ⟨m, hm, hs⟩ := sy e (by simp)
        rw [hen] at hm; cases hm; exact hs
      refine ⟨?_, ?_, ?_, ?_, ?_, ?_⟩
      · rw [f1]
        have e1 : pre ++ [e] ++ [a] = pre ++ [e, a] := by simp
        rw [e1]
        refine schain_append pre [e, a] _ (some e) none ?_ ?_
        · refine schain_congr pre _ _ ?_ c1
          intro b hb v hv
          simp only [nx] at hv ⊢
          rw [hat b]
          simp only [hpre b hb, hne b (by simp [hb]), if_false]
          exact hv
        · refine ⟨rfl, some a, ?_, rfl, none, ?_, rfl⟩
          · simp only [nx]; rw [hat e]; simp
          · simp only [nx]; rw [hat a]; simp [Ne.symm hea]
      · rw [List.nodup_append]
        refine ⟨hnd, by simp, ?_⟩
        intro b hb hb'
        simp only [List.mem_singleton] at hb'
        exact hout (hb' ▸ hb)
      · intro b hb
        rw [hat b]
        by_cases hbe : b = e
        · simp only [hbe, if_true]
          exact ⟨_, rfl, hsy⟩
        · simp only [hbe, if_false]
          by_cases hba : b = a
          · simp only [hba, if_true]
            exact ⟨_, rfl, hs⟩
          · simp only [hba, if_false]
            rcases List.mem_append.1 hb with hb | hb
            · exact sy b hb
            · simp only [List.mem_singleton] at hb
              exact absurd hb hba
      · rw [f3, nb]; simp; omega
      · rw [f2]; simp
      · intro hcc
        rw [f4, hini] at hcc; cases hcc
  · rename_i he
    simp only [Except.ok.injEq] at h
    have he' : L.getLast? = none := en.symm.trans he
    have hL : L = [] := List.getLast?_eq_none_iff.1 he'
    subst hL
    have hat : surf_at q' a = some { n with sync := s, next := none } := by
      rw [← h]
      exact (surf_at_surf_put ha a).trans (by simp)
    have f1 : q'.pending_sync = some a := by rw [← h]
    have f2 : q'.pending_sync_end = some a := by rw [← h]
    have f3 : q'.nb_sync = q.nb_sync + 1 := by rw [← h]; rfl
    have f4 : q'.initialized = q.initialized := by rw [← h]; rfl
    clear h
    refine ⟨⟨f1, none, ?_, rfl⟩, by simp, ?_, ?_, by simp [f2], ?_⟩
    · simp only [nx, hat]; rfl
    · intro b hb
      simp only [List.nil_append, List.mem_singleton] at hb
      subst hb
      exact ⟨_, hat, hs⟩
    · rw [f3, nb]; simp
    · intro hcc
      rw [f4, hini] at hcc; cases hcc

/-- The function `get_sync` on a non-empty queue pops its first node. -/
theorem syncExact_get_sync {q : QSVDecContext} {h0 : Nat} {rest : List Nat}
    (hi : SyncExact q (h0 :: rest)) :
    ∃ n q', get_sync q = .ok (h0, n.sync, q') ∧ surf_at q h0 = some n ∧
      surf_at q' h0 = some { n with next := none } ∧ q'.log = q.log ∧
      SyncExact q' rest := by
  obtain ⟨⟨hp, v, hv, hc⟩, nd, sy, nb, en, ini⟩ := hi
  obtain ⟨n, hn, hs⟩ := sy h0 (by simp)
  have hvn : v = n.next := by
    simp only [nx, hn, Option.map_some', Option.some.injEq] at hv
    exact hv.symm
  subst hvn
  have hnotin : h0 ∉ rest := (List.nodup_cons.1 nd).1
  have hhead : n.next = rest.head? := schain_head hc rfl
  have hini : q.initialized = true := by
    cases hq : q.initialized
    · cases ini hq
    · rfl
  obtain ⟨q', hq'⟩ : ∃ q', get_sync q = .ok (h0, n.sync, q') := by
    simp only [get_sync, hp, hn]; exact ⟨_, rfl⟩
  have h := hq'
  simp only [get_sync, hp, hn, Except.ok.injEq, Prod.mk.injEq, true_and] at h
  have hat : ∀ b, surf_at q' b = if b = h0 then some { n with next := none }
      else surf_at q b := by
    intro b
    rw [← h]
    have e0 : ∀ (qq : QSVDecContext), qq.surf_base = q.surf_base →
        qq.surf_pool = q.surf_pool → surf_at (surf_put qq h0 { n with next := none }) b
          = if b = h0 then some { n with next := none } else surf_at q b := by
      intro qq e1 e2
      have : surf_at qq h0 = some n := by simpa [surf_at, e1, e2] using hn
      rw [surf_at_surf_put this]
      simp [surf_at, e1, e2]
    split <;> exact e0 _ rfl rfl
  have f1 : q'.pending_sync = n.next := by rw [← h]; split <;> rfl
  have f2 : q'.pending_sync_end = if n.next = none then none else q.pending_sync_end := by
    rw [← h]; split <;> rfl
  have f3 : q'.nb_sync = q.nb_sync - 1 := by rw [← h]; split <;> rfl
  have f4 : q'.initialized = q.initialized := by rw [← h]; split <;> rfl
  have f5 : q'.log = q.log := by rw [← h]; split <;> rfl
  clear h
  refine ⟨n, q', hq', hn, by rw [hat]; simp, f5, ?_⟩
  refine ⟨?_, (List.nodup_cons.1 nd).2, ?_, ?_, ?_, ?_⟩
  · rw [f1]
    refine schain_keep ?_ _ _ _ hc hnotin
    intro b hb w hw
    simp only [nx] at hw ⊢
    rw [hat b]
    simp only [hb, if_false]
    exact hw
  · intro b hb
    rw [hat b]
    have hbh : b ≠ h0 := fun hc => hnotin (hc ▸ hb)
    simp only [hbh, if_false]
    exact sy b (List.mem_cons_of_mem _ hb)
  · rw [f3, nb]; simp
  · rw [f2, hhead, en]
    cases rest with
    | nil => simp
    | cons r rs => simp [List.getLast?_cons_cons]
  · intro hcc
    rw [f4, hini] at hcc; cases hcc


/-! ## Conservation through the submission loop -/

theorem handles_append (l : List Event) (e : Event) :
    handles (l ++ [e]) = handles l + (if is_handle e then 1 else 0) := by
  simp [handles, List.countP_append, List.countP_cons]

theorem waits_append (l : List Event) (e : Event) :
    waits (l ++ [e]) = waits l + (if is_wait e then 1 else 0) := by
  simp [waits, List.countP_append, List.countP_cons]

theorem loopCons_loop_head {size : Nat} {st st' : LoopSt} {brk : Bool} {L : List Nat}
    {k w : Nat} (h : loop_head size st = .ok (st', brk)) (hi : LoopCons L k w st) :
    LoopCons L k w st' ∧ st'.outsync = st.outsync := by
  have f := loop_head_frame h
  obtain ⟨h1, h2, h3, h4⟩ := hi
  have e1 : sfields st'.q = sfields st.q := by rw [f]; rfl
  have e2 : st'.q.initialized = st.q.initialized := by rw [f]
  have e3 : st'.q.log = st.q.log := by rw [f]
  have e4 : st'.outsync = st.outsync := by rw [f]
  refine ⟨⟨syncExact_of_fields e1 (fun hc => e2 ▸ hc) h1, e2.trans h2, by rw [e3]; exact h3, ?_⟩, e4⟩
  rw [e3, e4]; exact h4


theorem retry_status_busy : retry_status MFX_WRN_DEVICE_BUSY = true := by decide

theorem loopCons_tail_end {it : IterEnv} {st st' : LoopSt} {stop : Bool} {L : List Nat}
    {k w : Nat} {q3 : QSVDecContext} {wk : Nat} {osurf : Option Nat} {s : Nat}
    (hq3 : SyncExact q3 L) (i3 : q3.initialized = true) (l3 : q3.log = st.q.log)
    (h3 : waits st.q.log = w) (h4 : handles st.q.log = k)
    (hs : s ≠ 0 → retry_status it.status = false)
    (h : (let q4 := { q3 with log := q3.log ++ [Event.MFXVideoDECODE_DecodeFrameAsync st.inbs wk
                  it.status s] }
          let st1 := { st with q := q4, ret := it.status, outsurf := osurf, outsync := s }
          if it.status = MFX_WRN_DEVICE_BUSY then
            if st.busymsec > q4.timeout then Except.ok (st1, true)
            else
              .ok ({ st1 with q := { q4 with log := q4.log ++ [Event.av_usleep] }
                              busymsec := wrap32 (st.busymsec + 1) }, false)
          else .ok ({ st1 with busymsec := 0 }, !retry_status it.status))
        = (Except.ok (st', stop) : Except Fault (LoopSt × Bool))) :
    LoopCons L k w st' ∧ (stop = false → st'.outsync = 0) := by
  have hh : handles (q3.log ++ [Event.MFXVideoDECODE_DecodeFrameAsync st.inbs wk it.status s])
      = k + (if s = 0 then 0 else 1) := by
    rw [handles_append, l3, h4]
    by_cases hz : s = 0 <;> simp [is_handle, hz]
  have hw : waits (q3.log ++ [Event.MFXVideoDECODE_DecodeFrameAsync st.inbs wk it.status s])
      = w := by
    rw [waits_append, l3, h3]; simp [is_wait]
  simp only at h
  split at h
  · rename_i hb
    have hz : s = 0 := by
      by_contra hc
      have := hs hc
      rw [hb, retry_status_busy] at this
      cases this
    split at h
    · cases h
      exact ⟨⟨syncExact_of_fields rfl (fun hc => hc) hq3, i3, hw, hh⟩, fun _ => hz⟩
    · cases h
      refine ⟨⟨syncExact_of_fields rfl (fun hc => hc) hq3, i3, ?_, ?_⟩, fun _ => hz⟩
      · show waits (_ ++ [Event.av_usleep]) = w
        rw [waits_append, hw]; simp [is_wait]
      · show handles (_ ++ [Event.av_usleep]) = _
        rw [handles_append, hh]; simp [is_handle]
  · cases h
    refine ⟨⟨syncExact_of_fields rfl (fun hc => hc) hq3, i3, hw, hh⟩, ?_⟩
    intro hst
    by_contra hc
    have := hs hc
    rw [this] at hst
    cases hst

theorem loopCons_loop_tail {it : IterEnv} {st st' : LoopSt} {stop : Bool} {L : List Nat}
    {k w : Nat} (hw : handle_ends_loop it = true)
    (h : loop_tail it st = .ok (st', stop)) (h0 : st.outsync = 0)
    (hi : LoopCons L k w st) :
    LoopCons L k w st' ∧ (stop = false → st'.outsync = 0) := by
  obtain ⟨h1, h2, h3, h4⟩ := hi
  rw [h0] at h4
  simp only [if_true, Nat.add_zero] at h4
  unfold loop_tail at h
  simp only at h
  have hl := syncExact_set_locked it.Locked h1
  split at h
  · cases h
  · rename_i q1 hg
    cases h
    have fg := get_surface_frame hg
    refine ⟨⟨syncExact_get_surface hg hl, ?_, ?_, ?_⟩, fun _ => h0⟩
    · show q1.initialized = true
      rw [fg]; exact h2
    · show waits q1.log = w
      rw [fg]; exact h3
    · show handles q1.log = k + (if st.outsync = 0 then 0 else 1)
      rw [fg, h0]; exact h4
  · rename_i wk q1 hg
    have fg := get_surface_frame hg
    have hq1 := syncExact_get_surface hg hl
    have fc := accel_consume_frame q1 st.inbs it.consumed
    have hq2 : SyncExact (accel_consume q1 st.inbs it.consumed) L :=
      syncExact_of_fields (by rw [fc]; rfl) (fun hc => by rw [fc] at hc; exact hc) hq1
    have i2 : (accel_consume q1 st.inbs it.consumed).initialized = true := by
      rw [fc, fg]; exact h2
    have l2 : (accel_consume q1 st.inbs it.consumed).log = st.q.log := by
      rw [fc, fg]
    generalize accel_consume q1 st.inbs it.consumed = q2 at h hq2 i2 l2
    cases ho : it.out with
    | none =>
      simp only [ho] at h
      rw [h0] at h
      exact loopCons_tail_end hq2 i2 l2 h3 h4 (fun hc => absurd rfl hc) h
    | some o =>
      simp only [ho] at h
      refine loopCons_tail_end (syncExact_accel_output o hq2) ?_ ?_ h3 h4 ?_ h
      · rw [accel_output_frame]; exact i2
      · rw [accel_output_frame]; exact l2
      · intro hc
        simp only [handle_ends_loop, ho, Bool.or_eq_true, beq_iff_eq, Bool.not_eq_true'] at hw
        rcases hw with hw | hw
        · exact absurd hw hc
        · exact hw

theorem loopCons_dec_loop {size : Nat} {L : List Nat} {k w : Nat} :
    ∀ (iters : List IterEnv) (st st' : LoopSt), iters.all handle_ends_loop = true →
      dec_loop size iters st = .ok st' → st.outsync = 0 → LoopCons L k w st →
      LoopCons L k w st' := by
  intro iters
  induction iters with
  | nil =>
    intro st st' _ h h0 hi
    unfold dec_loop at h
    split at h
    · cases h
    · rename_i st1 hh
      cases h
      exact (loopCons_loop_head hh hi).1
    · cases h
  | cons it rest ih =>
    intro st st' hall h h0 hi
    simp only [List.all_cons, Bool.and_eq_true] at hall
    unfold dec_loop at h
    split at h
    · cases h
    · rename_i st1 hh
      cases h
      exact (loopCons_loop_head hh hi).1
    · rename_i st1 hh
      obtain ⟨hi1, ho1⟩ := loopCons_loop_head hh hi
      split at h
      · cases h
      · rename_i st2 ht
        cases h
        exact (loopCons_loop_tail hall.1 ht (ho1.trans h0) hi1).1
      · rename_i st2 ht
        obtain ⟨hi2, ho2⟩ := loopCons_loop_tail hall.1 ht (ho1.trans h0) hi1
        exact ih st2 st' hall.2 h (ho2 rfl) hi2


/-! ## Conservation through a feed call -/

theorem init_decoder_counts {E : Int → Int} {env : InitEnv} {q : QSVDecContext}
    {bs : Option Nat} {r : Int × QSVDecContext}
    (h : ff_qsv_dec_init_decoder E env q bs = .ok r) :
    waits r.2.log = waits q.log ∧ handles r.2.log = handles q.log := by
  unfold ff_qsv_dec_init_decoder at h
  repeat' (first | split at h | simp only at h)
  all_goals (try cases h)
  all_goals (simp [waits_append, handles_append, is_wait, is_handle])

theorem syncExact_nil {q : QSVDecContext} (h1 : q.pending_sync = none)
    (h2 : q.pending_sync_end = none) (h3 : q.nb_sync = 0) : SyncExact q [] := by
  refine ⟨h1, List.nodup_nil, ?_, ?_, ?_, fun _ => rfl⟩
  · intro a ha; cases ha
  · rw [h3]; rfl
  · rw [h2]; rfl

theorem free_surface_pool_log {q q' : QSVDecContext} (h : free_surface_pool q = .ok q') :
    q'.log = q.log := by
  unfold free_surface_pool at h
  split at h
  · cases h
  · cases h; rfl

theorem cons_reinit_decoder {E : Int → Int} {env : InitEnv} {q q' : QSVDecContext}
    (h : reinit_decoder E env q = .ok q') :
    SyncExact q' [] ∧ waits q'.log = waits q.log ∧ handles q'.log = handles q.log := by
  unfold reinit_decoder at h
  simp only at h
  split at h
  · cases h
  · rename_i q3 hf
    split at h
    · cases h
    · rename_i r hr
      cases h
      have f := ff_qsv_dec_init_decoder_frame hr
      have c := init_decoder_counts hr
      have h1 : r.2.pending_sync = none := by rw [f]; rfl
      have h2 : r.2.pending_sync_end = none := by rw [f]; rfl
      have h3 : r.2.nb_sync = 0 := by rw [f]; rfl
      have l3 : waits q3.log = waits q.log ∧ handles q3.log = handles q.log := by
        have e3 := free_surface_pool_log hf
        rw [e3]
        by_cases hq : q.initialized = true
        · simp [hq, waits_append, handles_append, is_wait, is_handle]
        · simp [hq]
      refine ⟨syncExact_nil h1 h2 h3, ?_, ?_⟩
      · exact c.1.trans l3.1
      · exact c.2.trans l3.2

theorem init_decoder_counts2 {E : Int → Int} {benv : BsEnv} {env : InitEnv}
    {q q' : QSVDecContext} {avpkt : AVPacket}
    (h : init_decoder E benv env q avpkt = .ok q') :
    waits q'.log = waits q.log ∧ handles q'.log = handles q.log := by
  unfold init_decoder at h
  split at h
  · have fb := get_bitstream_from_packet_frame benv.mallocOk benv.pktRef q avpkt
    split at h
    · rename_i q1 hg
      cases h
      rw [hg] at fb
      simp only at fb
      rw [fb]
      exact ⟨rfl, rfl⟩
    · rename_i a q1 hg
      rw [hg] at fb
      simp only at fb
      split at h
      · cases h
      · rename_i r hr
        have c := init_decoder_counts hr
        split at h
        · cases h
        · cases h
          simp only [bs_put]
          rw [c.1, c.2, fb]
          exact ⟨rfl, rfl⟩
  · cases h; exact ⟨rfl, rfl⟩

theorem syncExact_length_zero {q : QSVDecContext} {L : List Nat} (hi : SyncExact q L)
    (h : q.nb_sync = 0) : L = [] := by
  have := hi.2.2.2.1
  rw [h] at this
  exact List.length_eq_zero.1 (by exact_mod_cast this.symm)

theorem cons_feed_pre {E : Int → Int} {env : FeedEnv} {q : QSVDecContext}
    {avpkt : AVPacket} {x : Sum (FeedResult × QSVDecContext) LoopSt} {L : List Nat}
    (h : feed_pre E env q avpkt = .ok x) (hi : SyncExact q L) :
    SyncExact (pre_ctx x) L ∧ waits (pre_ctx x).log = waits q.log ∧
      handles (pre_ctx x).log = handles q.log ∧
      (∀ st0, x = Sum.inr st0 → st0.q.initialized = true ∧ st0.outsync = 0) ∧
      (∀ r, x = Sum.inl r → r.1.got_frame = 0 ∧ (avpkt.size = 0 → r.2.initialized = false)) := by
  unfold feed_pre at h
  split at h
  · cases h
  · rename_i q1 h1
    have hi1 : SyncExact q1 L ∧ waits q1.log = waits q.log ∧ handles q1.log = handles q.log := by
      split at h1
      · rename_i hd
        have hz : q.nb_sync = 0 := by
          simp only [reinit_due, Bool.and_eq_true, beq_iff_eq] at hd
          exact hd.2
        rw [syncExact_length_zero hi hz]
        exact cons_reinit_decoder h1
      · cases h1; exact ⟨hi, rfl, rfl⟩
    split at h
    · cases h
    · rename_i q2 h2
      have hi2 : SyncExact q2 L ∧ waits q2.log = waits q.log ∧ handles q2.log = handles q.log := by
        split at h2
        · cases h2; exact hi1
        · rename_i hni
          have c := init_decoder_counts2 h2
          refine ⟨syncExact_of_fields (init_decoder_sfields h2) ?_ hi1.1,
            c.1.trans hi1.2.1, c.2.trans hi1.2.2⟩
          intro _
          cases hq : q1.initialized
          · rfl
          · exact absurd hq hni
      split at h
      · rename_i hin
        cases h
        refine ⟨hi2.1, hi2.2.1, hi2.2.2, ?_, ?_⟩
        · intro _ hx; cases hx
        · intro r hr; cases hr; exact ⟨rfl, fun _ => hin⟩
      · rename_i hin
        have hin' : q2.initialized = true := by
          cases hq : q2.initialized
          · exact absurd hq hin
          · rfl
        simp only at h
        split at h
        · rename_i hsz
          split at h
          · cases h
          · rename_i ret q3 hp
            have fp := put_dts_frame hp
            have hi3 : SyncExact q3 L ∧ waits q3.log = waits q.log ∧
                handles q3.log = handles q.log ∧ q3.initialized = true := by
              rw [fp]
              exact ⟨syncExact_of_fields rfl (fun hc => hc) hi2.1, hi2.2.1, hi2.2.2, hin'⟩
            split at h
            · cases h
              refine ⟨hi3.1, hi3.2.1, hi3.2.2.1, ?_, ?_⟩
              · intro _ hx; cases hx
              · intro r hr; cases hr; exact ⟨rfl, fun hc => absurd hc hsz⟩
            · have fb := get_bitstream_from_packet_frame env.curBs.mallocOk env.curBs.pktRef
                q3 avpkt
              split at h
              · rename_i q4 hg
                cases h
                rw [hg] at fb
                simp only at fb
                simp only [pre_ctx]
                rw [fb]
                refine ⟨syncExact_of_fields rfl (fun hc => hc) hi3.1, hi3.2.1, hi3.2.2.1, ?_, ?_⟩
                · intro _ hx; cases hx
                · intro r hr; cases hr; exact ⟨rfl, fun hc => absurd hc hsz⟩
              · rename_i c q4 hg
                cases h
                rw [hg] at fb
                simp only at fb
                simp only [pre_ctx]
                rw [fb]
                refine ⟨syncExact_of_fields rfl (fun hc => hc) hi3.1, hi3.2.1, hi3.2.2.1, ?_, ?_⟩
                · intro st0 hc; cases hc; exact ⟨hi3.2.2.2, rfl⟩
                · intro _ hx; cases hx
        · cases h
          refine ⟨hi2.1, hi2.2.1, hi2.2.2, ?_, ?_⟩
          · intro st0 hc; cases hc; exact ⟨hin', rfl⟩
          · intro _ hx; cases hx


theorem syncExact_release_other {q : QSVDecContext} {L : List Nat} {X : Nat}
    (hout : X ∉ L) (hi : SyncExact q L) : SyncExact (release_surface q X) L := by
  unfold release_surface
  split
  · exact hi
  · rename_i n hn
    exact syncExact_surf_put_other hn hout hi

theorem release_surface_log (q : QSVDecContext) (a : Nat) :
    (release_surface q a).log = q.log := by
  rw [release_surface_frame]

theorem cons_feed_drain {E : Int → Int} {syncRet : Int} {size : Nat} {ret : Int}
    {q q' : QSVDecContext} {r : FeedResult} {L : List Nat}
    (h : feed_drain E syncRet size ret q = .ok (r, q')) (hi : SyncExact q L)
    (hk : handles q.log = waits q.log + L.length) :
    ConsInv q' ∧ (size = 0 → waits q'.log = waits q.log → q'.pending_sync = none) := by
  unfold feed_drain at h
  split at h
  · rename_i hd
    cases L with
    | nil =>
      have : q.pending_sync = none := hi.1
      simp [drain_due, this] at hd
    | cons h0 rest =>
      obtain ⟨n, q1, hg, hn, hn1, hl1, hi1⟩ := syncExact_get_sync hi
      have hnotin : h0 ∉ rest := (List.nodup_cons.1 hi.2.1).1
      rw [hg] at h
      simp only at h
      have key : ∀ q'' : QSVDecContext, SyncExact q'' rest →
          q''.log = q1.log ++ [Event.MFXVideoCORE_SyncOperation n.sync] →
          ConsInv q'' ∧ (size = 0 → waits q''.log = waits q.log → q''.pending_sync = none) := by
        intro q'' hs hl
        have hw : waits q''.log = waits q.log + 1 := by
          rw [hl, waits_append, hl1]; simp [is_wait]
        have hh : handles q''.log = handles q.log := by
          rw [hl, handles_append, hl1]; simp [is_handle]
        refine ⟨⟨rest, hs, ?_⟩, ?_⟩
        · rw [hh, hw, hk]; simp; omega
        · intro _ hc
          omega
      split at h
      · cases h
        exact key _ (syncExact_of_fields rfl (fun hc => hc) hi1) rfl
      · split at h
        · cases h
        · rename_i m hm
          have hm' : surf_at q1 h0 = some m := hm
          split at h
          · cases h
          · rename_i r0 dts q3 hdts
            have fd := get_dts_frame hdts
            have h3 : SyncExact q3 rest := by
              rw [fd]
              exact syncExact_of_fields rfl (fun hc => hc) hi1
            have l3 : q3.log = q1.log ++ [Event.MFXVideoCORE_SyncOperation n.sync] := by
              rw [fd]
            have hm3 : surf_at q3 h0 = some m := by
              rw [fd]; exact hm
            split at h
            · cases h; exact key _ h3 l3
            · split at h
              · cases h
              · cases h
              · cases h
                refine key _ (syncExact_release_other hnotin
                  (syncExact_surf_put_other hm3 hnotin h3)) ?_
                rw [release_surface_log]
                exact l3
  · rename_i hd
    cases h
    refine ⟨⟨L, hi, hk⟩, ?_⟩
    intro hs _
    cases hp : q.pending_sync with
    | none => rfl
    | some a => simp [drain_due, hp, hs] at hd

theorem out_surface_fresh_spec {st : LoopSt} (h : out_surface_fresh st = true)
    (ho : st.outsync ≠ 0) :
    ∃ a n, st.outsurf = some a ∧ surf_at st.q a = some n ∧ n.sync = 0 := by
  unfold out_surface_fresh at h
  simp only [Bool.or_eq_true, beq_iff_eq, ho, false_or] at h
  split at h
  · rename_i a ha
    split at h
    · rename_i n hn
      exact ⟨a, n, ha, hn, by simpa using h⟩
    · cases h
  · cases h

theorem cons_feed_post {E : Int → Int} {syncRet : Int} {size : Nat} {st : LoopSt}
    {q' : QSVDecContext} {r : FeedResult} {L : List Nat} {k w : Nat}
    (h : feed_post E syncRet size st = .ok (r, q')) (hi : LoopCons L k w st)
    (hk : k = w + L.length) (hf : out_surface_fresh st = true) :
    ConsInv q' ∧ (size = 0 → waits q'.log = w → q'.pending_sync = none) := by
  obtain ⟨h1, h2, h3, h4⟩ := hi
  unfold feed_post at h
  simp only at h
  split at h
  · cases h
  · rename_i q2 hp
    have f2 : sfields q2 = sfields st.q ∧ q2.initialized = st.q.initialized ∧
        q2.log = st.q.log := by
      split at hp
      · have fp := put_pending_bitstream_frame hp
        rw [fp]
        exact ⟨rfl, rfl, rfl⟩
      · cases hp; exact ⟨rfl, rfl, rfl⟩
    have hq2 : SyncExact q2 L := syncExact_of_fields f2.1 (fun hc => f2.2.1 ▸ hc) h1
    split at h
    · cases h
    · rename_i q3 hs
      split at hs
      · rename_i ho
        obtain ⟨a, n, ha, hn, hz⟩ := out_surface_fresh_spec hf ho
        have hn2 : surf_at q2 a = some n := by
          have e := f2.1
          simp only [sfields, Prod.mk.injEq] at e
          simpa [surf_at, e.1, e.2.1] using hn
        rw [ha] at hs
        have hq3 := syncExact_put_sync hs hn2 hz ho (f2.2.1.trans h2) hq2
        have l3 : q3.log = st.q.log := by
          rw [put_sync_frame hs]; exact f2.2.2
        have := cons_feed_drain h hq3 (by
          rw [l3, h4, h3, hk]; simp [ho]; omega)
        rw [l3, h3] at this
        exact this
      · rename_i ho
        cases hs
        have ho' : st.outsync = 0 := by
          by_contra hc; exact ho hc
        have := cons_feed_drain h hq2 (by
          rw [f2.2.2, h4, h3, hk]; simp [ho'])
        rw [f2.2.2, h3] at this
        exact this

theorem syncExact_head_none {q : QSVDecContext} {L : List Nat} (hi : SyncExact q L)
    (h : L = []) : q.pending_sync = none := by
  subst h; exact hi.1

theorem syncExact_nil_of_head {q : QSVDecContext} {L : List Nat} (hi : SyncExact q L)
    (h : q.pending_sync = none) : L = [] := by
  cases L with
  | nil => rfl
  | cons a rest =>
    have := hi.1.1
    rw [h] at this
    cases this

theorem cons_ff_qsv_dec_frame {E : Int → Int} {env : FeedEnv} {q q' : QSVDecContext}
    {avpkt : AVPacket} {r : FeedResult}
    (hg : good_call E env q avpkt = true)
    (h : ff_qsv_dec_frame E env q avpkt = .ok (r, q')) (hi : ConsInv q) :
    ConsInv q' ∧ (avpkt.size = 0 → waits q'.log = waits q.log → q'.pending_sync = none) := by
  obtain ⟨L, hL, hk⟩ := hi
  unfold good_call at hg
  simp only [Bool.and_eq_true] at hg
  obtain ⟨hall, hfresh⟩ := hg
  unfold ff_qsv_dec_frame at h
  split at h
  · cases h
  · rename_i r0 hp
    cases h
    obtain ⟨c1, c2, c3, _, c5⟩ := cons_feed_pre hp hL
    obtain ⟨_, c6⟩ := c5 _ rfl
    refine ⟨⟨L, c1, ?_⟩, ?_⟩
    · show handles (pre_ctx (Sum.inl (r, q'))).log = waits (pre_ctx (Sum.inl (r, q'))).log + _
      rw [c2, c3]; exact hk
    · intro hs _
      exact syncExact_head_none c1 (c1.2.2.2.2.2 (c6 hs))
  · rename_i st0 hp
    obtain ⟨c1, c2, c3, c4, _⟩ := cons_feed_pre hp hL
    obtain ⟨i0, o0⟩ := c4 _ rfl
    rw [hp] at hfresh
    simp only at hfresh
    split at h
    · cases h
    · rename_i st hl
      rw [hl] at hfresh
      simp only at hfresh
      have hc0 : LoopCons L (handles q.log) (waits q.log) st0 :=
        ⟨c1, i0, c2, by rw [o0]; simpa using c3⟩
      have hc := loopCons_dec_loop env.iters st0 st hall hl o0 hc0
      exact cons_feed_post h hc hk hfresh


theorem consInv_initial {q : QSVDecContext} (h : Initial q) (hl : q.log = []) : ConsInv q := by
  unfold Initial at h
  refine ⟨[], syncExact_nil ?_ ?_ ?_, ?_⟩
  · rw [h]
  · rw [h]
  · rw [h]
  · rw [hl]; rfl

theorem cons_feed_run {E : Int → Int} :
    ∀ (steps : List (FeedEnv × AVPacket)) (q q' : QSVDecContext) (rs : List FeedResult),
      ConsInv q → good_run E q steps = true → feed_run E q steps = .ok (rs, q') →
      ConsInv q' ∧ waits q'.log = waits q.log + emitted rs := by
  intro steps
  induction steps with
  | nil =>
    intro q q' rs hi _ h
    simp only [feed_run, Except.ok.injEq, Prod.mk.injEq] at h
    obtain ⟨rfl, rfl⟩ := h
    exact ⟨hi, rfl⟩
  | cons x rest ih =>
    intro q q' rs hi hg h
    obtain ⟨env, avpkt⟩ := x
    simp only [good_run, Bool.and_eq_true] at hg
    obtain ⟨hg1, hg2⟩ := hg
    simp only [feed_run] at h
    split at h
    · cases h
    · rename_i r qa hstep
      rw [hstep] at hg2
      simp only [Bool.and_eq_true] at hg2
      obtain ⟨hnw, hg3⟩ := hg2
      split at h
      · cases h
      · rename_i rs1 qb hrest
        simp only [Except.ok.injEq, Prod.mk.injEq] at h
        obtain ⟨rfl, rfl⟩ := h
        obtain ⟨hia, _⟩ := cons_ff_qsv_dec_frame hg1 hstep hi
        obtain ⟨hib, hw⟩ := ih qa qb rs1 hia hg3 hrest
        refine ⟨hib, ?_⟩
        simp only [no_failed_wait, beq_iff_eq] at hnw
        rw [hw, hnw]
        simp [emitted]
        omega

/-! ## Lemmas: the ways put_dts returns -/

/-- The table `realloc_ts` builds when the allocation succeeds. -/
theorem realloc_ts_ok (q : QSVDecContext) (o n : Nat) :
    realloc_ts true q o n =
      (0, { q with
            ts := (List.range n).map
                    (fun i => if o ≤ i then ⟨AV_NOPTS_VALUE, AV_NOPTS_VALUE⟩
                              else q.ts.getD i ⟨0, 0⟩)
            nb_ts := n }) := by
  simp [realloc_ts]

theorem realloc_ts_fail (q : QSVDecContext) (o n : Nat) :
    realloc_ts false q o n = (AVERROR_ENOMEM, q) := by
  simp [realloc_ts]

theorem getElem?_realloc_new (q : QSVDecContext) (old new k : Nat) (hk : old ≤ k)
    (hn : k < new) :
    (realloc_ts true q old new).2.ts[k]? = some ⟨AV_NOPTS_VALUE, AV_NOPTS_VALUE⟩ := by
  simp only [realloc_ts, if_true]
  rw [List.getElem?_map, List.getElem?_range hn]
  simp [hk]

/-- The three ways `put_dts` returns for a set timestamp in
externally-tracked mode: the pair is stored in the first free slot; the
table is full and the allocation fails; the table is full, grows to `new`
slots and the pair is stored in slot `nb_ts`. -/
theorem put_dts_cases {allocOk : Bool} {q q' : QSVDecContext} {pts dts r : Int}
    (hmode : q.ts_by_qsv = false) (hT : pts ≠ AV_NOPTS_VALUE)
    (h : put_dts allocOk q pts dts = .ok (r, q')) :
    ∃ i, scan_ts q.ts AV_NOPTS_VALUE q.nb_ts 0 = .ok i ∧
      ((i < q.nb_ts ∧ i < q.ts.length ∧ r = 0 ∧
          q' = { q with ts := q.ts.set i ⟨pts, dts⟩, ts_cnt := wrap32 (q.ts_cnt + 1) }) ∨
       (i = q.nb_ts ∧ allocOk = false ∧ r = AVERROR_ENOMEM ∧ q' = q) ∨
       (i = q.nb_ts ∧ allocOk = true ∧ r = 0 ∧
          q.nb_ts < (if q.nb_ts ≠ 0 then q.nb_ts * 2 else q.NumFrameSuggested) ∧
          q' = { q with
                 ts := ((realloc_ts true q q.nb_ts
                          (if q.nb_ts ≠ 0 then q.nb_ts * 2 else q.NumFrameSuggested)).2.ts).set
                        q.nb_ts ⟨pts, dts⟩
                 nb_ts := (if q.nb_ts ≠ 0 then q.nb_ts * 2 else q.NumFrameSuggested)
                 ts_cnt := wrap32 (q.ts_cnt + 1) })) := by
  simp only [put_dts, hmode, hT, if_false, Bool.false_eq_true] at h
  cases hscan : scan_ts q.ts AV_NOPTS_VALUE q.nb_ts 0 with
  | error e => simp [hscan] at h
  | ok i =>
    simp only [hscan] at h
    refine ⟨i, rfl, ?_⟩
    obtain ⟨_, hle, _, _⟩ := scan_ts_ok _ _ _ hscan
    by_cases hi : i = q.nb_ts
    · subst hi
      simp only [if_true] at h
      generalize hnew : (if q.nb_ts ≠ 0 then q.nb_ts * 2 else q.NumFrameSuggested) = new at h ⊢
      cases allocOk with
      | false =>
        rw [realloc_ts_fail] at h
        simp only [AVERROR_ENOMEM] at h
        simp only [show ((-12 : Int) < 0) = True from by simp, if_true, Except.ok.injEq,
          Prod.mk.injEq] at h
        exact Or.inr (Or.inl ⟨rfl, rfl, h.1.symm, h.2.symm⟩)
      | true =>
        rw [realloc_ts_ok] at h
        simp only [lt_self_iff_false, if_false, store_ts, List.length_map, List.length_range] at h
        by_cases hlt : q.nb_ts < new
        · simp only [hlt, if_true, Except.ok.injEq, Prod.mk.injEq] at h
          refine Or.inr (Or.inr ⟨rfl, rfl, h.1.symm, hlt, ?_⟩)
          rw [← h.2, realloc_ts_ok]
        · simp [hlt] at h
    · simp only [hi, if_false, store_ts] at h
      by_cases hlt : i < q.ts.length
      · simp only [hlt, if_true, Except.ok.injEq, Prod.mk.injEq] at h
        exact Or.inl ⟨by omega, hlt, h.1.symm, h.2.symm⟩
      · simp [hlt] at h

/-- A value in the range of a C `int` is not changed by the wrap-around. -/
theorem wrap32_of_range {x : Int} (h1 : -2147483648 ≤ x) (h2 : x ≤ 2147483647) :
    wrap32 x = x := by
  unfold wrap32
  omega

/-! ## Lemmas: flush -/

/-- What a returning `ff_qsv_dec_flush` leaves in the context. -/
theorem flush_fields {E : Int → Int} {r ret : Int} {q q' : QSVDecContext}
    (h : ff_qsv_dec_flush E r q = .ok (ret, q')) :
    ret = E r ∧
    q' = { q with log := q.log ++ [Event.MFXVideoDECODE_Reset]
                  last_ret := MFX_ERR_MORE_DATA
                  ts := []
                  bs_base := q.bs_base + q.bs_pool.length, bs_pool := []
                  surf_base := q.surf_base + q.surf_pool.length, surf_pool := []
                  pending_sync := none, pending_sync_end := none, nb_sync := 0 } := by
  unfold ff_qsv_dec_flush at h
  simp only at h
  split at h
  · cases h
  · split at h
    · cases h
    · split at h
      · cases h
      · rename_i q3 hf
        have e3 := free_surface_pool_eq hf
        simp only [Except.ok.injEq, Prod.mk.injEq] at h
        obtain ⟨h1, h2⟩ := h
        refine ⟨h1.symm, ?_⟩
        rw [← h2, e3]
        simp [free_bitstream_pool, free_sync, bs_put]

theorem submissions_append (l : List Event) (e : Event) :
    submissions (l ++ [e]) = submissions l + (if is_submit e then 1 else 0) := by
  simp [submissions, List.countP_append, List.countP_cons]

theorem sleeps_append (l : List Event) (e : Event) :
    sleeps (l ++ [e]) = sleeps l + (if is_sleep e then 1 else 0) := by
  simp [sleeps, List.countP_append, List.countP_cons]

theorem wrap32_range (x : Int) : -2147483648 ≤ wrap32 x ∧ wrap32 x ≤ 2147483647 := by
  unfold wrap32
  have h1 := Int.emod_nonneg (x + 2147483648) (by decide : (4294967296 : Int) ≠ 0)
  have h2 := Int.emod_lt_of_pos (x + 2147483648) (by decide : (0 : Int) < 4294967296)
  omega

/-- What a busy iteration adds to the call log: one submission, and one
sleep unless the busy counter exceeds the timeout. -/
theorem loop_tail_busy_log {t : Int} {s : Option Nat × Int × Nat} {it : IterEnv} {st st1 : LoopSt}
    {b : Bool} (h : BusyOk t s st) (hb : busy_iter it)
    (htl : loop_tail it st = .ok (st1, b)) :
    submissions st1.q.log = submissions st.q.log + 1 ∧
      sleeps st1.q.log = sleeps st.q.log + (if st.busymsec > t then 0 else 1) := by
  obtain ⟨h1, h2, h3, h4, h5, h6, h7⟩ := h
  obtain ⟨hs, ho, hm, hf, hbr⟩ := hb
  obtain ⟨w, q1, hg, hnf⟩ := get_surface_total (no_freed_set_locked it.Locked h4) hm hf hbr
  have fg := get_surface_frame hg
  have g5 : q1.timeout = st.q.timeout := by rw [fg]
  have g7 : q1.log = st.q.log := by rw [fg]
  clear fg
  generalize hq2 : accel_consume q1 st.inbs it.consumed = q2 at htl
  have fc := accel_consume_frame q1 st.inbs it.consumed
  rw [hq2] at fc
  have c3 : q2.timeout = t := by rw [fc]; exact g5.trans h7
  have c7 : q2.log = st.q.log := by rw [fc]; exact g7
  clear fc
  unfold loop_tail at htl
  simp only [hg, hs, ho, if_true, hq2] at htl
  rw [c3] at htl
  by_cases hbm : st.busymsec > t
  · simp only [hbm, if_true, Except.ok.injEq, Prod.mk.injEq] at htl ⊢
    rw [← htl.1]
    simp only [submissions_append, sleeps_append, c7, is_submit, is_sleep, if_true]
    simp
  · simp only [hbm, if_false, Except.ok.injEq, Prod.mk.injEq] at htl ⊢
    rw [← htl.1]
    simp only [submissions_append, sleeps_append, c7, is_submit, is_sleep, if_true]
    simp

/-- Any status other than device-busy resets the busy counter. -/
theorem loop_tail_resets_busy {it : IterEnv} {st st1 : LoopSt} {b : Bool} {w : Nat}
    {q1 : QSVDecContext}
    (hg : get_surface it.mallocOk it.frameOk it.bufRet
      { st.q with surf_pool := set_locked it.Locked st.q.surf_base st.q.surf_pool }
      = .ok (some w, q1))
    (hs : it.status ≠ MFX_WRN_DEVICE_BUSY) (htl : loop_tail it st = .ok (st1, b)) :
    st1.busymsec = 0 := by
  unfold loop_tail at htl
  simp only [hg, hs, if_false, Except.ok.injEq, Prod.mk.injEq] at htl
  rw [← htl.1]

/-- From an iteration entered with device-busy on, with a timeout below
`INT_MAX`: the loop makes `t + 2 - busymsec` more submissions and
`t + 1 - busymsec` more sleeps, then stops. -/
theorem dec_loop_busy_counts {t : Int} {s : Option Nat × Int × Nat} {size : Nat}
    (ht : t < 2147483647) :
    ∀ (iters : List IterEnv) (st : LoopSt), BusyOk t s st → st.ret = MFX_WRN_DEVICE_BUSY →
      0 ≤ st.busymsec → st.busymsec ≤ t + 1 → t + 2 - st.busymsec ≤ iters.length →
      (∀ it ∈ iters, busy_iter it) →
      ∃ st', dec_loop size iters st = .ok st' ∧
        (submissions st'.q.log : Int) = submissions st.q.log + (t + 2 - st.busymsec) ∧
        (sleeps st'.q.log : Int) = sleeps st.q.log + (t + 1 - st.busymsec) := by
  intro iters
  induction iters with
  | nil =>
    intro st _ _ _ h2 h3 _
    simp only [List.length_nil, Nat.cast_zero] at h3
    omega
  | cons it rest ih =>
    intro st hok hret h1 h2 h3 hall
    obtain ⟨st1, hh, hok1, hret1, hb1, hr1⟩ := @loop_head_busy _ _ size _ hok hret
    have hl1 : st1.q.log = st.q.log := by rw [loop_head_frame hh]
    have hbi := hall it (List.mem_cons_self _ _)
    obtain ⟨b1, b2, b3, b4, b5⟩ := hbi
    obtain ⟨st2, htl, hok2, hret2, hr2, hb2⟩ := loop_tail_busy hok1 b1 b2 b3 b4 b5
    obtain ⟨c1, c2⟩ := loop_tail_busy_log hok1 ⟨b1, b2, b3, b4, b5⟩ htl
    rw [hl1] at c1 c2
    unfold dec_loop
    simp only [hh, htl]
    by_cases hbm : st1.busymsec > t
    · simp only [hbm, decide_True]
      simp only [hbm, if_true] at c2
      refine ⟨st2, rfl, ?_, ?_⟩
      · rw [c1]; push_cast; omega
      · rw [c2]; push_cast; omega
    · simp only [hbm, decide_False]
      simp only [hbm, if_false] at c2
      have hb2' := hb2 hbm
      rw [wrap32_id (by omega) (by omega)] at hb2'
      simp only [List.length_cons, Nat.cast_add, Nat.cast_one] at h3
      obtain ⟨st', hd, d1, d2⟩ := ih st2 hok2 hret2 (by omega) (by omega) (by omega)
        (fun x hx => hall x (List.mem_cons_of_mem _ hx))
      refine ⟨st', hd, ?_, ?_⟩
      · rw [d1, c1]; push_cast; omega
      · rw [d2, c2]; push_cast; omega

/-- With the timeout `INT_MAX` the busy counter never exceeds it: from an
iteration entered with device-busy on, the loop is still running when the
answers run out, however many there are. -/
theorem dec_loop_busy_unbounded {s : Option Nat × Int × Nat} {size : Nat} :
    ∀ (iters : List IterEnv) (st : LoopSt), BusyOk 2147483647 s st →
      st.ret = MFX_WRN_DEVICE_BUSY → st.busymsec ≤ 2147483647 →
      (∀ it ∈ iters, busy_iter it) →
      dec_loop size iters st = .error Fault.noResponse := by
  intro iters
  induction iters with
  | nil =>
    intro st hok hret _ _
    obtain ⟨st1, hh, _⟩ := @loop_head_busy _ _ size _ hok hret
    unfold dec_loop
    simp only [hh]
  | cons it rest ih =>
    intro st hok hret h1 hall
    obtain ⟨st1, hh, hok1, hret1, hb1, hr1⟩ := @loop_head_busy _ _ size _ hok hret
    obtain ⟨b1, b2, b3, b4, b5⟩ := hall it (List.mem_cons_self _ _)
    obtain ⟨st2, htl, hok2, hret2, hr2, hb2⟩ := loop_tail_busy hok1 b1 b2 b3 b4 b5
    have hbm : ¬ st1.busymsec > 2147483647 := by rw [hb1]; omega
    unfold dec_loop
    simp only [hh, htl, hbm, decide_False]
    have hb2' := hb2 hbm
    exact ih st2 hok2 hret2 (by rw [hb2']; exact (wrap32_range _).2)
      (fun x hx => hall x (List.mem_cons_of_mem _ hx))

/-- The busy loop of a feed call with a timeout below `INT_MAX`: exactly
`t + 2` submissions and `t + 1` sleeps. -/
theorem busy_loop_counts (E : Int → Int) (env : FeedEnv) (q : QSVDecContext)
    (avpkt : AVPacket) (st0 : LoopSt)
    (hpre : feed_pre E env q avpkt = .ok (Sum.inr st0))
    (hfl : st0.q.reinit = none) (hval : LoopEntryOk st0)
    (ht0 : 0 ≤ st0.q.timeout) (ht1 : st0.q.timeout < 2147483647)
    (hlen : st0.q.timeout + 2 ≤ env.iters.length)
    (hbusy : ∀ it ∈ env.iters, busy_iter it) :
    ∃ st, dec_loop avpkt.size env.iters st0 = .ok st ∧
      (submissions st.q.log : Int) = submissions st0.q.log + (st0.q.timeout + 2) ∧
      (sleeps st.q.log : Int) = sleeps st0.q.log + (st0.q.timeout + 1) := by
  obtain ⟨e1, e2, e3, e4, e5, e6⟩ := feed_pre_entry hpre
  obtain ⟨v1, v2, v3, v4, v5⟩ := hval
  have hflush : st0.flush = false := by rw [e4, hfl]; rfl
  have hok0 : BusyOk st0.q.timeout (dfields st0.q) st0 := ⟨v1, v2, v4, v5, e2, rfl, rfl⟩
  cases hit : env.iters with
  | nil =>
    rw [hit] at hlen
    simp only [List.length_nil, Nat.cast_zero] at hlen
    omega
  | cons it rest =>
    rw [hit] at hlen hbusy
    simp only [List.length_cons, Nat.cast_add, Nat.cast_one] at hlen
    obtain ⟨st1, hh, hok1, hb1, hre1⟩ := @loop_head_first _ _ avpkt.size _ hok0 hflush v3 e3
    have hl1 : st1.q.log = st0.q.log := by rw [loop_head_frame hh]
    have hbi := hbusy it (List.mem_cons_self _ _)
    obtain ⟨b1, b2, b3, b4, b5⟩ := hbi
    obtain ⟨st2, htl, hok2, hret2, hr2, hb2⟩ := loop_tail_busy hok1 b1 b2 b3 b4 b5
    obtain ⟨c1, c2⟩ := loop_tail_busy_log hok1 ⟨b1, b2, b3, b4, b5⟩ htl
    have hnot : ¬ st1.busymsec > st0.q.timeout := by rw [hb1, e1]; omega
    simp only [hnot, if_false] at c2
    rw [hl1] at c1 c2
    have hb2' := hb2 hnot
    rw [hb1, e1, wrap32_id (by omega) (by omega)] at hb2'
    obtain ⟨st3, hd, d1, d2⟩ := @dec_loop_busy_counts _ _ avpkt.size ht1 rest st2 hok2
      hret2 (by omega) (by omega) (by omega) (fun x hx => hbusy x (List.mem_cons_of_mem _ hx))
    refine ⟨st3, ?_, ?_, ?_⟩
    · unfold dec_loop
      simp only [hh, htl, hnot, decide_False]
      exact hd
    · rw [d1, c1, hb2']; push_cast; omega
    · rw [d2, c2, hb2']; push_cast; omega

/-- When `get_surface` returns `NULL` the loop is left with the local
`ret`, the input and the out parameters as they were: no failure is
recorded. -/
theorem loop_tail_no_surface {it : IterEnv} {st : LoopSt} {q1 : QSVDecContext}
    (hg : get_surface it.mallocOk it.frameOk it.bufRet
      { st.q with surf_pool := set_locked it.Locked st.q.surf_base st.q.surf_pool }
      = .ok (none, q1)) :
    loop_tail it st = .ok ({ st with q := q1 }, true) := by
  unfold loop_tail
  simp only [hg]

/-! ## Lemmas: the drain block -/

theorem feed_post_eq (E : Int → Int) (syncRet : Int) (size : Nat) (st : LoopSt) :
    feed_post E syncRet size st =
      match feed_queue st with
      | .error e => .error e
      | .ok q3 =>
        feed_drain E syncRet size (if st.ret = MFX_ERR_MORE_DATA then 0 else E st.ret) q3 := by
  unfold feed_post feed_queue
  simp only
  split
  · rfl
  · rename_i q2 _
    cases (if st.outsync ≠ 0 then put_sync q2 st.outsurf st.outsync else Except.ok q2) <;> rfl

/-- The function `get_dts` reads only the tracker fields. -/
theorem get_dts_congr {q1 q2 : QSVDecContext} (pts : Int) (h1 : q1.ts = q2.ts)
    (h2 : q1.nb_ts = q2.nb_ts) (h3 : q1.ts_by_qsv = q2.ts_by_qsv) :
    (get_dts q1 pts).map (fun x => (x.1, x.2.1)) = (get_dts q2 pts).map (fun x => (x.1, x.2.1)) := by
  unfold get_dts
  rw [h1, h2, h3]
  split
  · rfl
  · split
    · rfl
    · cases scan_ts q2.ts pts q2.nb_ts 0 with
      | error e => rfl
      | ok i =>
        simp only
        split
        · rfl
        · cases q2.ts[i]? <;> rfl

theorem resolves_congr {q1 q2 : QSVDecContext} (pts : Int) (h1 : q1.ts = q2.ts)
    (h2 : q1.nb_ts = q2.nb_ts) (h3 : q1.ts_by_qsv = q2.ts_by_qsv) :
    resolves q1 pts = resolves q2 pts := by
  have h := get_dts_congr pts h1 h2 h3
  unfold resolves
  cases hg1 : get_dts q1 pts with
  | error e =>
    rw [hg1] at h
    cases hg2 : get_dts q2 pts with
    | error e2 => rfl
    | ok x => rw [hg2] at h; cases h
  | ok x =>
    rw [hg1] at h
    cases hg2 : get_dts q2 pts with
    | error e2 => rw [hg2] at h; cases h
    | ok y =>
      rw [hg2] at h
      simp only [Except.map, Except.ok.injEq, Prod.mk.injEq] at h
      obtain ⟨r1, d1, c1⟩ := x
      obtain ⟨r2, d2, c2⟩ := y
      simp only at h ⊢
      rw [h.1]

theorem drain_due_iff (size : Nat) (q : QSVDecContext) :
    drain_due size q = true ↔
      q.pending_sync ≠ none ∧
        ((q.NumFrameMin : Int) ≤ q.nb_sync ∨ size = 0 ∨ q.reinit ≠ none) := by
  unfold drain_due
  simp only [Bool.and_eq_true, Bool.or_eq_true, decide_eq_true_eq, beq_iff_eq, ge_iff_le]
  constructor
  · rintro ⟨h1, h2⟩
    refine ⟨?_, ?_⟩
    · intro hc; rw [hc] at h1; cases h1
    · rcases h2 with (h2 | h2) | h2
      · exact Or.inl h2
      · exact Or.inr (Or.inl h2)
      · refine Or.inr (Or.inr ?_)
        intro hc; rw [hc] at h2; cases h2
  · rintro ⟨h1, h2⟩
    refine ⟨?_, ?_⟩
    · cases hp : q.pending_sync with
      | none => exact absurd hp h1
      | some a => rfl
    · rcases h2 with h2 | h2 | h2
      · exact Or.inl (Or.inl h2)
      · exact Or.inl (Or.inr h2)
      · refine Or.inr ?_
        cases hp : q.reinit with
        | none => exact absurd hp h2
        | some a => rfl

theorem frame_of_next (n : QSVDecSurfaceList) (x : Option Nat) (pts dts : Int) :
    frame_of { n with next := x } pts dts = frame_of n pts dts := rfl

/-- What `get_sync` returns and leaves. -/
theorem get_sync_fields {q q1 : QSVDecContext} {a s : Nat}
    (h : get_sync q = .ok (a, s, q1)) :
    ∃ n, q.pending_sync = some a ∧ surf_at q a = some n ∧ s = n.sync ∧
      q1.pending_sync = n.next ∧
      q1.pending_sync_end = (if n.next = none then none else q.pending_sync_end) ∧
      q1.nb_sync = q.nb_sync - 1 ∧
      q1.ts = q.ts ∧ q1.nb_ts = q.nb_ts ∧ q1.ts_by_qsv = q.ts_by_qsv ∧ q1.log = q.log ∧
      surf_at q1 a = some { n with next := none } := by
  unfold get_sync at h
  split at h
  · cases h
  · rename_i a0 hp
    split at h
    · cases h
    · rename_i n hn
      by_cases hnn : n.next = none
      · simp only [hnn, if_true, Except.ok.injEq, Prod.mk.injEq] at h
        obtain ⟨rfl, rfl, rfl⟩ := h
        refine ⟨n, hp, hn, rfl, hnn.symm, by simp [hnn, surf_put], rfl, rfl, rfl, rfl, rfl, ?_⟩
        rw [surf_at_surf_put (n := n) (by exact hn)]
        simp [hnn]
      · simp only [hnn, if_false, Except.ok.injEq, Prod.mk.injEq] at h
        obtain ⟨rfl, rfl, rfl⟩ := h
        refine ⟨n, hp, hn, rfl, rfl, by simp [hnn, surf_put], rfl, rfl, rfl, rfl, rfl, ?_⟩
        rw [surf_at_surf_put (n := n) (by exact hn)]
        simp

/-- What the drain block does, case by case. -/
theorem feed_drain_spec {E : Int → Int} {syncRet : Int} {size : Nat} {ret : Int}
    {q q' : QSVDecContext} {r : FeedResult}
    (h : feed_drain E syncRet size ret q = .ok (r, q')) :
    (drain_due size q = false ∧ q' = q ∧ r = ⟨if ret < 0 then ret else size, 0, none⟩) ∨
    (drain_due size q = true ∧
      ∃ a n, q.pending_sync = some a ∧ surf_at q a = some n ∧
        q'.pending_sync = n.next ∧ q'.nb_sync = q.nb_sync - 1 ∧
        q'.pending_sync_end = (if n.next = none then none else q.pending_sync_end) ∧
        (r.got_frame = 1 ↔ 0 ≤ syncRet ∧ resolves q (toI64 n.TimeStamp) = true) ∧
        (r.got_frame = 0 ∨ r.got_frame = 1) ∧
        (r.got_frame = 1 →
          ∃ d, r.frame = some (frame_of n (toI64 n.TimeStamp) d) ∧ r.ret = size)) := by
  unfold feed_drain at h
  split at h
  · rename_i hd
    refine Or.inr ⟨hd, ?_⟩
    split at h
    · cases h
    · rename_i surf sync q1 hg
      obtain ⟨n, hp, hn, rfl, f1, f2, f3, f4, f4b, f4c, _, f5⟩ := get_sync_fields hg
      refine ⟨surf, n, hp, hn, ?_⟩
      simp only at h
      split at h
      · rename_i hneg
        simp only [Except.ok.injEq, Prod.mk.injEq] at h
        obtain ⟨rfl, rfl⟩ := h
        refine ⟨f1, f3, f2, ?_, Or.inl rfl, ?_⟩
        · constructor
          · intro hc; cases hc
          · intro hc; omega
        · intro hc; cases hc
      · rename_i hpos
        have f5' : surf_at { q1 with log := q1.log ++ [Event.MFXVideoCORE_SyncOperation n.sync] }
            surf = some { n with next := none } := f5
        rw [f5'] at h
        simp only at h
        have hres : resolves { q1 with log := q1.log ++
            [Event.MFXVideoCORE_SyncOperation n.sync] } (toI64 n.TimeStamp)
            = resolves q (toI64 n.TimeStamp) :=
          resolves_congr _ f4 f4b f4c
        split at h
        · cases h
        · rename_i r0 dts q3 hdts
          have fd := get_dts_frame hdts
          have hr : resolves q (toI64 n.TimeStamp) = decide (0 ≤ r0) := by
            rw [← hres]
            unfold resolves
            rw [hdts]
          split at h
          · rename_i hneg
            simp only [Except.ok.injEq, Prod.mk.injEq] at h
            obtain ⟨rfl, rfl⟩ := h
            refine ⟨by rw [fd]; exact f1, by rw [fd]; exact f3, by rw [fd]; exact f2, ?_,
              Or.inl rfl, ?_⟩
            · constructor
              · intro hc; cases hc
              · intro hc
                rw [hr] at hc
                simp only [decide_eq_true_eq] at hc
                omega
            · intro hc; cases hc
          · rename_i hnn
            split at h
            · cases h
            · cases h
            · simp only [Except.ok.injEq, Prod.mk.injEq] at h
              obtain ⟨rfl, rfl⟩ := h
              have e1 := release_surface_frame
                (surf_put q3 surf { n with next := none, MemId := FrameRef.live false }) surf
              refine ⟨?_, ?_, ?_, ?_, Or.inr rfl, ?_⟩
              · rw [e1]; show q3.pending_sync = _; rw [fd]; exact f1
              · rw [e1]; show q3.nb_sync = _; rw [fd]; exact f3
              · rw [e1]; show q3.pending_sync_end = _; rw [fd]; exact f2
              · constructor
                · intro _
                  refine ⟨by omega, ?_⟩
                  rw [hr]
                  simp only [decide_eq_true_eq]
                  omega
                · intro _; rfl
              · intro _
                exact ⟨dts.getD 0, rfl, by simp [hnn]⟩
  · rename_i hd
    simp only [Except.ok.injEq, Prod.mk.injEq] at h
    refine Or.inl ⟨by simpa using hd, h.2.symm, h.1.symm⟩

/-- The drain block keeps the queue or removes its first entry. -/
theorem syncExact_feed_drain {E : Int → Int} {syncRet : Int} {size : Nat} {ret : Int}
    {q q' : QSVDecContext} {r : FeedResult} {L : List Nat}
    (h : feed_drain E syncRet size ret q = .ok (r, q')) (hi : SyncExact q L) :
    (drain_due size q = false ∧ SyncExact q' L) ∨
    (drain_due size q = true ∧
      ∃ a rest, L = a :: rest ∧ q.pending_sync = some a ∧ SyncExact q' rest) := by
  unfold feed_drain at h
  split at h
  · rename_i hd
    refine Or.inr ⟨hd, ?_⟩
    cases L with
    | nil =>
      have : q.pending_sync = none := hi.1
      simp [drain_due, this] at hd
    | cons h0 rest =>
      obtain ⟨n, q1, hg, hn, hn1, hl1, hi1⟩ := syncExact_get_sync hi
      have hnotin : h0 ∉ rest := (List.nodup_cons.1 hi.2.1).1
      refine ⟨h0, rest, rfl, hi.1.1, ?_⟩
      rw [hg] at h
      simp only at h
      split at h
      · cases h
        exact syncExact_of_fields rfl (fun hc => hc) hi1
      · split at h
        · cases h
        · rename_i m hm
          split at h
          · cases h
          · rename_i r0 dts q3 hdts
            have fd := get_dts_frame hdts
            have h3 : SyncExact q3 rest := by
              rw [fd]
              exact syncExact_of_fields rfl (fun hc => hc) hi1
            have hm3 : surf_at q3 h0 = some m := by
              rw [fd]; exact hm
            split at h
            · cases h; exact h3
            · split at h
              · cases h
              · cases h
              · cases h
                exact syncExact_release_other hnotin (syncExact_surf_put_other hm3 hnotin h3)
  · rename_i hd
    cases h
    exact Or.inl ⟨by simpa using hd, hi⟩

/-! ## Lemmas: the sync queue as a list of entries -/

theorem isSome_ite_of {α : Type} {c1 c2 : Prop} [Decidable c1] [Decidable c2] {x y : α}
    {z : Option α} (h : z.isSome = true) :
    (if c1 then some x else if c2 then some y else z).isSome = true := by
  split
  · rfl
  · split
    · rfl
    · exact h

/-- The function `put_sync` on a pool surface that is not queued appends
the entry to the queue and keeps every surface of the pool resolvable. -/
theorem queueIs_put_sync {q : QSVDecContext} {L : List (Nat × Nat)} {a s : Nat}
    {n : QSVDecSurfaceList} (ha : surf_at q a = some n) (hout : a ∉ L.map Prod.fst)
    (hi : QueueIs q L) :
    ∃ q', put_sync q (some a) s = .ok q' ∧ QueueIs q' (L ++ [(a, s)]) ∧
      (∀ b, (surf_at q b).isSome = true → (surf_at q' b).isSome = true) := by
  have hne : ∀ b ∈ L.map Prod.fst, b ≠ a := fun b hb hc => hout (hc ▸ hb)
  obtain ⟨hc, hnd, sy, nb, en⟩ := hi
  simp only [put_sync, ha]
  cases he : q.pending_sync_end with
  | some e =>
    have he1 : (surf_put q a { n with sync := s, next := none }).pending_sync_end = some e := he
    simp only [he1]
    have he' : (L.map Prod.fst).getLast? = some e := en.symm.trans he
    have hemem : e ∈ L.map Prod.fst := List.mem_of_getLast?_eq_some he'
    have hea : e ≠ a := hne e hemem
    obtain ⟨en0, hen, hsy0⟩ : ∃ en0, surf_at q e = some en0 ∧
        ∀ x ∈ L, x.1 = e → en0.sync = x.2 := by
      obtain ⟨x, hx, hxe⟩ := List.mem_map.1 hemem
      obtain ⟨m, hm, _⟩ := sy x hx
      rw [hxe] at hm
      refine ⟨m, hm, ?_⟩
      intro y hy hye
      obtain ⟨m', hm', hs'⟩ := sy y hy
      rw [hye, hm] at hm'
      cases hm'
      exact hs'
    have hen1 : surf_at (surf_put q a { n with sync := s, next := none }) e = some en0 := by
      rw [surf_at_surf_put ha]; simp [hea, hen]
    simp only [hen1]
    have key : ∀ q', ({ surf_put (surf_put q a { n with sync := s, next := none }) e
            { en0 with next := some a } with
            pending_sync_end := some a
            nb_sync := (surf_put q a { n with sync := s, next := none }).nb_sync + 1 }
            : QSVDecContext) = q' →
        QueueIs q' (L ++ [(a, s)]) ∧
          (∀ b, (surf_at q b).isSome = true → (surf_at q' b).isSome = true) := by
      intro q' h
      have hat : ∀ b, surf_at q' b = if b = e then some { en0 with next := some a }
          else if b = a then some { n with sync := s, next := none } else surf_at q b := by
        intro b
        rw [← h]
        exact (surf_at_surf_put hen1 b).trans (by rw [surf_at_surf_put ha b])
      have f1 : q'.pending_sync = q.pending_sync := by rw [← h]; rfl
      have f2 : q'.pending_sync_end = some a := by rw [← h]
      have f3 : q'.nb_sync = q.nb_sync + 1 := by rw [← h]; rfl
      clear h
      refine ⟨⟨?_, ?_, ?_, ?_, ?_⟩, ?_⟩
      · rw [f1]
        obtain ⟨pre, hpre⟩ : ∃ pre, L.map Prod.fst = pre ++ [e] :=
          ⟨(L.map Prod.fst).dropLast, (List.dropLast_append_getLast? e he').symm⟩
        have hnd' := hnd
        rw [hpre] at hnd' hc
        have hpree : ∀ b ∈ pre, b ≠ e := by
          intro b hb hcc
          subst hcc
          exact (List.nodup_append.1 hnd').2.2 hb (by simp)
        have hprea : ∀ b ∈ pre, b ≠ a := by
          intro b hb
          exact hne b (by rw [hpre]; simp [hb])
        obtain ⟨m, c1, c2⟩ := schain_split pre [e] _ none hc
        obtain ⟨rfl, hve⟩ := schain_single c2
        have e1 : (L ++ [(a, s)]).map Prod.fst = pre ++ [e, a] := by
          rw [List.map_append, hpre]; simp
        rw [e1]
        refine schain_append pre [e, a] _ (some e) none ?_ ?_
        · refine schain_congr pre _ _ ?_ c1
          intro b hb v hv
          simp only [nx] at hv ⊢
          rw [hat b]
          simp only [hpree b hb, hprea b hb, if_false]
          exact hv
        · refine ⟨rfl, some a, ?_, rfl, none, ?_, rfl⟩
          · simp only [nx]; rw [hat e]; simp
          · simp only [nx]; rw [hat a]; simp [Ne.symm hea]
      · rw [List.map_append, List.nodup_append]
        refine ⟨hnd, by simp, ?_⟩
        intro b hb hb'
        simp only [List.map_cons, List.map_nil, List.mem_singleton] at hb'
        exact hout (hb' ▸ hb)
      · intro x hx
        rw [hat x.1]
        rcases List.mem_append.1 hx with hx | hx
        · by_cases hxe : x.1 = e
          · simp only [hxe, if_true]
            exact ⟨_, rfl, hsy0 x hx hxe⟩
          · have hxa : x.1 ≠ a := hne x.1 (List.mem_map_of_mem _ hx)
            simp only [hxe, hxa, if_false]
            exact sy x hx
        · simp only [List.mem_singleton] at hx
          subst hx
          simp only [Ne.symm hea, if_false, if_true]
          exact ⟨_, rfl, rfl⟩
      · rw [f3, nb]; simp
      · rw [f2]; simp
      · intro b hb
        rw [hat b]
        exact isSome_ite_of hb
    exact ⟨_, rfl, key _ rfl⟩
  | none =>
    have he1 : (surf_put q a { n with sync := s, next := none }).pending_sync_end = none := he
    simp only [he1]
    have he' : (L.map Prod.fst).getLast? = none := en.symm.trans he
    have hL : L = [] := by
      have := List.getLast?_eq_none_iff.1 he'
      exact List.map_eq_nil_iff.1 this
    subst hL
    have key : ∀ q', ({ surf_put q a { n with sync := s, next := none } with
            pending_sync := some a, pending_sync_end := some a
            nb_sync := (surf_put q a { n with sync := s, next := none }).nb_sync + 1 }
            : QSVDecContext) = q' →
        QueueIs q' ([] ++ [(a, s)]) ∧
          (∀ b, (surf_at q b).isSome = true → (surf_at q' b).isSome = true) := by
      intro q' h
      have hat : ∀ b, surf_at q' b = if b = a then some { n with sync := s, next := none }
          else surf_at q b := by
        intro b
        rw [← h]
        exact surf_at_surf_put ha b
      have f1 : q'.pending_sync = some a := by rw [← h]
      have f2 : q'.pending_sync_end = some a := by rw [← h]
      have f3 : q'.nb_sync = q.nb_sync + 1 := by rw [← h]; rfl
      clear h
      refine ⟨⟨⟨f1, none, ?_, rfl⟩, by simp, ?_, ?_, by simp [f2]⟩, ?_⟩
      · simp only [nx]; rw [hat a]; simp
      · intro x hx
        simp only [List.nil_append, List.mem_singleton] at hx
        subst hx
        rw [hat a]
        simp only [if_true]
        exact ⟨_, rfl, rfl⟩
      · rw [f3, nb]; simp
      · intro b hb
        rw [hat b]
        split
        · rfl
        · exact hb
    exact ⟨_, rfl, key _ rfl⟩

/-- The function `get_sync` on a non-empty queue returns its first entry
and removes it. -/
theorem queueIs_get_sync {q : QSVDecContext} {a s : Nat} {rest : List (Nat × Nat)}
    (hi : QueueIs q ((a, s) :: rest)) :
    ∃ q', get_sync q = .ok (a, s, q') ∧ QueueIs q' rest := by
  obtain ⟨⟨hp, v, hv, hc⟩, nd, sy, nb, en⟩ := hi
  obtain ⟨n, hn, hs⟩ := sy (a, s) (by simp)
  simp only at hn hs
  have hvn : v = n.next := by
    simp only [nx, hn, Option.map_some', Option.some.injEq] at hv
    exact hv.symm
  subst hvn
  simp only [List.map_cons] at nd hc en
  have hnotin : a ∉ rest.map Prod.fst := (List.nodup_cons.1 nd).1
  have hhead : n.next = (rest.map Prod.fst).head? := schain_head hc rfl
  obtain ⟨q', hq'⟩ : ∃ q', get_sync q = .ok (a, n.sync, q') := by
    simp only [get_sync, hp, hn]; exact ⟨_, rfl⟩
  obtain ⟨n', hp', hn', _, f1, f2, f3, _, _, _, _, f5⟩ := get_sync_fields hq'
  rw [hn] at hn'
  cases hn'
  have hat : ∀ b, b ≠ a → surf_at q' b = surf_at q b := by
    intro b hb
    have h := hq'
    simp only [get_sync, hp, hn, Except.ok.injEq, Prod.mk.injEq, true_and] at h
    rw [← h]
    have e0 : ∀ (qq : QSVDecContext), qq.surf_base = q.surf_base →
        qq.surf_pool = q.surf_pool → surf_at (surf_put qq a { n with next := none }) b
          = surf_at q b := by
      intro qq e1 e2
      have : surf_at qq a = some n := by simpa [surf_at, e1, e2] using hn
      rw [surf_at_surf_put this]
      simp [surf_at, e1, e2, hb]
    split <;> exact e0 _ rfl rfl
  refine ⟨q', hs ▸ hq', ?_, (List.nodup_cons.1 nd).2, ?_, ?_, ?_⟩
  · rw [f1]
    refine schain_keep ?_ _ _ _ hc hnotin
    intro b hb w hw
    simp only [nx] at hw ⊢
    rw [hat b hb]
    exact hw
  · intro x hx
    have hxa : x.1 ≠ a := fun hc => hnotin (hc ▸ List.mem_map_of_mem _ hx)
    rw [hat x.1 hxa]
    exact sy x (List.mem_cons_of_mem _ hx)
  · rw [f3, nb]; simp
  · rw [f2, hhead, en]
    cases hr : rest.map Prod.fst with
    | nil => simp
    | cons r rs => simp [List.getLast?_cons_cons]

theorem queueIs_empty {q : QSVDecContext} (h1 : q.pending_sync = none)
    (h2 : q.pending_sync_end = none) (h3 : q.nb_sync = 0) : QueueIs q [] := by
  refine ⟨h1, List.nodup_nil, ?_, ?_, ?_⟩
  · intro x hx; cases hx
  · rw [h3]; rfl
  · rw [h2]; rfl

theorem queueIs_nil_fields {q : QSVDecContext} (h : QueueIs q []) :
    q.pending_sync = none ∧ q.pending_sync_end = none ∧ q.nb_sync = 0 := by
  obtain ⟨h1, _, _, h4, h5⟩ := h
  exact ⟨h1, by simpa using h5, by simpa using h4⟩

theorem put_syncs_queue :
    ∀ (L L0 : List (Nat × Nat)) (q : QSVDecContext), QueueIs q L0 →
      (L0.map Prod.fst ++ L.map Prod.fst).Nodup →
      (∀ x ∈ L, (surf_at q x.1).isSome = true) →
      ∃ q1, put_syncs q L = .ok q1 ∧ QueueIs q1 (L0 ++ L) := by
  intro L
  induction L with
  | nil =>
    intro L0 q hi _ _
    exact ⟨q, rfl, by simpa using hi⟩
  | cons x rest ih =>
    intro L0 q hi hnd hres
    obtain ⟨a, s⟩ := x
    have hsome := hres (a, s) (by simp)
    obtain ⟨n, hn⟩ := Option.isSome_iff_exists.1 hsome
    have hout : a ∉ L0.map Prod.fst := by
      intro hc
      have := (List.nodup_append.1 hnd).2.2 hc
      exact this (by simp)
    obtain ⟨q', hput, hq', hkeep⟩ := @queueIs_put_sync q L0 a s n hn hout hi
    have hnd' : ((L0 ++ [(a, s)]).map Prod.fst ++ rest.map Prod.fst).Nodup := by
      simpa using hnd
    obtain ⟨q1, h1, h2⟩ := ih (L0 ++ [(a, s)]) q' hq' hnd'
      (fun y hy => hkeep y.1 (hres y (List.mem_cons_of_mem _ hy)))
    refine ⟨q1, ?_, by simpa using h2⟩
    simp only [put_syncs, hput]
    exact h1

theorem get_syncs_queue :
    ∀ (L : List (Nat × Nat)) (q : QSVDecContext), QueueIs q L →
      ∃ q2, get_syncs q L.length = .ok (L, q2) ∧ QueueIs q2 [] := by
  intro L
  induction L with
  | nil =>
    intro q hi
    exact ⟨q, rfl, hi⟩
  | cons x rest ih =>
    intro q hi
    obtain ⟨a, s⟩ := x
    obtain ⟨q', hget, hq'⟩ := queueIs_get_sync hi
    obtain ⟨q2, h1, h2⟩ := ih q' hq'
    refine ⟨q2, ?_, h2⟩
    simp only [List.length_cons, get_syncs, hget, h1]

/-! ## Lemmas: the pending-input queue as a list of entries -/

theorem bs_at_bs_put {q : QSVDecContext} {X : Nat} {n n' : QSVDecBitstreamList}
    (hX : bs_at q X = some n) (a : Nat) :
    bs_at (bs_put q X n') a = if a = X then some n' else bs_at q a := by
  unfold bs_at at hX
  split at hX
  · cases hX
  · rename_i hge
    have hlt : X - q.bs_base < q.bs_pool.length := (List.getElem?_eq_some.1 hX).1
    simp only [bs_put, bs_at]
    by_cases hax : a = X
    · subst hax
      simp [hge, List.getElem?_set_self hlt]
    · simp only [hax, if_false]
      split
      · rfl
      · rw [List.getElem?_set_ne (by omega)]

/-- A change of the pool that keeps the link and the packet of every node,
keeps the queued nodes bound and leaves the nodes outside the queue with a
`NULL` link keeps the queue. -/
theorem pendIs_congr {q q' : QSVDecContext} {L : List (Nat × AVPacket)}
    (hnode : ∀ a ∈ L.map Prod.fst, ∀ n, bs_at q a = some n →
      ∃ n', bs_at q' a = some n' ∧ n'.next = n.next ∧ n'.pkt = n.pkt ∧
        (n.bs.MaxLength ≠ 0 → n'.bs.MaxLength ≠ 0))
    (hout : ∀ a n', bs_at q' a = some n' → a ∉ L.map Prod.fst → n'.next = none)
    (h1 : q'.pending_dec = q.pending_dec) (h2 : q'.pending_dec_end = q.pending_dec_end)
    (hi : PendIs q L) : PendIs q' L := by
  obtain ⟨c, nd, sy, en, _⟩ := hi
  refine ⟨?_, nd, ?_, h2.trans en, hout⟩
  · rw [h1]
    refine schain_congr _ _ _ ?_ c
    intro a ha v hv
    simp only [bnx] at hv ⊢
    cases hn : bs_at q a with
    | none => rw [hn] at hv; cases hv
    | some n =>
      rw [hn] at hv
      obtain ⟨n', hn', e1, _⟩ := hnode a ha n hn
      rw [hn']
      simp only [Option.map_some', Option.some.injEq] at hv ⊢
      rw [e1]; exact hv
  · intro x hx
    obtain ⟨n, hn, hm, hp⟩ := sy x hx
    obtain ⟨n', hn', _, e2, e3⟩ := hnode x.1 (List.mem_map_of_mem _ hx) n hn
    exact ⟨n', hn', e3 hm, e2.trans hp⟩

/-- A store to a bitstream node that keeps its link, and keeps its packet
and its binding when the node is queued, keeps the queue. -/
theorem pendIs_bs_put {q : QSVDecContext} {L : List (Nat × AVPacket)} {X : Nat}
    {n n' : QSVDecBitstreamList} (hX : bs_at q X = some n) (hn : n'.next = n.next)
    (hq : X ∈ L.map Prod.fst → n'.pkt = n.pkt ∧ (n.bs.MaxLength ≠ 0 → n'.bs.MaxLength ≠ 0))
    (hi : PendIs q L) : PendIs (bs_put q X n') L := by
  refine @pendIs_congr q (bs_put q X n') L ?_ ?_ rfl rfl hi
  · intro a ha m hm
    rw [bs_at_bs_put hX]
    by_cases hax : a = X
    · subst hax
      rw [hX] at hm
      cases hm
      obtain ⟨e1, e2⟩ := hq ha
      exact ⟨n', by simp, hn, e1, e2⟩
    · exact ⟨m, by simp [hax, hm], rfl, rfl, fun h => h⟩
  · intro a m hm hout
    rw [bs_at_bs_put hX] at hm
    by_cases hax : a = X
    · subst hax
      simp only [if_true, Option.some.injEq] at hm
      subst hm
      rw [hn]
      exact hi.2.2.2.2 a n hX hout
    · simp only [hax, if_false] at hm
      exact hi.2.2.2.2 a m hm hout

theorem curIs_none (q : QSVDecContext) (L : List (Nat × AVPacket)) : CurIs q L none := by
  intro a ha; cases ha

theorem pendIs_of_fields {q q' : QSVDecContext} {L : List (Nat × AVPacket)}
    (h1 : q'.bs_base = q.bs_base) (h2 : q'.bs_pool = q.bs_pool)
    (h3 : q'.pending_dec = q.pending_dec) (h4 : q'.pending_dec_end = q.pending_dec_end)
    (hi : PendIs q L) : PendIs q' L := by
  have hat : ∀ a, bs_at q' a = bs_at q a := by
    intro a; simp [bs_at, h1, h2]
  refine @pendIs_congr q q' L ?_ ?_ h3 h4 hi
  · intro a _ n hn
    exact ⟨n, (hat a).trans hn, rfl, rfl, fun h => h⟩
  · intro a n hn hout
    rw [hat a] at hn
    exact hi.2.2.2.2 a n hn hout

theorem curIs_of_fields {q q' : QSVDecContext} {L : List (Nat × AVPacket)} {p : Option Nat}
    (h1 : q'.bs_base = q.bs_base) (h2 : q'.bs_pool = q.bs_pool)
    (hi : CurIs q L p) : CurIs q' L p := by
  intro a ha
  obtain ⟨k1, n, k2, k3⟩ := hi a ha
  exact ⟨k1, n, by simpa [bs_at, h1, h2] using k2, k3⟩

theorem set_bitstream_data_next (pktRef : Option Nat) (q : QSVDecContext)
    (list : QSVDecBitstreamList) (pkt : AVPacket) :
    (set_bitstream_data pktRef q list pkt).2.next = list.next := by
  cases pktRef <;> rfl

theorem set_bitstream_data_pkt {pktRef : Option Nat} {q : QSVDecContext}
    {list : QSVDecBitstreamList} {pkt : AVPacket}
    (h : ¬ (set_bitstream_data pktRef q list pkt).1 < 0) :
    ∃ d, pktRef = some d ∧
      (set_bitstream_data pktRef q list pkt).2.pkt = some { pkt with data := d } := by
  cases pktRef with
  | none => exact absurd (by simp [set_bitstream_data, AVERROR_ENOMEM]) h
  | some d => exact ⟨d, rfl, rfl⟩

/-- Addresses other than that of the first free node resolve after
`get_bitstream_from_packet` as before, and that address resolves to the node
`set_bitstream_data` leaves. -/
theorem bs_at_ext_set (q : QSVDecContext) (x : QSVDecBitstreamList) :
    (∀ a, a ≠ q.bs_base + q.bs_pool.findIdx bs_free →
      bs_at { q with bs_pool := (bs_pool_ext q).set (q.bs_pool.findIdx bs_free) x } a
        = bs_at q a) ∧
    bs_at { q with bs_pool := (bs_pool_ext q).set (q.bs_pool.findIdx bs_free) x }
      (q.bs_base + q.bs_pool.findIdx bs_free) = some x := by
  obtain ⟨n0, h0, _, _, _⟩ := bs_pool_ext_idx q
  have hlt : q.bs_pool.findIdx bs_free < (bs_pool_ext q).length :=
    (List.getElem?_eq_some.1 h0).1
  have hle : q.bs_pool.findIdx bs_free ≤ q.bs_pool.length := List.findIdx_le_length _
  refine ⟨?_, ?_⟩
  · intro a ha
    simp only [bs_at]
    split
    · rfl
    · rename_i hge
      rw [List.getElem?_set_ne (by omega)]
      cases hq : q.bs_pool[a - q.bs_base]? with
      | some n => exact bs_pool_ext_old q _ n hq
      | none =>
        have hlen : q.bs_pool.length ≤ a - q.bs_base := by
          by_contra hc
          rw [List.getElem?_eq_getElem (by omega)] at hq
          cases hq
        apply List.getElem?_eq_none
        rcases Nat.lt_or_ge (q.bs_pool.findIdx bs_free) q.bs_pool.length with hc | hc
        · rw [(bs_pool_ext_length q).1 hc]; exact hlen
        · rw [(bs_pool_ext_length q).2 (by omega)]; omega
  · simp [bs_at, List.getElem?_set_self hlt]

/-- The function `get_bitstream_from_packet` keeps the pending-input queue
and every bound node; a descriptor it returns was free, is outside the queue
and wraps a reference to the packet. -/
theorem pendIs_get_bitstream (mallocOk : Bool) (pktRef : Option Nat) (q : QSVDecContext)
    (pkt : AVPacket) {L : List (Nat × AVPacket)} (hsize : pkt.size ≠ 0) (hi : PendIs q L) :
    PendIs (get_bitstream_from_packet mallocOk pktRef q pkt).2 L ∧
    (∀ a n, bs_at q a = some n → n.bs.MaxLength ≠ 0 →
      bs_at (get_bitstream_from_packet mallocOk pktRef q pkt).2 a = some n) ∧
    (∀ c, (get_bitstream_from_packet mallocOk pktRef q pkt).1 = some c →
      c ∉ L.map Prod.fst ∧ (∀ n, bs_at q c = some n → n.bs.MaxLength = 0) ∧
      ∃ n d, pktRef = some d ∧
        bs_at (get_bitstream_from_packet mallocOk pktRef q pkt).2 c = some n ∧
        n.bs.MaxLength ≠ 0 ∧ n.pkt = some { pkt with data := d }) := by
  obtain ⟨n0, h0, hget, hm0, hold⟩ := bs_pool_ext_idx q
  have hle : q.bs_pool.findIdx bs_free ≤ q.bs_pool.length := List.findIdx_le_length _
  -- the first free node, when it is an old one, is outside the queue
  have hXfree : ∀ n, bs_at q (q.bs_base + q.bs_pool.findIdx bs_free) = some n →
      n.bs.MaxLength = 0 := by
    intro n hn
    simp only [bs_at, Nat.not_lt.2 (Nat.le_add_right _ _), if_false, Nat.add_sub_cancel_left] at hn
    have hlt : q.bs_pool.findIdx bs_free < q.bs_pool.length := (List.getElem?_eq_some.1 hn).1
    rw [hold hlt] at hn
    cases hn
    exact hm0
  have hXout : q.bs_base + q.bs_pool.findIdx bs_free ∉ L.map Prod.fst := by
    intro hc
    obtain ⟨x, hx, hxe⟩ := List.mem_map.1 hc
    obtain ⟨n, hn, hm, _⟩ := hi.2.2.1 x hx
    rw [hxe] at hn
    exact hm (hXfree n hn)
  have hn0next : n0.next = none := by
    rcases Nat.lt_or_ge (q.bs_pool.findIdx bs_free) q.bs_pool.length with hc | hc
    · have : bs_at q (q.bs_base + q.bs_pool.findIdx bs_free) = some n0 := by
        simp [bs_at, hold hc]
      exact hi.2.2.2.2 _ n0 this hXout
    · have hfull : q.bs_pool.findIdx bs_free = q.bs_pool.length := by omega
      have : (bs_pool_ext q)[q.bs_pool.findIdx bs_free]? = some ({} : QSVDecBitstreamList) := by
        unfold bs_pool_ext
        simp [hfull]
      rw [h0] at this
      cases this
      rfl
  rcases get_bitstream_from_packet_spec mallocOk pktRef q pkt with hr | hr
  · rw [hr]
    exact ⟨hi, fun a n hn _ => hn, fun c hc => by cases hc⟩
  · rw [hr]
    obtain ⟨hat, hatX⟩ := bs_at_ext_set q
      (set_bitstream_data pktRef q ((bs_pool_ext q).getD (q.bs_pool.findIdx bs_free) {}) pkt).2
    refine ⟨?_, ?_, ?_⟩
    · refine @pendIs_congr q _ L ?_ ?_ rfl rfl hi
      · intro a ha n hn
        have hax : a ≠ q.bs_base + q.bs_pool.findIdx bs_free := fun hc => hXout (hc ▸ ha)
        exact ⟨n, (hat a hax).trans hn, rfl, rfl, fun h => h⟩
      · intro a n' hn' hout
        by_cases hax : a = q.bs_base + q.bs_pool.findIdx bs_free
        · subst hax
          simp only at hn'
          rw [hatX] at hn'
          cases hn'
          rw [set_bitstream_data_next, hget]
          exact hn0next
        · simp only at hn'
          rw [hat a hax] at hn'
          exact hi.2.2.2.2 a n' hn' hout
    · intro a n hn hm
      have hax : a ≠ q.bs_base + q.bs_pool.findIdx bs_free := by
        intro hc
        subst hc
        exact hm (hXfree n hn)
      exact (hat a hax).trans hn
    · intro c hc
      simp only at hc
      split at hc
      · cases hc
      · rename_i hneg
        cases hc
        obtain ⟨e1, _, _, _⟩ := set_bitstream_data_ok hneg
        obtain ⟨d, hd, hp⟩ := set_bitstream_data_pkt hneg
        exact ⟨hXout, hXfree, _, d, hd, hatX, by rw [e1]; exact hsize, hp⟩

/-- What `get_pending_bitstream` returns and leaves. -/
theorem get_pending_fields {q q1 : QSVDecContext} {a : Nat}
    (h : get_pending_bitstream q = .ok (a, q1)) :
    ∃ n, q.pending_dec = some a ∧ bs_at q a = some n ∧
      q1.pending_dec = n.next ∧
      q1.pending_dec_end = (if n.next = none then none else q.pending_dec_end) ∧
      (∀ b, bs_at q1 b = if b = a then some { n with next := none } else bs_at q b) := by
  unfold get_pending_bitstream at h
  split at h
  · cases h
  · rename_i a0 hp
    split at h
    · cases h
    · rename_i n hn
      by_cases hnn : n.next = none
      · simp only [hnn, if_true, Except.ok.injEq, Prod.mk.injEq] at h
        obtain ⟨rfl, rfl⟩ := h
        refine ⟨n, hp, hn, hnn.symm, by simp [hnn, bs_put], ?_⟩
        intro b
        exact bs_at_bs_put (n := n) (by exact hn) b
      · simp only [hnn, if_false, Except.ok.injEq, Prod.mk.injEq] at h
        obtain ⟨rfl, rfl⟩ := h
        refine ⟨n, hp, hn, rfl, by simp [hnn, bs_put], ?_⟩
        intro b
        exact bs_at_bs_put (n := n) (by exact hn) b

/-- The function `get_pending_bitstream` pops the first entry of the
queue. -/
theorem pendIs_get_pending {q q1 : QSVDecContext} {a : Nat} {L : List (Nat × AVPacket)}
    (hi : PendIs q L) (h : get_pending_bitstream q = .ok (a, q1)) :
    ∃ p rest n, L = (a, p) :: rest ∧ PendIs q1 rest ∧
      bs_at q1 a = some n ∧ n.bs.MaxLength ≠ 0 ∧ n.pkt = some p ∧
      (∀ b, b ≠ a → bs_at q1 b = bs_at q b) := by
  obtain ⟨n, hp, hn, f1, f2, hat⟩ := get_pending_fields h
  obtain ⟨hc, nd, sy, en, ho⟩ := hi
  cases L with
  | nil =>
    simp only [List.map_nil, SChain] at hc
    rw [hp] at hc; cases hc
  | cons x rest =>
    obtain ⟨a', p⟩ := x
    simp only [List.map_cons] at hc nd en ho
    obtain ⟨hp', v, hv, hc'⟩ := hc
    rw [hp] at hp'
    cases hp'
    have hvn : v = n.next := by
      simp only [bnx, hn, Option.map_some', Option.some.injEq] at hv
      exact hv.symm
    subst hvn
    have hnotin : a ∉ rest.map Prod.fst := (List.nodup_cons.1 nd).1
    have hhead : n.next = (rest.map Prod.fst).head? := schain_head hc' rfl
    obtain ⟨m, hm, hmx, hmp⟩ := sy (a, p) (by simp)
    simp only at hm hmp
    rw [hn] at hm
    cases hm
    refine ⟨p, rest, { n with next := none }, rfl, ⟨?_, (List.nodup_cons.1 nd).2, ?_, ?_, ?_⟩,
      by rw [hat a]; simp, hmx, hmp, fun b hb => by rw [hat b]; simp [hb]⟩
    · rw [f1]
      refine schain_keep ?_ _ _ _ hc' hnotin
      intro b hb w hw
      simp only [bnx] at hw ⊢
      rw [hat b]
      simp only [hb, if_false]
      exact hw
    · intro x hx
      have hxa : x.1 ≠ a := fun hc => hnotin (hc ▸ List.mem_map_of_mem _ hx)
      rw [hat x.1]
      simp only [hxa, if_false]
      exact sy x (List.mem_cons_of_mem _ hx)
    · rw [f2, hhead, en]
      cases hr : rest.map Prod.fst with
      | nil => simp
      | cons r rs => simp [List.getLast?_cons_cons]
    · intro b m hm hout
      rw [hat b] at hm
      by_cases hba : b = a
      · subst hba
        simp only [if_true, Option.some.injEq] at hm
        subst hm
        rfl
      · simp only [hba, if_false] at hm
        refine ho b m hm ?_
        simp only [List.mem_cons, not_or]
        exact ⟨hba, hout⟩

/-- The function `put_pending_bitstream` on a bound node outside the queue
appends it to the queue; it writes only the link of the old tail. -/
theorem pendIs_put_pending {q q' : QSVDecContext} {c : Nat} {L : List (Nat × AVPacket)}
    {n : QSVDecBitstreamList} {p : AVPacket}
    (hi : PendIs q L) (hc : bs_at q c = some n) (hout : c ∉ L.map Prod.fst)
    (hm : n.bs.MaxLength ≠ 0) (hp : n.pkt = some p)
    (h : put_pending_bitstream q c = .ok q') :
    PendIs q' (L ++ [(c, p)]) ∧
      (∀ b m, bs_at q b = some m →
        ∃ m', bs_at q' b = some m' ∧ m'.bs = m.bs ∧ m'.pkt = m.pkt) := by
  have hne : ∀ b ∈ L.map Prod.fst, b ≠ c := fun b hb hcc => hout (hcc ▸ hb)
  obtain ⟨hch, hnd, sy, en, ho⟩ := hi
  have hcnext : n.next = none := ho c n hc hout
  simp only [put_pending_bitstream, hc] at h
  split at h
  · rename_i e he
    split at h
    · cases h
    · rename_i en0 hen
      simp only [Except.ok.injEq] at h
      have he' : (L.map Prod.fst).getLast? = some e := en.symm.trans he
      have hemem : e ∈ L.map Prod.fst := List.mem_of_getLast?_eq_some he'
      have hec : e ≠ c := hne e hemem
      have hat : ∀ b, bs_at q' b = if b = e then some { en0 with next := some c }
          else bs_at q b := by
        intro b
        rw [← h]
        exact bs_at_bs_put hen b
      have f1 : q'.pending_dec = q.pending_dec := by rw [← h]; rfl
      have f2 : q'.pending_dec_end = some c := by rw [← h]
      clear h
      refine ⟨⟨?_, ?_, ?_, ?_, ?_⟩, ?_⟩
      · rw [f1]
        obtain ⟨pre, hpre⟩ : ∃ pre, L.map Prod.fst = pre ++ [e] :=
          ⟨(L.map Prod.fst).dropLast, (List.dropLast_append_getLast? e he').symm⟩
        have hnd' := hnd
        rw [hpre] at hnd' hch
        have hpree : ∀ b ∈ pre, b ≠ e := by
          intro b hb hcc
          subst hcc
          exact (List.nodup_append.1 hnd').2.2 hb (by simp)
        obtain ⟨m, c1, c2⟩ := schain_split pre [e] _ none hch
        obtain ⟨rfl, hve⟩ := schain_single c2
        have e1 : (L ++ [(c, p)]).map Prod.fst = pre ++ [e, c] := by
          rw [List.map_append, hpre]; simp
        rw [e1]
        refine schain_append pre [e, c] _ (some e) none ?_ ?_
        · refine schain_congr pre _ _ ?_ c1
          intro b hb v hv
          simp only [bnx] at hv ⊢
          rw [hat b]
          simp only [hpree b hb, if_false]
          exact hv
        · refine ⟨rfl, some c, ?_, rfl, none, ?_, rfl⟩
          · simp only [bnx]; rw [hat e]; simp
          · simp only [bnx]; rw [hat c]; simp [Ne.symm hec, hc, hcnext]
      · rw [List.map_append, List.nodup_append]
        refine ⟨hnd, by simp, ?_⟩
        intro b hb hb'
        simp only [List.map_cons, List.map_nil, List.mem_singleton] at hb'
        exact hout (hb' ▸ hb)
      · intro x hx
        rw [hat x.1]
        rcases List.mem_append.1 hx with hx | hx
        · by_cases hxe : x.1 = e
          · simp only [hxe, if_true]
            obtain ⟨m, hm', k1, k2⟩ := sy x hx
            rw [hxe, hen] at hm'
            cases hm'
            exact ⟨_, rfl, k1, k2⟩
          · simp only [hxe, if_false]
            exact sy x hx
        · simp only [List.mem_singleton] at hx
          subst hx
          simp only [Ne.symm hec, if_false]
          exact ⟨n, hc, hm, hp⟩
      · rw [f2]; simp
      · intro b m hbm hbout
        rw [hat b] at hbm
        have hbe : b ≠ e := by
          intro hcc
          apply hbout
          rw [List.map_append]
          exact List.mem_append_left _ (hcc ▸ hemem)
        simp only [hbe, if_false] at hbm
        refine ho b m hbm ?_
        intro hcc
        apply hbout
        rw [List.map_append]
        exact List.mem_append_left _ hcc
      · intro b m hbm
        rw [hat b]
        by_cases hbe : b = e
        · subst hbe
          rw [hen] at hbm
          cases hbm
          simp only [if_true]
          exact ⟨_, rfl, rfl, rfl⟩
        · exact ⟨m, by simp [hbe, hbm], rfl, rfl⟩
  · rename_i he
    simp only [Except.ok.injEq] at h
    have he' : (L.map Prod.fst).getLast? = none := en.symm.trans he
    have hL : L = [] := List.map_eq_nil_iff.1 (List.getLast?_eq_none_iff.1 he')
    subst hL
    have hat : ∀ b, bs_at q' b = bs_at q b := by
      intro b; rw [← h]; rfl
    have f1 : q'.pending_dec = some c := by rw [← h]
    have f2 : q'.pending_dec_end = some c := by rw [← h]
    clear h
    refine ⟨⟨⟨f1, none, ?_, rfl⟩, by simp, ?_, by simp [f2], ?_⟩, ?_⟩
    · simp only [bnx]; rw [hat c, hc]; simp [hcnext]
    · intro x hx
      simp only [List.nil_append, List.mem_singleton] at hx
      subst hx
      rw [hat c]
      exact ⟨n, hc, hm, hp⟩
    · intro b m hbm hbout
      rw [hat b] at hbm
      exact ho b m hbm (by simp)
    · intro b m hbm
      exact ⟨m, (hat b).trans hbm, rfl, rfl⟩

theorem bview_some {q : QSVDecContext} {a : Nat} {n : QSVDecBitstreamList}
    (h : bs_at q a = some n) : bview q a = some (n.next, n.pkt, n.bs.MaxLength) := by
  simp [bview, h]

theorem bview_eq {q q' : QSVDecContext} {a : Nat} {n : QSVDecBitstreamList}
    (hv : bview q' a = bview q a) (h : bs_at q a = some n) :
    ∃ n', bs_at q' a = some n' ∧ n'.next = n.next ∧ n'.pkt = n.pkt ∧
      n'.bs.MaxLength = n.bs.MaxLength := by
  rw [bview_some h] at hv
  simp only [bview] at hv
  cases hn' : bs_at q' a with
  | none => rw [hn'] at hv; cases hv
  | some n' =>
    rw [hn'] at hv
    simp only [Option.map_some', Option.some.injEq, Prod.mk.injEq] at hv
    exact ⟨n', rfl, hv.1, hv.2.1, hv.2.2⟩

theorem pendIs_of_view {q q' : QSVDecContext} {L : List (Nat × AVPacket)}
    (hv : ∀ b, bview q' b = bview q b)
    (h1 : q'.pending_dec = q.pending_dec) (h2 : q'.pending_dec_end = q.pending_dec_end)
    (hi : PendIs q L) : PendIs q' L := by
  refine @pendIs_congr q q' L ?_ ?_ h1 h2 hi
  · intro a _ n hn
    obtain ⟨n', k1, k2, k3, k4⟩ := bview_eq (hv a) hn
    exact ⟨n', k1, k2, k3, fun h => by rw [k4]; exact h⟩
  · intro a n' hn' hout
    obtain ⟨n, k1, k2, _, _⟩ := bview_eq (hv a).symm hn'
    rw [← k2]
    exact hi.2.2.2.2 a n k1 hout

theorem curIs_of_view {q q' : QSVDecContext} {L : List (Nat × AVPacket)} {p : Option Nat}
    (hv : ∀ b, bview q' b = bview q b) (hi : CurIs q L p) : CurIs q' L p := by
  intro a ha
  obtain ⟨k1, n, k2, k3⟩ := hi a ha
  obtain ⟨n', e1, _, _, e4⟩ := bview_eq (hv a) k2
  exact ⟨k1, n', e1, by rw [e4]; exact k3⟩

theorem loopOrd_of_view {L : List (Nat × AVPacket)} {C : Option AVPacket} {st st' : LoopSt}
    (hv : ∀ b, bview st'.q b = bview st.q b)
    (h1 : st'.q.pending_dec = st.q.pending_dec)
    (h2 : st'.q.pending_dec_end = st.q.pending_dec_end)
    (h3 : st'.inbs = st.inbs) (h4 : st'.curbs = st.curbs)
    (hi : LoopOrd L C st) : LoopOrd L C st' := by
  obtain ⟨k1, k2, k3⟩ := hi
  refine ⟨pendIs_of_view hv h1 h2 k1, by rw [h3]; exact curIs_of_view hv k2, ?_⟩
  rcases k3 with ⟨e1, e2⟩ | ⟨c, p, n, e1, e2, e3, e4, e5, e6, e7⟩
  · exact Or.inl ⟨by rw [h4]; exact e1, e2⟩
  · obtain ⟨n', g1, _, g3, g4⟩ := bview_eq (hv c) e5
    exact Or.inr ⟨c, p, n', by rw [h4]; exact e1, e2, e3, by rw [h3]; exact e4, g1,
      by rw [g4]; exact e6, by rw [g3]; exact e7⟩

theorem bview_of_fields {q q' : QSVDecContext} (h1 : q'.bs_base = q.bs_base)
    (h2 : q'.bs_pool = q.bs_pool) (b : Nat) : bview q' b = bview q b := by
  simp [bview, bs_at, h1, h2]

theorem accel_consume_view (q : QSVDecContext) (inbs : Option Nat) (c : Nat) (b : Nat) :
    bview (accel_consume q inbs c) b = bview q b := by
  unfold accel_consume
  split
  · rfl
  · rename_i a
    split
    · rfl
    · rename_i n hn
      simp only [bview]
      rw [bs_at_bs_put hn]
      by_cases hba : b = a
      · subst hba
        simp [hn]
      · simp [hba]

theorem loop_tail_view {it : IterEnv} {st st' : LoopSt} {stop : Bool}
    (h : loop_tail it st = .ok (st', stop)) :
    (∀ b, bview st'.q b = bview st.q b) ∧ st'.q.pending_dec = st.q.pending_dec ∧
      st'.q.pending_dec_end = st.q.pending_dec_end ∧ st'.inbs = st.inbs ∧
      st'.curbs = st.curbs := by
  have f := loop_tail_frame h
  have e1 : st'.q.pending_dec = st.q.pending_dec := by rw [f]
  have e2 : st'.q.pending_dec_end = st.q.pending_dec_end := by rw [f]
  have e3 : st'.inbs = st.inbs := by rw [f]
  have e4 : st'.curbs = st.curbs := by rw [f]
  refine ⟨?_, e1, e2, e3, e4⟩
  clear f e1 e2 e3 e4
  unfold loop_tail at h
  simp only at h
  split at h
  · cases h
  · rename_i q1 hg
    cases h
    have fg := get_surface_frame hg
    intro b
    exact bview_of_fields (by rw [fg]) (by rw [fg]) b
  · rename_i w q1 hg
    have fg := get_surface_frame hg
    have hq1 : ∀ b, bview q1 b = bview st.q b := fun b =>
      bview_of_fields (by rw [fg]) (by rw [fg]) b
    have hq2 : ∀ b, bview (accel_consume q1 st.inbs it.consumed) b = bview st.q b := fun b =>
      (accel_consume_view q1 st.inbs it.consumed b).trans (hq1 b)
    generalize accel_consume q1 st.inbs it.consumed = q2 at h hq2
    have hq2' : ∀ o b, bview (accel_output q2 o) b = bview st.q b := by
      intro o b
      rw [accel_output_frame]
      exact hq2 b
    repeat' (first | split at h | simp only at h)
    all_goals (try cases h)
    all_goals (intro b; first | exact hq2 b | exact hq2' _ b)

theorem loopOrd_drop_consumed {L : List (Nat × AVPacket)} {C : Option AVPacket}
    {st st1 : LoopSt} (hi : LoopOrd L C st) (h : drop_consumed st = .ok st1) :
    LoopOrd L C st1 ∧ (inbs_has_data st1 = .ok false → st1.inbs = none) := by
  obtain ⟨k1, k2, k3⟩ := hi
  unfold drop_consumed at h
  split at h
  · rename_i hn
    cases h
    exact ⟨⟨k1, k2, k3⟩, fun _ => hn⟩
  · rename_i a ha
    split at h
    · cases h
    · rename_i n hn
      split at h
      · rename_i hz
        cases h
        obtain ⟨hout, _⟩ := k2 a ha
        refine ⟨⟨pendIs_bs_put hn rfl (fun hc => absurd hc hout) k1, curIs_none _ _, ?_⟩,
          fun _ => rfl⟩
        rcases k3 with ⟨e1, e2⟩ | ⟨c, p, m, e1, e2, e3, e4, e5, e6, e7⟩
        · exact Or.inl ⟨e1, e2⟩
        · have hca : c ≠ a := by
            intro hc
            apply e4
            rw [ha, hc]
          refine Or.inr ⟨c, p, m, e1, e2, e3, by simp, ?_, e6, e7⟩
          show bs_at (bs_put st.q a _) c = some m
          rw [bs_at_bs_put hn]
          simp [hca, e5]
      · rename_i hz
        cases h
        refine ⟨⟨k1, k2, k3⟩, ?_⟩
        intro hc
        simp only [inbs_has_data, ha, hn, Except.ok.injEq, decide_eq_false_iff_not] at hc
        omega

theorem loopOrd_select_input {size : Nat} {L : List (Nat × AVPacket)} {C : Option AVPacket}
    {st1 st2 : LoopSt} {b : Bool} (hi : LoopOrd L C st1)
    (hd : inbs_has_data st1 = .ok false → st1.inbs = none)
    (h : select_input size st1 = .ok (st2, b)) :
    ∃ L' C', LoopOrd L' C' st2 ∧
      (if st2.inbs = st1.inbs then []
       else
         (match st2.inbs with
          | some a => ((bs_at st2.q a).bind (·.pkt)).toList
          | none => [])) ++ L'.map Prod.snd ++ C'.toList = L.map Prod.snd ++ C.toList := by
  have same : ∀ (st2 : LoopSt), LoopOrd L C st2 → st2.inbs = st1.inbs →
      ∃ L' C', LoopOrd L' C' st2 ∧
        (if st2.inbs = st1.inbs then []
         else
           (match st2.inbs with
            | some a => ((bs_at st2.q a).bind (·.pkt)).toList
            | none => [])) ++ L'.map Prod.snd ++ C'.toList = L.map Prod.snd ++ C.toList := by
    intro st2 h1 h2
    exact ⟨L, C, h1, by simp [h2]⟩
  obtain ⟨k1, k2, k3⟩ := hi
  unfold select_input at h
  split at h
  · split at h
    · cases h; exact same _ ⟨k1, k2, k3⟩ rfl
    · split at h
      · cases h
      · cases h; exact same _ ⟨k1, k2, k3⟩ rfl
      · rename_i hdata
        have hnone : st1.inbs = none := hd hdata
        split at h
        · split at h
          · cases h
          · rename_i r hg
            cases h
            obtain ⟨a, q1⟩ := r
            obtain ⟨p, rest, n, hL, hq1, hn, hm, hp, hoth⟩ := pendIs_get_pending k1 hg
            subst hL
            have hnd := k1.2.1
            simp only [List.map_cons] at hnd
            have hnotin : a ∉ rest.map Prod.fst := (List.nodup_cons.1 hnd).1
            refine ⟨rest, C, ⟨hq1, ?_, ?_⟩, ?_⟩
            · intro a' ha'
              cases ha'
              exact ⟨hnotin, n, hn, hm⟩
            · rcases k3 with ⟨e1, e2⟩ | ⟨c, p', m, e1, e2, e3, e4, e5, e6, e7⟩
              · exact Or.inl ⟨e1, e2⟩
              · have hca : c ≠ a := by
                  intro hc
                  apply e3
                  rw [hc]
                  simp
                refine Or.inr ⟨c, p', m, e1, e2, ?_, ?_, ?_, e6, e7⟩
                · intro hc
                  apply e3
                  simp only [List.map_cons, List.mem_cons]
                  exact Or.inr hc
                · intro hc
                  cases hc
                  exact hca rfl
                · show bs_at q1 c = some m
                  rw [hoth c hca]
                  exact e5
            · simp [hnone, hn, hp]
        · split at h
          · rename_i hnp hcur
            cases h
            rcases k3 with ⟨e1, e2⟩ | ⟨c, p', m, e1, e2, e3, e4, e5, e6, e7⟩
            · rw [e1] at hcur; cases hcur
            · have hpd : st1.q.pending_dec = none := by
                cases hq : st1.q.pending_dec with
                | none => rfl
                | some x => rw [hq] at hnp; exact absurd rfl hnp
              have hL : L = [] := by
                cases L with
                | nil => rfl
                | cons x rest =>
                  have := k1.1.1
                  rw [hpd] at this
                  cases this
              subst hL
              refine ⟨[], none, ⟨k1, ?_, Or.inl ⟨rfl, rfl⟩⟩, ?_⟩
              · intro a' ha'
                have : st1.curbs = some a' := ha'
                rw [e1] at this
                cases this
                exact ⟨e3, m, e5, e6⟩
              · simp [hnone, e1, e2, e5, e7]
          · split at h
            · cases h; exact same _ ⟨k1, k2, k3⟩ rfl
            · cases h; exact same _ ⟨k1, k2, k3⟩ rfl
  · split at h
    · cases h; exact same _ ⟨k1, k2, k3⟩ rfl
    · split at h
      · split at h
        · cases h; exact same _ ⟨k1, k2, k3⟩ rfl
        · cases h
          refine same _ ⟨?_, ?_, ?_⟩ rfl
          · exact pendIs_of_fields rfl rfl rfl rfl k1
          · exact curIs_of_fields rfl rfl k2
          · rcases k3 with ⟨e1, e2⟩ | ⟨c, p', m, e1, e2, e3, e4, e5, e6, e7⟩
            · exact Or.inl ⟨e1, e2⟩
            · exact Or.inr ⟨c, p', m, e1, e2, e3, e4, e5, e6, e7⟩
      · cases h; exact same _ ⟨k1, k2, k3⟩ rfl

theorem loopOrd_loop_head {size : Nat} {L : List (Nat × AVPacket)} {C : Option AVPacket}
    {st st' : LoopSt} {b : Bool} (hi : LoopOrd L C st)
    (h : loop_head size st = .ok (st', b)) :
    ∃ L' C', LoopOrd L' C' st' ∧
      head_pick size st ++ L'.map Prod.snd ++ C'.toList = L.map Prod.snd ++ C.toList := by
  unfold loop_head at h
  unfold head_pick
  split at h
  · cases h
  · rename_i st1 hd
    obtain ⟨i1, hdata⟩ := loopOrd_drop_consumed hi hd
    rw [hd]
    simp only
    split at h
    · cases h
    · rename_i st2 hs
      cases h
      obtain ⟨L', C', i2, he⟩ := loopOrd_select_input i1 hdata hs
      rw [hs]
      exact ⟨L', C', i2, he⟩
    · rename_i st2 hs
      cases h
      obtain ⟨L', C', i2, he⟩ := loopOrd_select_input i1 hdata hs
      rw [hs]
      refine ⟨L', C', ?_, he⟩
      obtain ⟨k1, k2, k3⟩ := i2
      refine ⟨k1, ?_, ?_⟩
      · show CurIs st2.q L' (if st2.flush then none else st2.inbs)
        split
        · exact curIs_none _ _
        · exact k2
      · rcases k3 with ⟨e1, e2⟩ | ⟨c, p', m, e1, e2, e3, e4, e5, e6, e7⟩
        · exact Or.inl ⟨e1, e2⟩
        · refine Or.inr ⟨c, p', m, e1, e2, e3, ?_, e5, e6, e7⟩
          show (if st2.flush then none else st2.inbs) ≠ some c
          split
          · simp
          · exact e4

theorem loopOrd_loop_tail {it : IterEnv} {L : List (Nat × AVPacket)} {C : Option AVPacket}
    {st st' : LoopSt} {stop : Bool} (hi : LoopOrd L C st)
    (h : loop_tail it st = .ok (st', stop)) : LoopOrd L C st' := by
  obtain ⟨v, h1, h2, h3, h4⟩ := loop_tail_view h
  exact loopOrd_of_view v h1 h2 h3 h4 hi

theorem loopOrd_dec_loop {size : Nat} :
    ∀ (its : List IterEnv) (L : List (Nat × AVPacket)) (C : Option AVPacket) (st st' : LoopSt),
      LoopOrd L C st → dec_loop size its st = .ok st' →
      ∃ L' C', LoopOrd L' C' st' ∧
        loop_picks size its st ++ L'.map Prod.snd ++ C'.toList
          = L.map Prod.snd ++ C.toList := by
  intro its
  induction its with
  | nil =>
    intro L C st st' hi h
    unfold dec_loop at h
    unfold loop_picks
    split at h
    · cases h
    · rename_i st1 hh
      cases h
      exact loopOrd_loop_head hi hh
    · cases h
  | cons it rest ih =>
    intro L C st st' hi h
    unfold dec_loop at h
    unfold loop_picks
    split at h
    · cases h
    · rename_i st1 hh
      cases h
      obtain ⟨L1, C1, i1, e1⟩ := loopOrd_loop_head hi hh
      rw [hh]
      simp only [List.append_nil]
      exact ⟨L1, C1, i1, e1⟩
    · rename_i st1 hh
      obtain ⟨L1, C1, i1, e1⟩ := loopOrd_loop_head hi hh
      rw [hh]
      simp only
      split at h
      · cases h
      · rename_i st2 ht
        cases h
        rw [ht]
        simp only [List.append_nil]
        exact ⟨L1, C1, loopOrd_loop_tail i1 ht, e1⟩
      · rename_i st2 ht
        rw [ht]
        simp only
        obtain ⟨L2, C2, i2, e2⟩ := ih L1 C1 st2 st' (loopOrd_loop_tail i1 ht) h
        refine ⟨L2, C2, i2, ?_⟩
        rw [← e1]
        simp only [List.append_assoc] at e2 ⊢
        rw [e2]

theorem callOrd_of_bfields {q q' : QSVDecContext} {L : List (Nat × AVPacket)}
    (h : bfields q' = bfields q) (hi : CallOrd q L) : CallOrd q' L := by
  simp only [bfields, Prod.mk.injEq] at h
  obtain ⟨h1, h2, h3, h4, h5⟩ := h
  refine ⟨pendIs_of_fields h1 h2 h3 h4 hi.1, ?_⟩
  rw [h5]
  exact curIs_of_fields h1 h2 hi.2

theorem bfields_of_eq {q q' x : QSVDecContext} (h : q' = x) (hx : bfields x = bfields q) :
    bfields q' = bfields q := h ▸ hx

theorem reinit_decoder_bfields {E : Int → Int} {env : InitEnv} {q q' : QSVDecContext}
    (h : reinit_decoder E env q = .ok q') : bfields q' = bfields q := by
  unfold reinit_decoder at h
  simp only at h
  split at h
  · cases h
  · rename_i q3 hf
    have f3 := free_surface_pool_eq hf
    split at h
    · cases h
    · rename_i r hr
      cases h
      have f := ff_qsv_dec_init_decoder_frame hr
      show bfields r.2 = bfields q
      rw [f]
      show bfields q3 = bfields q
      rw [f3]
      unfold bfields
      split <;> rfl

theorem callOrd_get_bitstream (mallocOk : Bool) (pktRef : Option Nat) {q : QSVDecContext}
    (pkt : AVPacket) {L : List (Nat × AVPacket)} (hsize : pkt.size ≠ 0) (hi : CallOrd q L) :
    CallOrd (get_bitstream_from_packet mallocOk pktRef q pkt).2 L ∧
    (∀ c, (get_bitstream_from_packet mallocOk pktRef q pkt).1 = some c →
      c ∉ L.map Prod.fst ∧ (get_bitstream_from_packet mallocOk pktRef q pkt).2.bs ≠ some c ∧
      ∃ n d, pktRef = some d ∧
        bs_at (get_bitstream_from_packet mallocOk pktRef q pkt).2 c = some n ∧
        n.bs.MaxLength ≠ 0 ∧ n.pkt = some { pkt with data := d }) := by
  obtain ⟨g1, g2, g3⟩ := pendIs_get_bitstream mallocOk pktRef q pkt hsize hi.1
  have fb := get_bitstream_from_packet_frame mallocOk pktRef q pkt
  have hbs : (get_bitstream_from_packet mallocOk pktRef q pkt).2.bs = q.bs := by
    rw [fb]
  refine ⟨⟨g1, ?_⟩, ?_⟩
  · rw [hbs]
    intro a ha
    obtain ⟨h1, n, h2, h3⟩ := hi.2 a ha
    exact ⟨h1, n, g2 a n h2 h3, h3⟩
  · intro c hc
    obtain ⟨h1, h2, h3⟩ := g3 c hc
    refine ⟨h1, ?_, h3⟩
    rw [hbs]
    intro ha
    obtain ⟨_, n, k2, k3⟩ := hi.2 c ha
    exact k3 (h2 n k2)

theorem callOrd_init_decoder {E : Int → Int} {benv : BsEnv} {env : InitEnv}
    {q q' : QSVDecContext} {avpkt : AVPacket} {L : List (Nat × AVPacket)}
    (hi : CallOrd q L) (h : init_decoder E benv env q avpkt = .ok q') : CallOrd q' L := by
  unfold init_decoder at h
  split at h
  · rename_i hsize
    obtain ⟨g1, g2⟩ := callOrd_get_bitstream benv.mallocOk benv.pktRef avpkt hsize hi
    split at h
    · rename_i q1 hg
      cases h
      rw [hg] at g1
      exact g1
    · rename_i a q1 hg
      rw [hg] at g1 g2
      obtain ⟨c1, c2, n0, d, _, c3, _, _⟩ := g2 a rfl
      split at h
      · cases h
      · rename_i r hr
        have fi := ff_qsv_dec_init_decoder_frame hr
        have hb : bfields r.2 = bfields q1 := by rw [fi]; rfl
        have i2 : CallOrd r.2 L := callOrd_of_bfields hb g1
        simp only [bfields, Prod.mk.injEq] at hb
        split at h
        · cases h
        · rename_i n hn
          cases h
          have hbs : r.2.bs ≠ some a := by rw [hb.2.2.2.2]; exact c2
          refine ⟨pendIs_bs_put hn rfl (fun hc => absurd hc c1) i2.1, ?_⟩
          intro b hb'
          have hb2 : r.2.bs = some b := hb'
          have hba : b ≠ a := by
            intro e
            apply hbs
            rw [hb2, e]
          obtain ⟨k1, m, k2, k3⟩ := i2.2 b hb2
          refine ⟨k1, m, ?_, k3⟩
          rw [bs_at_bs_put hn]
          simp [hba, k2]
  · cases h; exact hi

theorem callOrd_feed_pre {E : Int → Int} {env : FeedEnv} {q : QSVDecContext}
    {avpkt : AVPacket} {x : Sum (FeedResult × QSVDecContext) LoopSt}
    {L : List (Nat × AVPacket)} (hi : CallOrd q L) (h : feed_pre E env q avpkt = .ok x) :
    (∀ r, x = Sum.inl r → CallOrd r.2 L) ∧
    (∀ st0, x = Sum.inr st0 →
      ∃ C, LoopOrd L C st0 ∧ feed_wrapped E env q avpkt = C.toList) := by
  have h0 := h
  unfold feed_pre at h
  split at h
  · cases h
  · rename_i q1 h1
    have hi1 : CallOrd q1 L := by
      split at h1
      · exact callOrd_of_bfields (reinit_decoder_bfields h1) hi
      · cases h1; exact hi
    split at h
    · cases h
    · rename_i q2 h2
      have hi2 : CallOrd q2 L := by
        split at h2
        · cases h2; exact hi1
        · exact callOrd_init_decoder hi1 h2
      split at h
      · cases h
        refine ⟨?_, ?_⟩
        · intro r hr; cases hr; exact hi2
        · intro st0 hr; cases hr
      · simp only at h
        split at h
        · rename_i hsize
          split at h
          · cases h
          · rename_i ret q3 hp
            have hi3 : CallOrd q3 L :=
              callOrd_of_bfields (bfields_of_eq (put_dts_frame hp) rfl) hi2
            obtain ⟨g1, g2⟩ :=
              callOrd_get_bitstream env.curBs.mallocOk env.curBs.pktRef avpkt hsize hi3
            split at h
            · cases h
              refine ⟨?_, ?_⟩
              · intro r hr; cases hr; exact hi3
              · intro st0 hr; cases hr
            · split at h
              · rename_i q4 hg
                cases h
                rw [hg] at g1
                refine ⟨?_, ?_⟩
                · intro r hr; cases hr; exact g1
                · intro st0 hr; cases hr
              · rename_i c q4 hg
                cases h
                rw [hg] at g1 g2
                obtain ⟨c1, c2, n, d, c3, c4, c5, c6⟩ := g2 c rfl
                refine ⟨?_, ?_⟩
                · intro r hr; cases hr
                · intro st0 hr
                  cases hr
                  refine ⟨some { avpkt with data := d }, ⟨g1.1, g1.2, ?_⟩, ?_⟩
                  · exact Or.inr ⟨c, _, n, rfl, rfl, c1, c2, c4, c5, c6⟩
                  · unfold feed_wrapped
                    rw [h0]
                    simp [c3]
        · cases h
          refine ⟨?_, ?_⟩
          · intro r hr; cases hr
          · intro st0 hr
            cases hr
            refine ⟨none, ⟨hi2.1, hi2.2, Or.inl ⟨rfl, rfl⟩⟩, ?_⟩
            unfold feed_wrapped
            rw [h0]
            rfl

theorem callOrd_feed_queue {st : LoopSt} {q3 : QSVDecContext} {L : List (Nat × AVPacket)}
    {C : Option AVPacket} (hi : LoopOrd L C st) (h : feed_queue st = .ok q3) :
    ∃ L', CallOrd q3 L' ∧ L'.map Prod.snd = L.map Prod.snd ++ C.toList := by
  obtain ⟨k1, k2, k3⟩ := hi
  unfold feed_queue at h
  simp only at h
  split at h
  · cases h
  · rename_i q2 hq
    have hb : bfields q3 = bfields q2 := by
      split at h
      · exact bfields_of_eq (put_sync_frame h) rfl
      · cases h; rfl
    have i1 : PendIs { st.q with last_ret := st.ret, bs := st.inbs } L :=
      pendIs_of_fields rfl rfl rfl rfl k1
    have i2 : CurIs { st.q with last_ret := st.ret, bs := st.inbs } L st.inbs :=
      curIs_of_fields rfl rfl k2
    split at hq
    · rename_i c hc
      rcases k3 with ⟨e1, e2⟩ | ⟨c', p, n, e1, e2, e3, e4, e5, e6, e7⟩
      · rw [e1] at hc; cases hc
      · rw [e1] at hc
        have hcc : c' = c := Option.some.inj hc
        rw [hcc] at e3 e4 e5
        clear hc hcc e1
        have e5' : bs_at { st.q with last_ret := st.ret, bs := st.inbs } c = some n := e5
        obtain ⟨j1, j2⟩ := pendIs_put_pending i1 e5' e3 e6 e7 hq
        have f := put_pending_bitstream_frame hq
        have hbs : q2.bs = st.inbs := by rw [f]
        refine ⟨L ++ [(c, p)], callOrd_of_bfields hb ⟨j1, ?_⟩, ?_⟩
        · rw [hbs]
          intro a ha
          obtain ⟨m1, m, m2, m3⟩ := i2 a ha
          obtain ⟨m', m4, m5, _⟩ := j2 a m m2
          refine ⟨?_, m', m4, ?_⟩
          · simp only [List.map_append, List.map_cons, List.map_nil, List.mem_append,
              List.mem_singleton, not_or]
            refine ⟨m1, ?_⟩
            intro e
            apply e4
            rw [ha, e]
          · rw [m5]; exact m3
        · simp [e2]
    · rename_i hc
      cases hq
      rcases k3 with ⟨e1, e2⟩ | ⟨c', p, n, e1, e2, e3, e4, e5, e6, e7⟩
      · refine ⟨L, callOrd_of_bfields hb ⟨i1, i2⟩, ?_⟩
        simp [e2]
      · rw [e1] at hc; cases hc

theorem callOrd_feed_post {E : Int → Int} {syncRet : Int} {size : Nat} {st : LoopSt}
    {q' : QSVDecContext} {r : FeedResult} {L : List (Nat × AVPacket)} {C : Option AVPacket}
    (hi : LoopOrd L C st) (h : feed_post E syncRet size st = .ok (r, q')) :
    ∃ L', CallOrd q' L' ∧ L'.map Prod.snd = L.map Prod.snd ++ C.toList := by
  rw [feed_post_eq] at h
  split at h
  · cases h
  · rename_i q3 hq
    obtain ⟨L', j1, j2⟩ := callOrd_feed_queue hi hq
    exact ⟨L', callOrd_of_bfields (bfields_of_eq (feed_drain_frame h) rfl) j1, j2⟩

theorem callOrd_ff_qsv_dec_frame {E : Int → Int} {env : FeedEnv} {q q' : QSVDecContext}
    {avpkt : AVPacket} {r : FeedResult} {L : List (Nat × AVPacket)}
    (hi : CallOrd q L) (h : ff_qsv_dec_frame E env q avpkt = .ok (r, q')) :
    ∃ L', CallOrd q' L' ∧
      feed_picks E env q avpkt ++ L'.map Prod.snd
        = L.map Prod.snd ++ feed_wrapped E env q avpkt := by
  unfold ff_qsv_dec_frame at h
  unfold feed_picks
  split at h
  · cases h
  · rename_i r0 hp
    cases h
    unfold feed_wrapped
    rw [hp]
    exact ⟨L, (callOrd_feed_pre hi hp).1 _ rfl, by simp⟩
  · rename_i st0 hp
    obtain ⟨C, i0, hC⟩ := (callOrd_feed_pre hi hp).2 _ rfl
    rw [hC, hp]
    simp only
    split at h
    · cases h
    · rename_i st hl
      obtain ⟨L1, C1, i1, e1⟩ := loopOrd_dec_loop env.iters L C st0 st i0 hl
      obtain ⟨L', i2, e2⟩ := callOrd_feed_post i1 h
      refine ⟨L', i2, ?_⟩
      rw [e2, ← e1]
      simp only [List.append_assoc]

theorem callOrd_feed_run {E : Int → Int} :
    ∀ (steps : List (FeedEnv × AVPacket)) (q q' : QSVDecContext) (rs : List FeedResult)
      (L : List (Nat × AVPacket)),
      CallOrd q L → feed_run E q steps = .ok (rs, q') →
      ∃ L', CallOrd q' L' ∧
        run_picks E q steps ++ L'.map Prod.snd = L.map Prod.snd ++ run_wrapped E q steps := by
  intro steps
  induction steps with
  | nil =>
    intro q q' rs L hi h
    unfold feed_run at h
    cases h
    exact ⟨L, hi, by simp [run_picks, run_wrapped]⟩
  | cons s rest ih =>
    intro q q' rs L hi h
    obtain ⟨env, avpkt⟩ := s
    unfold feed_run at h
    unfold run_picks run_wrapped
    split at h
    · cases h
    · rename_i r q1 hf
      rw [hf]
      simp only
      obtain ⟨L1, i1, e1⟩ := callOrd_ff_qsv_dec_frame hi hf
      split at h
      · cases h
      · rename_i rs1 q2 hr
        cases h
        obtain ⟨L2, i2, e2⟩ := ih q1 q' rs1 L1 i1 hr
        refine ⟨L2, i2, ?_⟩
        rw [List.append_assoc, e2, ← List.append_assoc, e1, List.append_assoc]

theorem callOrd_initial {q : QSVDecContext} (h : Initial q) : CallOrd q [] := by
  unfold Initial at h
  rw [h]
  refine ⟨⟨rfl, List.nodup_nil, ?_, rfl, ?_⟩, ?_⟩
  · intro x hx; cases hx
  · intro a n hn
    simp [bs_at] at hn
  · intro a ha
    cases ha

theorem curbs_made_current {size : Nat} {st st2 : LoopSt} {b : Bool} {c : Nat}
    (h : select_input size st = .ok (st2, b)) (hc : st.curbs = some c)
    (hn : st2.curbs = none) :
    inbs_has_data st = .ok false ∧ st.q.pending_dec = none ∧ st2.inbs = some c := by
  unfold select_input at h
  split at h
  · split at h
    · cases h; rw [hc] at hn; cases hn
    · split at h
      · cases h
      · cases h; rw [hc] at hn; cases hn
      · rename_i hdata
        split at h
        · split at h
          · cases h
          · cases h
            have : st.curbs = none := hn
            rw [hc] at this; cases this
        · rename_i hp
          split at h
          · cases h
            refine ⟨hdata, ?_, hc⟩
            cases hq : st.q.pending_dec with
            | none => rfl
            | some x => rw [hq] at hp; exact absurd rfl hp
          · split at h
            · cases h
              have : st.curbs = none := hn
              rw [hc] at this; cases this
            · cases h; rw [hc] at hn; cases hn
  · split at h
    · cases h; rw [hc] at hn; cases hn
    · split at h
      · split at h
        · cases h; rw [hc] at hn; cases hn
        · cases h
          have : st.curbs = none := hn
          rw [hc] at this; cases this
      · cases h; rw [hc] at hn; cases hn

/-! ## Lemmas: the frame handed out by the drain block -/

theorem get_dts_ok_some {q q' : QSVDecContext} {pts r : Int} {d : Option Int}
    (h : get_dts q pts = .ok (r, d, q')) (hr : 0 ≤ r) : r = 0 ∧ ∃ x, d = some x := by
  unfold get_dts at h
  split at h
  · cases h; exact ⟨rfl, _, rfl⟩
  · split at h
    · cases h; exact ⟨rfl, _, rfl⟩
    · split at h
      · cases h
      · split at h
        · cases h
          simp [AVERROR_BUG] at hr
        · split at h
          · cases h
          · cases h; exact ⟨rfl, _, rfl⟩

/-- What the drain block hands out when it emits a frame. -/
theorem feed_drain_emit {E : Int → Int} {syncRet : Int} {size : Nat} {ret : Int}
    {q q' : QSVDecContext} {r : FeedResult}
    (h : feed_drain E syncRet size ret q = .ok (r, q')) (hg : r.got_frame = 1) :
    ∃ a n d, q.pending_sync = some a ∧ surf_at q a = some n ∧
      (get_dts q (toI64 n.TimeStamp)).map (fun x => (x.1, x.2.1)) = .ok (0, some d) ∧
      r.frame = some (frame_of n (toI64 n.TimeStamp) d) ∧
      (surf_at q' a).map (·.sync) = some 0 := by
  unfold feed_drain at h
  split at h
  · split at h
    · cases h
    · rename_i surf sync q1 hg1
      obtain ⟨n, hp, hn, rfl, f1, f2, f3, f4, f4b, f4c, _, f5⟩ := get_sync_fields hg1
      simp only at h
      split at h
      · simp only [Except.ok.injEq, Prod.mk.injEq] at h
        obtain ⟨rfl, rfl⟩ := h
        cases hg
      · have f5' : surf_at { q1 with log := q1.log ++ [Event.MFXVideoCORE_SyncOperation n.sync] }
            surf = some { n with next := none } := f5
        rw [f5'] at h
        simp only at h
        have hcg := @get_dts_congr { q1 with log := q1.log ++
            [Event.MFXVideoCORE_SyncOperation n.sync] } q (toI64 n.TimeStamp) f4 f4b f4c
        split at h
        · cases h
        · rename_i r0 dts q3 hdts
          have fd := get_dts_frame hdts
          split at h
          · simp only [Except.ok.injEq, Prod.mk.injEq] at h
            obtain ⟨rfl, rfl⟩ := h
            cases hg
          · rename_i hnn
            obtain ⟨hr0, x, hx⟩ := get_dts_ok_some hdts (by omega)
            subst hr0
            subst hx
            have hat3 : surf_at q3 surf = some { n with next := none } := by
              rw [fd]; exact f5
            split at h
            · cases h
            · cases h
            · simp only [Except.ok.injEq, Prod.mk.injEq] at h
              obtain ⟨rfl, rfl⟩ := h
              refine ⟨surf, n, x, hp, hn, ?_, rfl, ?_⟩
              · rw [← hcg, hdts]
                rfl
              · have h4 : surf_at (surf_put q3 surf
                    { n with next := none, MemId := FrameRef.live false }) surf
                    = some { n with next := none, MemId := FrameRef.live false } := by
                  rw [surf_at_surf_put hat3]
                  simp
                unfold release_surface
                rw [h4]
                simp only
                rw [surf_at_surf_put h4]
                simp
  · simp only [Except.ok.injEq, Prod.mk.injEq] at h
    obtain ⟨rfl, rfl⟩ := h
    cases hg

/-! ## Lemmas: sequences of sync-queue operations -/

theorem get_sync_pool {q q1 : QSVDecContext} {a s : Nat}
    (h : get_sync q = .ok (a, s, q1)) (b : Nat) :
    (surf_at q1 b).isSome = (surf_at q b).isSome := by
  unfold get_sync at h
  split at h
  · cases h
  · rename_i a0 hp
    split at h
    · cases h
    · rename_i n hn
      by_cases hnn : n.next = none
      · simp only [hnn, if_true, Except.ok.injEq, Prod.mk.injEq] at h
        obtain ⟨rfl, rfl, rfl⟩ := h
        rw [surf_at_surf_put (n := n) (by exact hn)]
        split
        · rename_i hb
          rw [hb, hn]
          rfl
        · rfl
      · simp only [hnn, if_false, Except.ok.injEq, Prod.mk.injEq] at h
        obtain ⟨rfl, rfl, rfl⟩ := h
        rw [surf_at_surf_put (n := n) (by exact hn)]
        split
        · rename_i hb
          rw [hb, hn]
          rfl
        · rfl

theorem queueIs_free_sync (q : QSVDecContext) : QueueIs (free_sync q) [] :=
  queueIs_empty rfl rfl rfl

/-- A sequence of sync-queue operations that `queue_after` allows returns
and leaves exactly the entries that `queue_after` computes. -/
theorem sync_ops_queue :
    ∀ (ops : List SyncOp) (q : QSVDecContext) (L0 L : List (Nat × Nat)),
      QueueIs q L0 →
      (∀ s h, SyncOp.put s h ∈ ops → (surf_at q s).isSome = true) →
      queue_after L0 ops = some L →
      ∃ q', sync_ops q ops = .ok q' ∧ QueueIs q' L := by
  intro ops
  induction ops with
  | nil =>
    intro q L0 L hi _ hq
    simp only [queue_after, Option.some.injEq] at hq
    subst hq
    exact ⟨q, rfl, hi⟩
  | cons op rest ih =>
    intro q L0 L hi hpool hq
    cases op with
    | put s h =>
      simp only [queue_after] at hq
      split at hq
      · cases hq
      · rename_i hout
        have hs : (surf_at q s).isSome = true := hpool s h (List.mem_cons_self _ _)
        obtain ⟨n, hn⟩ := Option.isSome_iff_exists.1 hs
        obtain ⟨q1, h1, i1, p1⟩ := @queueIs_put_sync q L0 s h n hn hout hi
        obtain ⟨q', h2, i2⟩ := ih q1 (L0 ++ [(s, h)]) L i1
          (fun s' h' hm => p1 s' (hpool s' h' (List.mem_cons_of_mem _ hm))) hq
        refine ⟨q', ?_, i2⟩
        simp only [sync_ops, sync_op, h1]
        exact h2
    | get =>
      cases L0 with
      | nil => simp only [queue_after] at hq; cases hq
      | cons x L1 =>
        obtain ⟨a, s⟩ := x
        simp only [queue_after] at hq
        obtain ⟨q1, h1, i1⟩ := queueIs_get_sync hi
        obtain ⟨q', h2, i2⟩ := ih q1 L1 L i1
          (fun s' h' hm => by
            rw [get_sync_pool h1]
            exact hpool s' h' (List.mem_cons_of_mem _ hm)) hq
        refine ⟨q', ?_, i2⟩
        simp only [sync_ops, sync_op, h1]
        exact h2
    | free =>
      have hq' : queue_after [] rest = some L := by
        cases L0 <;> simpa only [queue_after] using hq
      obtain ⟨q', h2, i2⟩ := ih (free_sync q) [] L (queueIs_free_sync q)
        (fun s' h' hm => hpool s' h' (List.mem_cons_of_mem _ hm)) hq'
      refine ⟨q', ?_, i2⟩
      simp only [sync_ops, sync_op]
      exact h2

/-- The handles left in the queue are handles that were put. -/
theorem queue_after_handles :
    ∀ (ops : List SyncOp) (L0 L : List (Nat × Nat)),
      queue_after L0 ops = some L → (∀ x ∈ L0, x.2 ≠ 0) →
      (∀ s h, SyncOp.put s h ∈ ops → h ≠ 0) → ∀ x ∈ L, x.2 ≠ 0 := by
  intro ops
  induction ops with
  | nil =>
    intro L0 L hq h0 _
    simp only [queue_after, Option.some.injEq] at hq
    subst hq
    exact h0
  | cons op rest ih =>
    intro L0 L hq h0 hops
    cases op with
    | put s h =>
      simp only [queue_after] at hq
      split at hq
      · cases hq
      · refine ih (L0 ++ [(s, h)]) L hq ?_ (fun s' h' hm => hops s' h' (List.mem_cons_of_mem _ hm))
        intro x hx
        rcases List.mem_append.1 hx with hx | hx
        · exact h0 x hx
        · simp only [List.mem_singleton] at hx
          subst hx
          exact hops s h (List.mem_cons_self _ _)
    | get =>
      cases L0 with
      | nil => simp only [queue_after] at hq; cases hq
      | cons x L1 =>
        simp only [queue_after] at hq
        exact ih L1 L hq (fun y hy => h0 y (List.mem_cons_of_mem _ hy))
          (fun s' h' hm => hops s' h' (List.mem_cons_of_mem _ hm))
    | free =>
      have hq' : queue_after [] rest = some L := by
        cases L0 <;> simpa only [queue_after] using hq
      refine ih [] L hq' ?_ (fun s' h' hm => hops s' h' (List.mem_cons_of_mem _ hm))
      intro x hx
      cases hx

/-! ## Lemmas: early return -/

/-- A feed call that returns before the loop emits no frame. -/
theorem feed_pre_early_no_frame {E : Int → Int} {env : FeedEnv} {q : QSVDecContext}
    {avpkt : AVPacket} {x : FeedResult × QSVDecContext}
    (h : feed_pre E env q avpkt = .ok (Sum.inl x)) : x.1.got_frame = 0 := by
  unfold feed_pre at h
  repeat' (first | split at h | simp only at h)
  all_goals (try cases h)
  all_goals rfl

/-! ## Lemmas: session closes of a feed call -/

/-- C1 (timestamp round-trip).  In externally-tracked mode, for a
presentation timestamp `T` that is not the unset sentinel and is not held by
an occupied slot of the table, if `put_dts T D` succeeds then `get_dts T` on
the resulting tracker succeeds and returns exactly `D`. -/
theorem put_dts_get_dts_roundtrip (allocOk : Bool) (q q' : QSVDecContext) (T D : Int)
    (hmode : q.ts_by_qsv = false) (hT : T ≠ AV_NOPTS_VALUE)
    (hfresh : ∀ s ∈ q.ts.take q.nb_ts, s.pts ≠ AV_NOPTS_VALUE → s.pts ≠ T)
    (hput : put_dts allocOk q T D = .ok (0, q')) :
    ∃ q'', get_dts q' T = .ok (0, some D, q'') := by
  have hfresh' : ∀ j s, j < q.nb_ts → q.ts[j]? = some s → s.pts ≠ T := by
    intro j s hj hs
    by_cases hf : s.pts = AV_NOPTS_VALUE
    · rw [hf]; exact fun h => hT h.symm
    · refine hfresh s ?_ hf
      have : (q.ts.take q.nb_ts)[j]? = some s := by
        rw [List.getElem?_take_of_lt hj]; exact hs
      exact List.getElem?_mem this
  simp only [put_dts, hmode, hT, if_false, Bool.false_eq_true] at hput
  cases hscan : scan_ts q.ts AV_NOPTS_VALUE q.nb_ts 0 with
  | error e => simp [hscan] at hput
  | ok i =>
    simp only [hscan] at hput
    obtain ⟨_, hle, hbefore, hat⟩ := scan_ts_ok _ _ _ hscan
    by_cases hi : i = q.nb_ts
    · simp only [hi, if_true] at hput
      subst hi
      cases allocOk with
      | false =>
        simp [realloc_ts, AVERROR_ENOMEM] at hput
      | true =>
        have hq1 : (realloc_ts true q q.nb_ts
            (if q.nb_ts ≠ 0 then q.nb_ts * 2 else q.NumFrameSuggested)).1 = 0 := by
          simp [realloc_ts]
        generalize hnew : (if q.nb_ts ≠ 0 then q.nb_ts * 2 else q.NumFrameSuggested) = new
          at hput hq1
        have hsplit : realloc_ts true q q.nb_ts new = (0, (realloc_ts true q q.nb_ts new).2) := by
          rw [← hq1]
        rw [hsplit] at hput
        simp only [lt_self_iff_false, if_false] at hput
        have hlen : (realloc_ts true q q.nb_ts new).2.ts.length = new := by
          simp [realloc_ts]
        have hnb : (realloc_ts true q q.nb_ts new).2.nb_ts = new := by
          simp [realloc_ts]
        have hm : (realloc_ts true q q.nb_ts new).2.ts_by_qsv = false := by
          simp [realloc_ts, hmode]
        have hlt : q.nb_ts < new := by
          by_contra hc
          simp [store_ts, hlen, hc] at hput
        refine store_ts_get _ q' q.nb_ts T D new hm hT hnb hlt ?_ hput
        intro k hk
        obtain ⟨s, hs, _⟩ := hbefore k (Nat.zero_le _) hk
        exact ⟨s, getElem?_realloc q _ _ k hk (by omega) s hs, hfresh' k s hk hs⟩
    · simp only [hi, if_false] at hput
      have hlt : i < q.nb_ts := by omega
      refine store_ts_get q q' i T D q.nb_ts hmode hT rfl hlt ?_ hput
      intro k hk
      obtain ⟨s, hs, _⟩ := hbefore k (Nat.zero_le _) hk
      exact ⟨s, hs, hfresh' k s (by omega) hs⟩

theorem put_dts_get_dts_roundtrip_witness :
    ∃ q'', get_dts { q_a with ts := [⟨7, 3⟩, ⟨9, 4⟩], ts_cnt := 1 } 9 = .ok (0, some 4, q'') :=
  put_dts_get_dts_roundtrip true q_a _ 9 4 rfl (by decide) (by decide) rfl

/-- C2 (surface pool safety).  Whenever `get_surface` returns, every node
of the old pool keeps its `Locked` counter and its `sync` handle; the nodes
before the first free one are locked or pending-sync; and a returned
address is the first free node of the pool, or a freshly appended node when
every existing node is locked or pending-sync, and in both cases the
returned node has `Locked = 0` and `sync = 0`. -/
theorem get_surface_safe (mallocOk frameOk : Bool) (bufRet : Int) (q q' : QSVDecContext)
    (res : Option Nat)
    (h : get_surface mallocOk frameOk bufRet q = .ok (res, q')) :
    (∀ (j : Nat) (n : QSVDecSurfaceList), q.surf_pool[j]? = some n →
        ∃ n', q'.surf_pool[j]? = some n' ∧ n'.Locked = n.Locked ∧ n'.sync = n.sync) ∧
    (∀ (j : Nat) (n : QSVDecSurfaceList), j < q.surf_pool.findIdx surf_free →
        q.surf_pool[j]? = some n → n.Locked ≠ 0 ∨ n.sync ≠ 0) ∧
    (∀ a, res = some a →
        a = q.surf_base + q.surf_pool.findIdx surf_free ∧
        (∃ n, surf_at q' a = some n ∧ n.Locked = 0 ∧ n.sync = 0) ∧
        (q.surf_pool.findIdx surf_free < q.surf_pool.length →
            q'.surf_pool.length = q.surf_pool.length ∧
            ∃ n, surf_at q a = some n ∧ n.Locked = 0 ∧ n.sync = 0) ∧
        (q.surf_pool.findIdx surf_free = q.surf_pool.length →
            q'.surf_pool.length = q.surf_pool.length + 1 ∧
            surf_at q a = none ∧
            ∀ n ∈ q.surf_pool, n.Locked ≠ 0 ∨ n.sync ≠ 0)) := by
  refine ⟨?_, before_findIdx_busy q, ?_⟩
  · intro j n hn
    rcases get_surface_spec h with ⟨_, rfl⟩ | ⟨n', rfl, k1, k2, _, _⟩
    · exact ⟨n, hn, rfl, rfl⟩
    · obtain ⟨n0, h0, hget, _, _, hold⟩ := surf_pool_ext_idx q
      simp only
      by_cases hji : q.surf_pool.findIdx surf_free = j
      · have hjlt : j < q.surf_pool.length := by
          by_contra hc
          rw [List.getElem?_eq_none (by omega)] at hn; cases hn
        have := hold (by omega)
        rw [hji] at this h0
        rw [this] at hn
        cases hn
        refine ⟨n', ?_, by rw [k1, hget], by rw [k2, hget]⟩
        rw [hji]
        apply List.getElem?_set_self
        by_contra hc
        rw [List.getElem?_eq_none (by omega)] at h0; cases h0
      · exact ⟨n, by rw [List.getElem?_set_ne hji]; exact surf_pool_ext_old q j n hn, rfl, rfl⟩
  · intro a ha
    rcases get_surface_spec h with ⟨hnone, _⟩ | ⟨n', rfl, k1, k2, _, hres⟩
    · rw [hnone] at ha; cases ha
    · obtain ⟨n0, h0, hget, hl0, hs0, hold⟩ := surf_pool_ext_idx q
      have ha' : a = q.surf_base + q.surf_pool.findIdx surf_free := by
        rcases hres with hr | hr
        · rw [hr] at ha; cases ha
        · rw [hr] at ha; cases ha; rfl
      have hlt : q.surf_pool.findIdx surf_free < (surf_pool_ext q).length := by
        by_contra hc
        rw [List.getElem?_eq_none (by omega)] at h0; cases h0
      refine ⟨ha', ⟨n', ?_, by rw [k1, hget, hl0], by rw [k2, hget, hs0]⟩, ?_, ?_⟩
      · rw [ha']
        simp [surf_at, List.getElem?_set_self hlt]
      · intro hc
        refine ⟨by simp [(surf_pool_ext_length q).1 hc], n0, ?_, hl0, hs0⟩
        rw [ha']
        simp [surf_at, hold hc]
      · intro hc
        refine ⟨by simp [(surf_pool_ext_length q).2 hc], ?_, ?_⟩
        · rw [ha', hc]; simp [surf_at]
        · intro n hn
          obtain ⟨j, hj, hjn⟩ := List.getElem_of_mem hn
          exact before_findIdx_busy q j n (by omega) (by rw [List.getElem?_eq_getElem hj, hjn])

theorem get_surface_safe_witness :
    ∃ n, surf_at q_s1 1 = some n ∧ n.Locked = 0 ∧ n.sync = 0 :=
  ((get_surface_safe true true 0 q_s q_s1 (some 1) rfl).2.2 1 rfl).2.1

/-- C3 (bitstream pool safety).  For a packet of non-zero size,
`get_bitstream_from_packet` leaves every node of non-zero capacity as it
was, changes no node other than the first free one, appends at most one
node and none when a free node exists, and a returned address is that of
the first free node (or of the appended one), which then has capacity and
length equal to the packet size (so non-zero) and offset 0. -/
theorem get_bitstream_from_packet_safe (mallocOk : Bool) (pktRef : Option Nat)
    (q : QSVDecContext) (pkt : AVPacket) (hsize : pkt.size ≠ 0) :
    (∀ (j : Nat) (n : QSVDecBitstreamList), q.bs_pool[j]? = some n → n.bs.MaxLength ≠ 0 →
        (get_bitstream_from_packet mallocOk pktRef q pkt).2.bs_pool[j]? = some n) ∧
    (∀ (j : Nat) (n : QSVDecBitstreamList), j ≠ q.bs_pool.findIdx bs_free →
        q.bs_pool[j]? = some n →
        (get_bitstream_from_packet mallocOk pktRef q pkt).2.bs_pool[j]? = some n) ∧
    (∀ (j : Nat) (n : QSVDecBitstreamList), j < q.bs_pool.findIdx bs_free →
        q.bs_pool[j]? = some n → n.bs.MaxLength ≠ 0) ∧
    (q.bs_pool.findIdx bs_free < q.bs_pool.length →
        (get_bitstream_from_packet mallocOk pktRef q pkt).2.bs_pool.length = q.bs_pool.length ∧
        ∃ n, q.bs_pool[q.bs_pool.findIdx bs_free]? = some n ∧ n.bs.MaxLength = 0) ∧
    (get_bitstream_from_packet mallocOk pktRef q pkt).2.bs_pool.length ≤ q.bs_pool.length + 1 ∧
    (get_bitstream_from_packet mallocOk pktRef q pkt).2.bs_base = q.bs_base ∧
    (∀ a, (get_bitstream_from_packet mallocOk pktRef q pkt).1 = some a →
        a = q.bs_base + q.bs_pool.findIdx bs_free ∧
        (q.bs_pool.findIdx bs_free = q.bs_pool.length →
          (get_bitstream_from_packet mallocOk pktRef q pkt).2.bs_pool.length
            = q.bs_pool.length + 1) ∧
        ∃ n, bs_at (get_bitstream_from_packet mallocOk pktRef q pkt).2 a = some n ∧
          n.bs.MaxLength = pkt.size ∧ n.bs.MaxLength ≠ 0 ∧
          n.bs.DataLength = pkt.size ∧ n.bs.DataOffset = 0) := by
  obtain ⟨n0, h0, hget, hm0, hold⟩ := bs_pool_ext_idx q
  have hlt : q.bs_pool.findIdx bs_free < (bs_pool_ext q).length := by
    by_contra hc
    rw [List.getElem?_eq_none (by omega)] at h0; cases h0
  have hle : q.bs_pool.findIdx bs_free ≤ q.bs_pool.length := List.findIdx_le_length _
  have hother : ∀ (x : QSVDecBitstreamList) (j : Nat) (n : QSVDecBitstreamList),
      j ≠ q.bs_pool.findIdx bs_free → q.bs_pool[j]? = some n →
      ((bs_pool_ext q).set (q.bs_pool.findIdx bs_free) x)[j]? = some n := by
    intro x j n hj hn
    rw [List.getElem?_set_ne (Ne.symm hj)]
    exact bs_pool_ext_old q j n hn
  have hextlen : (bs_pool_ext q).length ≤ q.bs_pool.length + 1 := by
    rcases Nat.lt_or_ge (q.bs_pool.findIdx bs_free) q.bs_pool.length with hc | hc
    · rw [(bs_pool_ext_length q).1 hc]; omega
    · rw [(bs_pool_ext_length q).2 (by omega)]
  rcases get_bitstream_from_packet_spec mallocOk pktRef q pkt with hr | hr
  · rw [hr]
    refine ⟨fun j n hn _ => hn, fun j n _ hn => hn, before_findIdx_bound q, ?_, by simp, rfl,
      fun a ha => by cases ha⟩
    intro hc
    exact ⟨rfl, n0, hold hc, hm0⟩
  · rw [hr]
    refine ⟨?_, ?_, before_findIdx_bound q, ?_, ?_, rfl, ?_⟩
    · intro j n hn hmax
      apply hother _ j n _ hn
      intro hji
      subst hji
      have hj : q.bs_pool.findIdx bs_free < q.bs_pool.length := by
        by_contra hc
        rw [List.getElem?_eq_none (by omega)] at hn; cases hn
      rw [hold hj] at hn
      cases hn
      exact hmax hm0
    · intro j n hj hn
      exact hother _ j n hj hn
    · intro hc
      exact ⟨by simp [(bs_pool_ext_length q).1 hc], n0, hold hc, hm0⟩
    · simpa using hextlen
    · intro a ha
      simp only at ha
      split at ha
      · cases ha
      · rename_i hneg
        cases ha
        obtain ⟨e1, e2, e3, _⟩ := set_bitstream_data_ok hneg
        refine ⟨rfl, fun hc => by simp [(bs_pool_ext_length q).2 hc], _, ?_, e1, ?_, e2, e3⟩
        · simp [bs_at, List.getElem?_set_self hlt]
        · rw [e1]; exact hsize

theorem get_bitstream_from_packet_safe_witness :
    ∃ n, bs_at (get_bitstream_from_packet true (some 1) q_b ⟨1, 5, 10, 9⟩).2 1 = some n ∧
      n.bs.MaxLength = 5 ∧ n.bs.MaxLength ≠ 0 ∧ n.bs.DataLength = 5 ∧ n.bs.DataOffset = 0 :=
  ((get_bitstream_from_packet_safe true (some 1) q_b ⟨1, 5, 10, 9⟩ (by decide)).2.2.2.2.2.2
    1 rfl).2.2

/-- C5 (busy-timeout), refuted as stated: an end-of-stream call on the
initialized context `q_x2`, whose sync queue holds one entry, in which every
submission is answered with device-busy (timeout 3, five submissions),
emits a frame and returns 0, although the status mapping sends device-busy
to a negative value. -/
theorem busy_call_emits_frame :
    q_x2.initialized = true ∧
    (∀ it ∈ env_busy.iters, it.status = MFX_WRN_DEVICE_BUSY) ∧
    ff_qsv_error MFX_WRN_DEVICE_BUSY < 0 ∧
    ∃ q', ff_qsv_dec_frame ff_qsv_error env_busy q_x2 (pkt_x 0 0 0)
        = .ok (⟨0, 1, some frame_x⟩, q') ∧ q'.last_ret = MFX_WRN_DEVICE_BUSY := by
  refine ⟨by decide!, ?_, by decide!, ?_⟩
  · intro it hit
    simp only [env_busy, List.mem_replicate] at hit
    rw [hit.2]
  · exact ⟨(match ff_qsv_dec_frame ff_qsv_error env_busy q_x2 (pkt_x 0 0 0) with
        | .ok r => r.2
        | .error _ => q_x2), by decide!, by decide!⟩

/-- C5 (busy-timeout), amended.  Take a feed call that reaches the
submission loop (`feed_pre` returns the loop entry state `st0`), with no
reinit pending and valid pointers, a timeout `t` with `0 ≤ t < INT_MAX`,
and an accelerator that answers every submission with device-busy and no
output while a surface is available at each iteration (at least `t + 2`
answers).  If no drain is due after the loop (the sync queue is empty, or
fewer than `NumFrameMin` syncs are outstanding, the packet is not empty and
the last status was not an incompatible parameter change), the call
returns, produces no frame, leaves device-busy as the last status and
returns `E MFX_WRN_DEVICE_BUSY` when that is negative (and the packet size
otherwise). -/
theorem busy_timeout (E : Int → Int) (env : FeedEnv) (q : QSVDecContext) (avpkt : AVPacket)
    (st0 : LoopSt)
    (hpre : feed_pre E env q avpkt = .ok (Sum.inr st0))
    (hfl : st0.q.reinit = none)
    (hval : LoopEntryOk st0)
    (hnd : st0.q.pending_sync = none ∨
      (st0.q.nb_sync < (st0.q.NumFrameMin : Int) ∧ avpkt.size ≠ 0 ∧
        st0.q.last_ret ≠ MFX_ERR_INCOMPATIBLE_VIDEO_PARAM))
    (ht0 : 0 ≤ st0.q.timeout) (ht1 : st0.q.timeout < 2147483647)
    (hlen : st0.q.timeout + 2 ≤ env.iters.length)
    (hbusy : ∀ it ∈ env.iters, busy_iter it) :
    ∃ q', ff_qsv_dec_frame E env q avpkt =
        .ok (⟨if E MFX_WRN_DEVICE_BUSY < 0 then E MFX_WRN_DEVICE_BUSY else avpkt.size, 0, none⟩,
             q') ∧
      q'.last_ret = MFX_WRN_DEVICE_BUSY := by
  obtain ⟨e1, e2, e3, e4, e5, e6⟩ := feed_pre_entry hpre
  obtain ⟨v1, v2, v3, v4, v5⟩ := hval
  have hflush : st0.flush = false := by rw [e4, hfl]; rfl
  have hok0 : BusyOk st0.q.timeout (dfields st0.q) st0 := ⟨v1, v2, v4, v5, e2, rfl, rfl⟩
  cases hit : env.iters with
  | nil =>
    rw [hit] at hlen
    simp only [List.length_nil, Nat.cast_zero] at hlen
    omega
  | cons it rest =>
    rw [hit] at hlen hbusy
    simp only [List.length_cons, Nat.cast_add, Nat.cast_one] at hlen
    obtain ⟨st1, hh, hok1, hb1, hre1⟩ := @loop_head_first _ _ avpkt.size _ hok0 hflush v3 e3
    obtain ⟨b1, b2, b3, b4, b5⟩ := hbusy it (List.mem_cons_self _ _)
    obtain ⟨st2, htl, hok2, hret2, hr2, hb2⟩ := loop_tail_busy hok1 b1 b2 b3 b4 b5
    have hnot : ¬ st1.busymsec > st0.q.timeout := by rw [hb1, e1]; omega
    have hb2' := hb2 hnot
    rw [hb1, e1, wrap32_id (by omega) (by omega)] at hb2'
    obtain ⟨st3, hd, hok3, hret3, hr3⟩ := @dec_loop_busy _ _ avpkt.size ht1 rest st2 hok2
      hret2 (by omega) (by omega) (by omega) (fun x hx => hbusy x (List.mem_cons_of_mem _ hx))
    have hloop : dec_loop avpkt.size (it :: rest) st0 = .ok st3 := by
      unfold dec_loop
      simp only [hh, htl, hnot, decide_False]
      exact hd
    have hnd3 : (dfields st0.q).1 = none ∨
        ((dfields st0.q).2.1 < ((dfields st0.q).2.2 : Int) ∧ avpkt.size ≠ 0 ∧
          st3.q.reinit = none) := by
      rcases hnd with hn | ⟨hn1, hn2, hn3⟩
      · exact Or.inl hn
      · refine Or.inr ⟨hn1, hn2, ?_⟩
        rw [hr3, hr2, hre1 (e5 ▸ hn3)]
        exact hfl
    obtain ⟨q', hpost, hlast⟩ := feed_post_busy E env.sync avpkt.size hok3 hret3 hnd3
    refine ⟨q', ?_, hlast⟩
    unfold ff_qsv_dec_frame
    simp only [hpre, hit, hloop]
    exact hpost

theorem busy_timeout_witness :
    ∃ q', ff_qsv_dec_frame ff_qsv_error env_busy q_x1 (pkt_x 100 20 6) =
        .ok (⟨if ff_qsv_error MFX_WRN_DEVICE_BUSY < 0 then ff_qsv_error MFX_WRN_DEVICE_BUSY
              else (pkt_x 100 20 6).size, 0, none⟩, q') ∧
      q'.last_ret = MFX_WRN_DEVICE_BUSY :=
  busy_timeout ff_qsv_error env_busy q_x1 (pkt_x 100 20 6) st_b (by decide!) rfl
    ⟨bs_live_none _, fun a ha => by cases ha; decide, bs_live_none _, bs_live_none _,
      by unfold no_freed; decide⟩
    (Or.inl rfl) (by decide) (by decide) (by decide)
    (fun it hit => by
      simp only [env_busy, List.mem_replicate] at hit
      rw [hit.2]
      exact ⟨rfl, rfl, rfl, rfl, by decide⟩)

/-- C6 (flush idempotence), refuted on the code: whenever a call of
`ff_qsv_dec_flush` returns, the next call of `ff_qsv_dec_flush` (no feed in
between) dereferences the bitstream node `q->bs` that the first call freed
with the bitstream pool. -/
theorem flush_twice_faults (E : Int → Int) (r1 r2 : Int) (q q' : QSVDecContext) (ret : Int)
    (h : ff_qsv_dec_flush E r1 q = .ok (ret, q')) :
    ff_qsv_dec_flush E r2 q' = .error Fault.dangling := by
  unfold ff_qsv_dec_flush at h
  simp only at h
  cases hbs : q.bs with
  | none => simp [hbs] at h
  | some a =>
    simp only [hbs] at h
    split at h
    · cases h
    · rename_i n hat
      -- the address resolved, so it lies inside the pool that is freed
      have hin : a < q.bs_base + q.bs_pool.length := by
        unfold bs_at at hat
        simp only at hat
        split at hat
        · cases hat
        · have := (List.getElem?_eq_some.1 hat).1
          omega
      split at h
      · cases h
      · rename_i q3 hfree
        simp only [Except.ok.injEq, Prod.mk.injEq] at h
        obtain ⟨_, hq'⟩ := h
        unfold free_surface_pool at hfree
        split at hfree
        · cases hfree
        · simp only [Except.ok.injEq] at hfree
          subst hfree
          subst hq'
          simp [ff_qsv_dec_flush, free_bitstream_pool, free_sync, bs_put, bs_at, hbs, hin]

theorem flush_twice_faults_witness :
    ff_qsv_dec_flush ff_qsv_error 0 q_x2 = .ok (0, q_xf) ∧
    ff_qsv_dec_flush ff_qsv_error 0 q_xf = .error Fault.dangling :=
  ⟨by decide!, flush_twice_faults ff_qsv_error 0 0 q_x2 q_xf 0 (by decide!)⟩

/-- C7 (counterexample): two non-empty packets are fed from the zeroed
context and then end-of-stream calls until one returns no frame.  In the
second call the accelerator returns completion handle 77 together with the
compatible-parameter-change status; the loop submits again and the answer,
handle 78, overwrites it.  Two handles were returned, one wait was made and
succeeded, one frame is emitted. -/
theorem conservation_lost_handle :
    (feed_run ff_qsv_error q_x0
        [(env_x1, pkt_x 100 10 5), (env_c2, pkt_x 100 20 6), (env_e2, pkt_x 0 0 0),
         (env_e1, pkt_x 0 0 0)]).toOption.map
      (fun x => (x.1.map (·.got_frame), emitted x.1, handles x.2.log, waits x.2.log))
    = some ([0, 0, 1, 0], 1, 2, 1) := by
  decide!

/-- C7 (amended): for every sequence of feed calls from an initial context
with an empty call log, followed by an end-of-stream call that returns no
frame, if in every call the accelerator returns a completion handle only
with a status that ends the submission loop and for a pool surface that is
not pending-sync, and no wait or timestamp resolution fails, then the number
of frames emitted equals the number of completion handles the accelerator
returned, and the sync queue is empty. -/
theorem conservation (E : Int → Int) (q0 : QSVDecContext)
    (steps : List (FeedEnv × AVPacket)) (rs : List FeedResult) (q1 : QSVDecContext)
    (env : FeedEnv) (eos : AVPacket) (r : FeedResult) (q2 : QSVDecContext)
    (hinit : Initial q0) (hlog : q0.log = [])
    (hrun : feed_run E q0 steps = .ok (rs, q1))
    (hgood : good_run E q0 steps = true)
    (hsz : eos.size = 0)
    (hlast : ff_qsv_dec_frame E env q1 eos = .ok (r, q2))
    (hgl : good_call E env q1 eos = true)
    (hnw : no_failed_wait q1 q2 r = true)
    (hnone : r.got_frame = 0) :
    emitted rs = handles q2.log ∧ q2.pending_sync = none ∧ q2.nb_sync = 0 := by
  obtain ⟨hi1, hw1⟩ := cons_feed_run steps q0 q1 rs (consInv_initial hinit hlog) hgood hrun
  obtain ⟨⟨L, hL, hk⟩, hp⟩ := cons_ff_qsv_dec_frame hgl hlast hi1
  simp only [no_failed_wait, beq_iff_eq, hnone, Nat.add_zero] at hnw
  have hnil := syncExact_nil_of_head hL (hp hsz hnw)
  subst hnil
  refine ⟨?_, hp hsz hnw, by simpa using hL.2.2.2.1⟩
  rw [hk, hnw, hw1, hlog]
  simp [waits]

theorem conservation_witness :
    emitted rs_x = handles q_x4.log ∧ q_x4.pending_sync = none ∧ q_x4.nb_sync = 0 :=
  conservation ff_qsv_error q_x0 steps_x rs_x q_x3 env_e1 (pkt_x 0 0 0) ⟨0, 0, none⟩ q_x4
    (by unfold Initial; decide!) rfl (by decide!) (by decide!) rfl (by decide!) (by decide!)
    (by decide!) rfl

/-- C8 (fatal accelerator statuses are surfaced), evaluated at a failing
input: an end-of-stream call on `q_x2` in which the accelerator fails with
`MFX_ERR_DEVICE_FAILED` (-17): the loop ends with that status, the mapped
status is negative, and yet the call returns 0 with a frame. -/
theorem fatal_status_swallowed :
    ∃ q', ff_qsv_dec_frame ff_qsv_error { iters := [{ status := -17 }] } q_x2 (pkt_x 0 0 0)
        = .ok (⟨0, 1, some frame_x⟩, q') ∧
      q'.last_ret = -17 ∧ retry_status (-17) = false ∧ ff_qsv_error (-17) < 0 ∧
      q_x2.initialized = true :=
  ⟨{ q_x2 with
      last_ret := -17, bs := none
      ts := [⟨AV_NOPTS_VALUE, 5⟩, ⟨20, 6⟩, ⟨AV_NOPTS_VALUE, AV_NOPTS_VALUE⟩,
             ⟨AV_NOPTS_VALUE, AV_NOPTS_VALUE⟩]
      bs_pool := [{ bs := { Data := 1, DataOffset := 100, DataLength := 0, MaxLength := 0
                            TimeStamp := 20 }
                    pkt := some ⟨1, 100, 20, 6⟩ }]
      surf_pool := [{ MemId := FrameRef.live false, TimeStamp := 10 }, { MemId := FrameRef.live true }]
      pending_sync := none, pending_sync_end := none, nb_sync := 0
      log := q_x2.log ++ [Event.MFXVideoDECODE_DecodeFrameAsync none 1 (-17) 0,
                          Event.MFXVideoCORE_SyncOperation 77] },
   by decide!, by decide!, by decide!, by decide!, by decide!⟩

/-- C9 (resolve failure).  In externally-tracked mode, on a table whose
slot count is the size of its array, `get_dts T` for a set `T` always
returns; it returns `AVERROR_BUG` exactly when no slot holds `T`, that is
its only failure, and when it fails the context is unchanged. -/
theorem get_dts_fails_iff_no_slot (q : QSVDecContext) (T : Int)
    (hmode : q.ts_by_qsv = false) (hT : T ≠ AV_NOPTS_VALUE)
    (hwf : q.nb_ts = q.ts.length) :
    ∃ r d q', get_dts q T = .ok (r, d, q') ∧
      (r = AVERROR_BUG ↔ ∀ s ∈ q.ts, s.pts ≠ T) ∧
      (r < 0 ↔ r = AVERROR_BUG) ∧
      (r = AVERROR_BUG → q' = q) := by
  simp only [get_dts, hmode, hT, if_false, Bool.false_eq_true]
  by_cases hall : ∀ s ∈ q.ts, s.pts ≠ T
  · have hscan : scan_ts q.ts T q.nb_ts 0 = .ok (0 + q.nb_ts) := by
      apply scan_ts_none
      intro k _ hk
      have hk' : k < q.ts.length := by omega
      exact ⟨q.ts[k], List.getElem?_eq_getElem hk', hall _ (List.getElem_mem hk')⟩
    rw [Nat.zero_add] at hscan
    simp only [hscan, if_true]
    exact ⟨AVERROR_BUG, none, q, rfl, ⟨fun _ => hall, fun _ => rfl⟩,
      ⟨fun _ => rfl, fun _ => by decide⟩, fun _ => rfl⟩
  · have hex : ∃ j, j < q.nb_ts ∧ ∃ s, q.ts[j]? = some s ∧ s.pts = T := by
      push_neg at hall
      obtain ⟨s, hmem, hp⟩ := hall
      obtain ⟨j, hj, hjs⟩ := List.getElem_of_mem hmem
      exact ⟨j, by omega, s, by rw [List.getElem?_eq_getElem hj, hjs], hp⟩
    -- the scan cannot fault on a well-formed table, and it stops before nb_ts
    cases hscan : scan_ts q.ts T q.nb_ts 0 with
    | error e =>
      exfalso
      obtain ⟨j, hj, s, hs, hp⟩ := hex
      -- take the least such j
      have hfind : ∃ j, j < q.nb_ts ∧ (∃ s, q.ts[j]? = some s ∧ s.pts = T) ∧
          ∀ k, k < j → ∃ s, q.ts[k]? = some s ∧ s.pts ≠ T := by
        classical
        let P : ℕ → Prop := fun j => j < q.nb_ts ∧ ∃ s, q.ts[j]? = some s ∧ s.pts = T
        have hP : ∃ j, P j := ⟨j, hj, s, hs, hp⟩
        refine ⟨Nat.find hP, (Nat.find_spec hP).1, (Nat.find_spec hP).2, ?_⟩
        intro k hk
        have hlt := (Nat.find_spec hP).1
        have hk' : k < q.ts.length := by omega
        refine ⟨q.ts[k], List.getElem?_eq_getElem hk', ?_⟩
        intro hc
        exact Nat.find_min hP hk ⟨by omega, q.ts[k], List.getElem?_eq_getElem hk', hc⟩
      obtain ⟨j0, hj0, hat, hbefore⟩ := hfind
      have := @scan_ts_found q.ts T q.nb_ts 0 j0 (Nat.zero_le _) (by omega)
        (fun k _ hk => hbefore k hk) hat
      rw [this] at hscan
      cases hscan
    | ok i =>
      obtain ⟨_, hle, hbefore, hat⟩ := scan_ts_ok _ _ _ hscan
      have hi : i ≠ q.nb_ts := by
        intro hc
        obtain ⟨j, hj, s, hs, hp⟩ := hex
        obtain ⟨s', hs', hp'⟩ := hbefore j (Nat.zero_le _) (by omega)
        rw [hs] at hs'
        cases hs'
        exact hp' hp
      simp only [hi, if_false]
      have hilt : i < q.ts.length := by omega
      rw [List.getElem?_eq_getElem hilt]
      have h0 : (0 : Int) ≠ AVERROR_BUG := by decide
      refine ⟨0, _, _, rfl, ⟨fun h => absurd h h0, fun h => absurd h hall⟩,
        ⟨fun h => absurd h (by decide), fun h => absurd h h0⟩, fun h => absurd h h0⟩

theorem get_dts_fails_iff_no_slot_witness :
    ∃ r d q', get_dts q_a 9 = .ok (r, d, q') ∧
      (r = AVERROR_BUG ↔ ∀ s ∈ q_a.ts, s.pts ≠ 9) ∧
      (r < 0 ↔ r = AVERROR_BUG) ∧
      (r = AVERROR_BUG → q' = q_a) :=
  get_dts_fails_iff_no_slot q_a 9 rfl (by decide) rfl

/-- C10 (reinit input), refuted on the code: whenever `reinit_decoder` is
executed from a feed call (the guard `reinit_due` holds in a reachable
context), the remembered descriptor `q->reinit` is not `NULL` but `q->bs` is,
and the session reopen is given `q->bs`: the only call the reinit adds after
the optional close is `MFXVideoDECODE_DecodeHeader` on the `NULL`
bitstream. -/
theorem reinit_reopens_with_null (E : Int → Int) (env : InitEnv) (q q' : QSVDecContext)
    (hr : Reachable E q) (hd : reinit_due q = true)
    (h : reinit_decoder E env q = .ok q') :
    q.reinit ≠ none ∧ q.bs = none ∧
      q'.log = q.log ++ (if q.initialized then [Event.MFXVideoDECODE_Close] else []) ++
        [Event.MFXVideoDECODE_DecodeHeader none] := by
  have hsome : q.reinit.isSome = true := by
    simp only [reinit_due, Bool.and_eq_true] at hd
    exact hd.1.1
  have hbs : q.bs = none := reinitInv_reachable hr hsome
  have hne : q.reinit ≠ none := by
    intro hc
    rw [hc] at hsome
    cases hsome
  refine ⟨hne, hbs, ?_⟩
  unfold reinit_decoder at h
  cases hinit : q.initialized
  all_goals
    simp only [hinit, if_true, if_false, Bool.false_eq_true] at h ⊢
    split at h
    · cases h
    · rename_i q3 hf
      have f3 := free_surface_pool_eq hf
      split at h
      · cases h
      · rename_i r hr'
        cases h
        have hq3bs : q3.bs = none := by rw [f3]; exact hbs
        rw [hq3bs] at hr'
        unfold ff_qsv_dec_init_decoder at hr'
        simp only [Bool.false_eq_true, if_false] at hr'
        repeat' split at hr'
        all_goals (cases hr'; simp only [free_sync]; rw [f3])
        all_goals (try simp)

theorem reinit_reopens_with_null_witness :
    q_r2.reinit ≠ none ∧ q_r2.bs = none ∧
      ({ q_r2 with initialized := false, surf_base := 1, surf_pool := [], reinit := none
                   log := q_r2.log ++ [Event.MFXVideoDECODE_Close,
                                       Event.MFXVideoDECODE_DecodeHeader none] } :
          QSVDecContext).log
        = q_r2.log ++ (if q_r2.initialized then [Event.MFXVideoDECODE_Close] else []) ++
            [Event.MFXVideoDECODE_DecodeHeader none] :=
  reinit_reopens_with_null ff_qsv_error { header := -2 } q_r2 _ q_r2_reachable (by decide!)
    (by decide!)

/-- C11 (drain policy).  Take a feed call that reaches the submission loop
and returns; `q3` is the context after the loop, once the new descriptor and
the new completion handle have been queued.  The call emits a frame exactly
when the sync queue of `q3` is not empty, the outstanding sync count is at
least `NumFrameMin` or the packet is empty or a reinit is pending, the wait
on the handle does not fail and `get_dts` succeeds for the timestamp of the
first queued surface.  It emits at most one frame.  When the guard does not
hold the context is left as it is; when it holds exactly the head of the
`pending_sync` list is removed, and an emitted frame is made from that
surface.  When the queue is the list `L`, it is `L` or the tail of `L`
afterwards. -/
theorem drain_policy (E : Int → Int) (env : FeedEnv) (q : QSVDecContext) (avpkt : AVPacket)
    (st0 st : LoopSt) (q3 : QSVDecContext) (r : FeedResult) (q' : QSVDecContext)
    (hpre : feed_pre E env q avpkt = .ok (Sum.inr st0))
    (hloop : dec_loop avpkt.size env.iters st0 = .ok st)
    (hq : feed_queue st = .ok q3)
    (h : ff_qsv_dec_frame E env q avpkt = .ok (r, q')) :
    (r.got_frame = 1 ↔
      q3.pending_sync ≠ none ∧
      ((q3.NumFrameMin : Int) ≤ q3.nb_sync ∨ avpkt.size = 0 ∨ q3.reinit ≠ none) ∧
      0 ≤ env.sync ∧
      ∃ a n, q3.pending_sync = some a ∧ surf_at q3 a = some n ∧
        resolves q3 (toI64 n.TimeStamp) = true) ∧
    (r.got_frame = 0 ∨ r.got_frame = 1) ∧
    (drain_due avpkt.size q3 = false → q' = q3) ∧
    (drain_due avpkt.size q3 = true →
      ∃ a n, q3.pending_sync = some a ∧ surf_at q3 a = some n ∧
        q'.pending_sync = n.next ∧ q'.nb_sync = q3.nb_sync - 1 ∧
        (r.got_frame = 1 → ∃ d, r.frame = some (frame_of n (toI64 n.TimeStamp) d))) ∧
    (∀ L, SyncExact q3 L →
      SyncExact q' L ∨ ∃ a rest, L = a :: rest ∧ q3.pending_sync = some a ∧ SyncExact q' rest) := by
  unfold ff_qsv_dec_frame at h
  simp only [hpre, hloop] at h
  rw [feed_post_eq] at h
  simp only [hq] at h
  have hL : ∀ L, SyncExact q3 L →
      SyncExact q' L ∨ ∃ a rest, L = a :: rest ∧ q3.pending_sync = some a ∧ SyncExact q' rest := by
    intro L hi
    rcases syncExact_feed_drain h hi with ⟨_, h1⟩ | ⟨_, h1⟩
    · exact Or.inl h1
    · exact Or.inr h1
  rcases feed_drain_spec h with ⟨hd, rfl, rfl⟩ | ⟨hd, a, n, hp, hn, g1, g2, g3, g4, g5, g6⟩
  · refine ⟨?_, Or.inl rfl, fun _ => rfl, ?_, hL⟩
    · constructor
      · intro hc; cases hc
      · rintro ⟨h1, h2, _⟩
        have := (drain_due_iff avpkt.size q').2 ⟨h1, h2⟩
        rw [hd] at this; cases this
    · intro hc; rw [hd] at hc; cases hc
  · have hdd := (drain_due_iff avpkt.size q3).1 hd
    refine ⟨?_, g5, ?_, ?_, hL⟩
    · constructor
      · intro hc
        obtain ⟨k1, k2⟩ := g4.1 hc
        exact ⟨hdd.1, hdd.2, k1, a, n, hp, hn, k2⟩
      · rintro ⟨_, _, k1, a', n', hp', hn', k2⟩
        rw [hp] at hp'
        cases hp'
        rw [hn] at hn'
        cases hn'
        exact g4.2 ⟨k1, k2⟩
    · intro hc; rw [hd] at hc; cases hc
    · intro _
      refine ⟨a, n, hp, hn, g1, g2, ?_⟩
      intro hc
      obtain ⟨d, hd', _⟩ := g6 hc
      exact ⟨d, hd'⟩

theorem drain_policy_witness :
    ((⟨0, 1, some frame_x⟩ : FeedResult).got_frame = 1 ↔
      q_e3.pending_sync ≠ none ∧
      ((q_e3.NumFrameMin : Int) ≤ q_e3.nb_sync ∨ (pkt_x 0 0 0).size = 0 ∨ q_e3.reinit ≠ none) ∧
      0 ≤ env_e2.sync ∧
      ∃ a n, q_e3.pending_sync = some a ∧ surf_at q_e3 a = some n ∧
        resolves q_e3 (toI64 n.TimeStamp) = true) ∧
    ∃ a n, q_e3.pending_sync = some a ∧ surf_at q_e3 a = some n ∧
      q_x3.pending_sync = n.next ∧ q_x3.nb_sync = q_e3.nb_sync - 1 ∧
      ((⟨0, 1, some frame_x⟩ : FeedResult).got_frame = 1 →
        ∃ d, (⟨0, 1, some frame_x⟩ : FeedResult).frame
          = some (frame_of n (toI64 n.TimeStamp) d)) :=
  have h := drain_policy ff_qsv_error env_e2 q_x2 (pkt_x 0 0 0) st_e0 st_e1 q_e3
    ⟨0, 1, some frame_x⟩ q_x3 (by decide!) (by decide!) (by decide!) (by decide!)
  ⟨h.1, h.2.2.2.1 (by decide!)⟩

/-- C12 (sync queue FIFO).  Starting from an empty sync queue, the calls
`put_sync(s1, h1)`, ..., `put_sync(sn, hn)` on pairwise distinct surfaces of
the pool all return, and `n` successive calls of `get_sync` then return
`(s1, h1)`, ..., `(sn, hn)` in that order and leave the queue empty:
`pending_sync` and `pending_sync_end` are `NULL` and `nb_sync` is 0.  The
handles may be any values, non-zero ones in particular. -/
theorem sync_queue_fifo (q : QSVDecContext) (L : List (Nat × Nat))
    (h1 : q.pending_sync = none) (h2 : q.pending_sync_end = none) (h3 : q.nb_sync = 0)
    (hd : (L.map Prod.fst).Nodup) (hp : ∀ x ∈ L, (surf_at q x.1).isSome = true) :
    ∃ q1 q2, put_syncs q L = .ok q1 ∧ get_syncs q1 L.length = .ok (L, q2) ∧
      q2.pending_sync = none ∧ q2.pending_sync_end = none ∧ q2.nb_sync = 0 := by
  obtain ⟨q1, hput, hq1⟩ := put_syncs_queue L [] q (queueIs_empty h1 h2 h3) (by simpa using hd) hp
  simp only [List.nil_append] at hq1
  obtain ⟨q2, hget, hq2⟩ := get_syncs_queue L q1 hq1
  exact ⟨q1, q2, hput, hget, queueIs_nil_fields hq2⟩

theorem sync_queue_fifo_witness :
    ∃ q1 q2, put_syncs q_x3 [(1, 5), (0, 6)] = .ok q1 ∧
      get_syncs q1 [(1, 5), (0, 6)].length = .ok ([(1, 5), (0, 6)], q2) ∧
      q2.pending_sync = none ∧ q2.pending_sync_end = none ∧ q2.nb_sync = 0 :=
  sync_queue_fifo q_x3 [(1, 5), (0, 6)] rfl rfl rfl (by decide) (by decide)

/-- C13 (input arrival order).  For every sequence of feed calls from a
fresh context that returns, with no flush in between: the packets of the
descriptors that became the current accelerator input, in the order in which
they became current, followed by the packets of the pending-input queue from
head to tail, are the packets wrapped in new descriptors, in feeding
order.  Moreover the new descriptor `curbs` is made current only when the
current input has no unconsumed bytes and the pending-input queue is empty;
`get_pending_bitstream` removes the head of the queue; and
`put_pending_bitstream` appends at its tail. -/
theorem input_arrival_order (E : Int → Int) (q0 q' : QSVDecContext)
    (steps : List (FeedEnv × AVPacket)) (rs : List FeedResult)
    (hinit : Initial q0) (hrun : feed_run E q0 steps = .ok (rs, q')) :
    (∃ L, PendIs q' L ∧
      run_picks E q0 steps ++ L.map Prod.snd = run_wrapped E q0 steps) ∧
    (∀ (size : Nat) (st st2 : LoopSt) (b : Bool) (c : Nat),
      select_input size st = .ok (st2, b) → st.curbs = some c → st2.curbs = none →
      inbs_has_data st = .ok false ∧ st.q.pending_dec = none ∧ st2.inbs = some c) ∧
    (∀ (q q1 : QSVDecContext) (L : List (Nat × AVPacket)) (a : Nat),
      PendIs q L → get_pending_bitstream q = .ok (a, q1) →
      ∃ p rest, L = (a, p) :: rest ∧ PendIs q1 rest) ∧
    (∀ (q q1 : QSVDecContext) (L : List (Nat × AVPacket)) (c : Nat)
      (n : QSVDecBitstreamList) (p : AVPacket),
      PendIs q L → bs_at q c = some n → c ∉ L.map Prod.fst → n.bs.MaxLength ≠ 0 →
      n.pkt = some p → put_pending_bitstream q c = .ok q1 → PendIs q1 (L ++ [(c, p)])) := by
  refine ⟨?_, ?_, ?_, ?_⟩
  · obtain ⟨L, hL, he⟩ := callOrd_feed_run steps q0 q' rs [] (callOrd_initial hinit) hrun
    exact ⟨L, hL.1, by simpa using he⟩
  · intro size st st2 b c h hc hn
    exact curbs_made_current h hc hn
  · intro q q1 L a hi h
    obtain ⟨p, rest, n, h1, h2, _⟩ := pendIs_get_pending hi h
    exact ⟨p, rest, h1, h2⟩
  · intro q q1 L c n p hi hc hout hm hp h
    exact (pendIs_put_pending hi hc hout hm hp h).1

theorem input_arrival_order_witness :
    (∃ L, PendIs q_o3 L ∧
      run_picks ff_qsv_error q_x0 steps_o ++ L.map Prod.snd
        = run_wrapped ff_qsv_error q_x0 steps_o) ∧
    (∀ (size : Nat) (st st2 : LoopSt) (b : Bool) (c : Nat),
      select_input size st = .ok (st2, b) → st.curbs = some c → st2.curbs = none →
      inbs_has_data st = .ok false ∧ st.q.pending_dec = none ∧ st2.inbs = some c) ∧
    (∀ (q q1 : QSVDecContext) (L : List (Nat × AVPacket)) (a : Nat),
      PendIs q L → get_pending_bitstream q = .ok (a, q1) →
      ∃ p rest, L = (a, p) :: rest ∧ PendIs q1 rest) ∧
    (∀ (q q1 : QSVDecContext) (L : List (Nat × AVPacket)) (c : Nat)
      (n : QSVDecBitstreamList) (p : AVPacket),
      PendIs q L → bs_at q c = some n → c ∉ L.map Prod.fst → n.bs.MaxLength ≠ 0 →
      n.pkt = some p → put_pending_bitstream q c = .ok q1 → PendIs q1 (L ++ [(c, p)])) :=
  input_arrival_order ff_qsv_error q_x0 q_o3 steps_o rs_o (by unfold Initial; decide!)
    (by decide!)

/-- C14 as stated fails at the largest count: in externally-tracked mode,
with `ts_cnt = INT_MAX` and a free slot, `put_dts 10 5` returns 0 and stores
the pair in slot 1, and the count is then `INT_MIN`, not `INT_MAX + 1`. -/
theorem put_dts_count_wraps :
    q_tm.ts_by_qsv = false ∧ q_tm.ts_cnt = 2147483647 ∧
    (put_dts true q_tm 10 5).toOption.map (fun x => (x.1, x.2.ts[1]?, x.2.ts_cnt))
      = some (0, some ⟨10, 5⟩, -2147483648) := by
  refine ⟨rfl, rfl, ?_⟩
  decide!

/-- C14 (record postcondition), amended at the largest count.  In
externally-tracked mode `put_dts` with an unset presentation timestamp
returns 0 and changes nothing.  With a set one, whenever it returns success
(a non-negative value) some slot of the resulting table holds exactly the
pair `(pts, dts)`, every slot of the old table that was occupied is
unchanged and nothing outside the tracker has changed; the count `ts_cnt`
is incremented as a C `int`: it has grown by exactly one when it was below
`INT_MAX`. -/
theorem put_dts_record (allocOk : Bool) (q q' : QSVDecContext) (pts dts r : Int)
    (hmode : q.ts_by_qsv = false) :
    (pts = AV_NOPTS_VALUE → put_dts allocOk q pts dts = .ok (0, q)) ∧
    (pts ≠ AV_NOPTS_VALUE → put_dts allocOk q pts dts = .ok (r, q') → 0 ≤ r →
      r = 0 ∧
      (∃ i, i < q'.nb_ts ∧ q'.ts[i]? = some ⟨pts, dts⟩) ∧
      (∀ (j : Nat) (s : QSVDecTimeStamp), j < q.nb_ts → q.ts[j]? = some s →
        s.pts ≠ AV_NOPTS_VALUE → q'.ts[j]? = some s) ∧
      q'.ts_cnt = wrap32 (q.ts_cnt + 1) ∧
      (-2147483648 ≤ q.ts_cnt → q.ts_cnt < 2147483647 → q'.ts_cnt = q.ts_cnt + 1) ∧
      q' = { q with ts := q'.ts, nb_ts := q'.nb_ts, ts_cnt := q'.ts_cnt }) := by
  refine ⟨?_, ?_⟩
  · intro hT
    simp [put_dts, hmode, hT]
  · intro hT h hr
    have hframe := put_dts_frame h
    obtain ⟨i, hscan, hc⟩ := put_dts_cases hmode hT h
    obtain ⟨_, _, hbefore, hat⟩ := scan_ts_ok _ _ _ hscan
    rcases hc with ⟨hi, hlen, rfl, rfl⟩ | ⟨_, _, rfl, _⟩ | ⟨hi, _, rfl, hlt, rfl⟩
    · refine ⟨rfl, ⟨i, hi, List.getElem?_set_self hlen⟩, ?_, rfl, ?_, hframe⟩
      · intro j s hj hs hocc
        have hji : i ≠ j := by
          intro hc
          subst hc
          obtain ⟨s', hs', hp⟩ := hat (by omega)
          rw [hs] at hs'
          cases hs'
          exact hocc hp
        simp only
        rw [List.getElem?_set_ne hji]
        exact hs
      · intro h1 h2
        exact wrap32_of_range (by omega) (by omega)
    · simp [AVERROR_ENOMEM] at hr
    · subst hi
      generalize hnew : (if q.nb_ts ≠ 0 then q.nb_ts * 2 else q.NumFrameSuggested) = new
        at hlt hframe ⊢
      have hlen : (realloc_ts true q q.nb_ts new).2.ts.length = new := by
        simp [realloc_ts]
      refine ⟨rfl, ⟨q.nb_ts, hlt, ?_⟩, ?_, rfl, ?_, hframe⟩
      · exact List.getElem?_set_self (by rw [hlen]; exact hlt)
      · intro j s hj hs _
        simp only
        rw [List.getElem?_set_ne (by omega)]
        exact getElem?_realloc q _ _ j hj (by omega) s hs
      · intro h1 h2
        exact wrap32_of_range (by omega) (by omega)

theorem put_dts_record_witness :
    (0 : Int) = 0 ∧
      (∃ i, i < q_t1.nb_ts ∧ q_t1.ts[i]? = some ⟨9, 4⟩) ∧
      (∀ (j : Nat) (s : QSVDecTimeStamp), j < q_t0.nb_ts → q_t0.ts[j]? = some s →
        s.pts ≠ AV_NOPTS_VALUE → q_t1.ts[j]? = some s) ∧
      q_t1.ts_cnt = wrap32 (q_t0.ts_cnt + 1) ∧
      (-2147483648 ≤ q_t0.ts_cnt → q_t0.ts_cnt < 2147483647 →
        q_t1.ts_cnt = q_t0.ts_cnt + 1) ∧
      q_t1 = { q_t0 with ts := q_t1.ts, nb_ts := q_t1.nb_ts, ts_cnt := q_t1.ts_cnt } :=
  (put_dts_record true q_t0 q_t1 9 4 0 rfl).2 (by decide) (by decide!) (by decide)

/-- C15 (resolve frees exactly the matched slot).  In externally-tracked
mode, when `get_dts T` returns success for a set `T`, it returns the decode
timestamp of the first slot holding `T`, the presentation field of that slot
becomes the unset sentinel, and nothing else changes (the other slots, the
slot count and the rest of the context).  If moreover the table is not
longer than its array and no other slot holds `T`, a second `get_dts T`
returns `AVERROR_BUG`. -/
theorem get_dts_frees_slot (q q' : QSVDecContext) (T r : Int) (d : Option Int)
    (hmode : q.ts_by_qsv = false) (hT : T ≠ AV_NOPTS_VALUE)
    (h : get_dts q T = .ok (r, d, q')) (hr : 0 ≤ r) :
    ∃ (i : Nat) (s : QSVDecTimeStamp),
      i < q.nb_ts ∧ q.ts[i]? = some s ∧ s.pts = T ∧
      (∀ k, k < i → ∃ s', q.ts[k]? = some s' ∧ s'.pts ≠ T) ∧
      r = 0 ∧ d = some s.dts ∧
      q' = { q with ts := q.ts.set i ⟨AV_NOPTS_VALUE, s.dts⟩ } ∧
      q'.ts[i]? = some ⟨AV_NOPTS_VALUE, s.dts⟩ ∧
      (∀ j, j ≠ i → q'.ts[j]? = q.ts[j]?) ∧
      q'.nb_ts = q.nb_ts ∧ q'.ts.length = q.ts.length ∧
      (q.nb_ts ≤ q.ts.length →
        (∀ (j : Nat) (s' : QSVDecTimeStamp), j < q.nb_ts → j ≠ i → q.ts[j]? = some s' →
          s'.pts ≠ T) →
        get_dts q' T = .ok (AVERROR_BUG, none, q')) := by
  simp only [get_dts, hmode, hT, if_false, Bool.false_eq_true] at h
  cases hscan : scan_ts q.ts T q.nb_ts 0 with
  | error e => simp [hscan] at h
  | ok i =>
    simp only [hscan] at h
    obtain ⟨_, hle, hbefore, hat⟩ := scan_ts_ok _ _ _ hscan
    by_cases hi : i = q.nb_ts
    · simp only [hi, if_true, Except.ok.injEq, Prod.mk.injEq] at h
      rw [← h.1] at hr
      simp [AVERROR_BUG] at hr
    · simp only [hi, if_false] at h
      have hlt : i < q.nb_ts := by omega
      obtain ⟨s, hs, hp⟩ := hat (by omega)
      simp only [hs, Except.ok.injEq, Prod.mk.injEq] at h
      obtain ⟨rfl, rfl, rfl⟩ := h
      have hlen : i < q.ts.length := (List.getElem?_eq_some.1 hs).1
      refine ⟨i, s, hlt, hs, hp, fun k hk => hbefore k (Nat.zero_le _) hk, rfl, rfl, ?_,
        List.getElem?_set_self hlen, fun j hj => List.getElem?_set_ne (Ne.symm hj),
        rfl, by simp, ?_⟩
      · rw [hmode]
      intro hwf hothers
      have hscan2 : scan_ts (q.ts.set i { s with pts := AV_NOPTS_VALUE }) T q.nb_ts 0
          = .ok (0 + q.nb_ts) := by
        apply scan_ts_none
        intro k _ hk
        by_cases hki : k = i
        · subst hki
          exact ⟨_, List.getElem?_set_self hlen, fun hc => hT hc.symm⟩
        · have hk' : k < q.ts.length := by omega
          refine ⟨q.ts[k], ?_, hothers k _ (by omega) hki (List.getElem?_eq_getElem hk')⟩
          rw [List.getElem?_set_ne (Ne.symm hki)]
          exact List.getElem?_eq_getElem hk'
      rw [Nat.zero_add] at hscan2
      simp only [get_dts, hmode, hT, if_false, Bool.false_eq_true, hscan2, if_true]

theorem get_dts_frees_slot_witness :
    ∃ (i : Nat) (s : QSVDecTimeStamp), i < q_a.nb_ts ∧ q_a.ts[i]? = some s ∧ s.pts = 7 ∧
      get_dts { q_a with ts := q_a.ts.set i ⟨AV_NOPTS_VALUE, s.dts⟩ } 7 =
        .ok (AVERROR_BUG, none, { q_a with ts := q_a.ts.set i ⟨AV_NOPTS_VALUE, s.dts⟩ }) :=
  let ⟨i, s, h1, h2, h3, _, _, _, h7, _, _, _, _, h12⟩ :=
    get_dts_frees_slot q_a _ 7 0 (some 3) rfl (by decide) rfl (by decide)
  ⟨i, s, h1, h2, h3, h7 ▸ h12 (by decide) (by
    intro j s' hj hji hs'
    have hi0 : i = 0 := by
      have : i < 2 := h1
      rcases Nat.lt_or_ge i 1 with hlt | hge
      · omega
      · have hi1 : i = 1 := by omega
        subst hi1
        simp [q_a] at h2
        subst h2
        simp [AV_NOPTS_VALUE] at h3
    subst hi0
    have hj1 : j = 1 := by
      have : j < 2 := hj
      omega
    subst hj1
    simp [q_a] at hs'
    subst hs'
    simp [AV_NOPTS_VALUE])⟩

/-- C16 (flush resets the timestamp tracker), refuted on the code: whenever
`ff_qsv_dec_flush` returns, the array `q->ts` is freed but the slot count
`nb_ts` and the outstanding count `ts_cnt` keep their values; so when the
table had slots, a following `put_dts` of a set timestamp in
externally-tracked mode reads slot 0 of the freed array. -/
theorem flush_keeps_ts_counters (E : Int → Int) (r ret : Int) (q q' : QSVDecContext)
    (h : ff_qsv_dec_flush E r q = .ok (ret, q')) :
    q'.ts = [] ∧ q'.nb_ts = q.nb_ts ∧ q'.ts_cnt = q.ts_cnt ∧
      (q.ts_by_qsv = false → 0 < q.nb_ts →
        ∀ (allocOk : Bool) (pts dts : Int), pts ≠ AV_NOPTS_VALUE →
          put_dts allocOk q' pts dts = .error Fault.outOfBounds) := by
  obtain ⟨_, hq'⟩ := flush_fields h
  have h1 : q'.ts = [] := by rw [hq']
  have h2 : q'.nb_ts = q.nb_ts := by rw [hq']
  have h3 : q'.ts_cnt = q.ts_cnt := by rw [hq']
  have h4 : q'.ts_by_qsv = q.ts_by_qsv := by rw [hq']
  refine ⟨h1, h2, h3, ?_⟩
  intro hmode hpos allocOk pts dts hT
  obtain ⟨k, hk⟩ : ∃ k, q.nb_ts = k + 1 := ⟨q.nb_ts - 1, by omega⟩
  simp only [put_dts, h4, hmode, hT, h1, h2, hk, scan_ts, if_false, Bool.false_eq_true,
    List.getElem?_nil]

theorem flush_keeps_ts_counters_witness :
    ff_qsv_dec_flush ff_qsv_error 0 q_x2 = .ok (0, q_xf) ∧
      q_xf.ts = [] ∧ q_xf.nb_ts = 4 ∧ q_xf.ts_cnt = 2 ∧
      put_dts true q_xf 30 7 = .error Fault.outOfBounds :=
  have h := flush_keeps_ts_counters ff_qsv_error 0 0 q_x2 q_xf (by decide!)
  ⟨by decide!, h.1, h.2.1, h.2.2.1, h.2.2.2 rfl (by decide) true 30 7 (by decide)⟩

/-- C17 (table growth).  Neither `put_dts` nor `get_dts` decreases the
slot count `nb_ts`.  In externally-tracked mode, for a set timestamp and a
table whose `n = nb_ts > 0` slots lie in its array: if no slot is free and
the allocation succeeds, `put_dts` returns 0, the table has exactly `2 n`
slots, the first `n` are unchanged, slot `n` holds the new pair and the slots
after it are free; if some slot is free, `put_dts` returns 0 and the slot
count is unchanged. -/
theorem ts_table_growth (allocOk : Bool) (q : QSVDecContext) (pts dts : Int) :
    (∀ r q', put_dts allocOk q pts dts = .ok (r, q') → q.nb_ts ≤ q'.nb_ts) ∧
    (∀ r d q', get_dts q pts = .ok (r, d, q') → q'.nb_ts = q.nb_ts) ∧
    (q.ts_by_qsv = false → pts ≠ AV_NOPTS_VALUE → 0 < q.nb_ts → q.nb_ts ≤ q.ts.length →
      (∀ (j : Nat) (s : QSVDecTimeStamp), j < q.nb_ts → q.ts[j]? = some s →
        s.pts ≠ AV_NOPTS_VALUE) →
      ∃ q', put_dts true q pts dts = .ok (0, q') ∧
        q'.nb_ts = 2 * q.nb_ts ∧ q'.ts.length = 2 * q.nb_ts ∧
        (∀ j, j < q.nb_ts → q'.ts[j]? = q.ts[j]?) ∧
        q'.ts[q.nb_ts]? = some ⟨pts, dts⟩ ∧
        (∀ j, q.nb_ts < j → j < 2 * q.nb_ts →
          q'.ts[j]? = some ⟨AV_NOPTS_VALUE, AV_NOPTS_VALUE⟩)) ∧
    (q.ts_by_qsv = false → pts ≠ AV_NOPTS_VALUE → q.nb_ts ≤ q.ts.length →
      (∃ (j : Nat) (s : QSVDecTimeStamp), j < q.nb_ts ∧ q.ts[j]? = some s ∧
        s.pts = AV_NOPTS_VALUE) →
      ∃ q', put_dts allocOk q pts dts = .ok (0, q') ∧ q'.nb_ts = q.nb_ts ∧
        q'.ts.length = q.ts.length) := by
  refine ⟨?_, ?_, ?_, ?_⟩
  · intro r q' h
    by_cases hmode : q.ts_by_qsv = true
    · simp only [put_dts, hmode, if_true, Except.ok.injEq, Prod.mk.injEq] at h
      rw [← h.2]
    · have hmode' : q.ts_by_qsv = false := by simpa using hmode
      by_cases hT : pts = AV_NOPTS_VALUE
      · simp only [put_dts, hmode', hT, if_true, if_false, Bool.false_eq_true, Except.ok.injEq,
          Prod.mk.injEq] at h
        rw [← h.2]
      · obtain ⟨i, _, hc⟩ := put_dts_cases hmode' hT h
        rcases hc with ⟨_, _, _, rfl⟩ | ⟨_, _, _, rfl⟩ | ⟨_, _, _, hlt, rfl⟩
        · exact Nat.le_refl _
        · exact Nat.le_refl _
        · exact Nat.le_of_lt hlt
  · intro r d q' h
    rw [get_dts_frame h]
  · intro hmode hT hpos hwf hfull
    have hscan : scan_ts q.ts AV_NOPTS_VALUE q.nb_ts 0 = .ok (0 + q.nb_ts) := by
      apply scan_ts_none
      intro k _ hk
      have hk' : k < q.ts.length := by omega
      exact ⟨q.ts[k], List.getElem?_eq_getElem hk',
        hfull k _ (by omega) (List.getElem?_eq_getElem hk')⟩
    rw [Nat.zero_add] at hscan
    have hne : q.nb_ts ≠ 0 := by omega
    have hlen : (realloc_ts true q q.nb_ts (q.nb_ts * 2)).2.ts.length = q.nb_ts * 2 := by
      simp [realloc_ts]
    have hlt : q.nb_ts < (realloc_ts true q q.nb_ts (q.nb_ts * 2)).2.ts.length := by
      rw [hlen]; omega
    have hput : put_dts true q pts dts = .ok (0,
        { (realloc_ts true q q.nb_ts (q.nb_ts * 2)).2 with
          ts := (realloc_ts true q q.nb_ts (q.nb_ts * 2)).2.ts.set q.nb_ts ⟨pts, dts⟩
          ts_cnt := wrap32 ((realloc_ts true q q.nb_ts (q.nb_ts * 2)).2.ts_cnt + 1) }) := by
      simp only [put_dts, hmode, hT, hscan, hne, if_true, if_false, Bool.false_eq_true,
        ne_eq, not_false_eq_true]
      have h0 : (realloc_ts true q q.nb_ts (q.nb_ts * 2)).1 = 0 := by simp [realloc_ts]
      simp only [h0, lt_self_iff_false, if_false, store_ts, hlt, if_true]
    refine ⟨_, hput, ?_, ?_, ?_, ?_, ?_⟩
    · simp [realloc_ts]; omega
    · simp [realloc_ts]; omega
    · intro j hj
      simp only
      rw [List.getElem?_set_ne (by omega)]
      have hj' : j < q.ts.length := by omega
      rw [List.getElem?_eq_getElem hj']
      exact getElem?_realloc q _ _ j hj (by omega) _ (List.getElem?_eq_getElem hj')
    · exact List.getElem?_set_self hlt
    · intro j h1 h2
      simp only
      rw [List.getElem?_set_ne (by omega)]
      exact getElem?_realloc_new q _ _ j (by omega) (by omega)
  · intro hmode hT hwf hfree
    have hP : ∃ j, j < q.nb_ts ∧ ∃ s, q.ts[j]? = some s ∧ s.pts = AV_NOPTS_VALUE := by
      obtain ⟨j, s, h1, h2, h3⟩ := hfree
      exact ⟨j, h1, s, h2, h3⟩
    have hlt := (Nat.find_spec hP).1
    have hat := (Nat.find_spec hP).2
    have hscan : scan_ts q.ts AV_NOPTS_VALUE q.nb_ts 0 = .ok (Nat.find hP) := by
      apply scan_ts_found _ _ _ (Nat.zero_le _) (by omega)
      · intro k _ hk
        have hk' : k < q.ts.length := by omega
        refine ⟨q.ts[k], List.getElem?_eq_getElem hk', ?_⟩
        intro hc
        exact Nat.find_min hP hk ⟨by omega, _, List.getElem?_eq_getElem hk', hc⟩
      · exact hat
    have hne : Nat.find hP ≠ q.nb_ts := by omega
    have hlen : Nat.find hP < q.ts.length := by omega
    refine ⟨{ q with ts := q.ts.set (Nat.find hP) ⟨pts, dts⟩
                     ts_cnt := wrap32 (q.ts_cnt + 1) }, ?_,
      rfl, by simp⟩
    simp only [put_dts, hmode, hT, hscan, hne, if_false, Bool.false_eq_true, store_ts, hlen,
      if_true]

theorem ts_table_growth_witness :
    ∃ q', put_dts true q_t2 9 5 = .ok (0, q') ∧
      q'.nb_ts = 2 * q_t2.nb_ts ∧ q'.ts.length = 2 * q_t2.nb_ts ∧
      (∀ j, j < q_t2.nb_ts → q'.ts[j]? = q_t2.ts[j]?) ∧
      q'.ts[q_t2.nb_ts]? = some ⟨9, 5⟩ ∧
      (∀ j, q_t2.nb_ts < j → j < 2 * q_t2.nb_ts →
        q'.ts[j]? = some ⟨AV_NOPTS_VALUE, AV_NOPTS_VALUE⟩) :=
  (ts_table_growth true q_t2 9 5).2.2.1 rfl (by decide) (by decide) (by decide) (by
    intro j s hj hs
    have hj2 : j < 2 := hj
    rcases Nat.lt_or_ge j 1 with h0 | h1
    · have : j = 0 := by omega
      subst this
      simp [q_t2] at hs
      subst hs
      simp [AV_NOPTS_VALUE]
    · have : j = 1 := by omega
      subst this
      simp [q_t2] at hs
      subst hs
      simp [AV_NOPTS_VALUE])

/-- C18 (busy retry bound), refuted on the code for the timeout `INT_MAX`,
the largest value the option accepts: the test `busymsec > timeout` is then
never true (the counter is a C `int`, its increment wraps), so in a feed
call that reaches the loop with no reinit pending and valid pointers, and in
which every submission is answered with device-busy while a surface is
available, the loop is still running when the answers run out, however
many there are. -/
theorem busy_loop_never_times_out (E : Int → Int) (env : FeedEnv) (q : QSVDecContext)
    (avpkt : AVPacket) (st0 : LoopSt)
    (hpre : feed_pre E env q avpkt = .ok (Sum.inr st0))
    (hfl : st0.q.reinit = none) (hval : LoopEntryOk st0)
    (ht : st0.q.timeout = 2147483647)
    (hbusy : ∀ it ∈ env.iters, busy_iter it) :
    ff_qsv_dec_frame E env q avpkt = .error Fault.noResponse := by
  obtain ⟨e1, e2, e3, e4, e5, e6⟩ := feed_pre_entry hpre
  obtain ⟨v1, v2, v3, v4, v5⟩ := hval
  have hflush : st0.flush = false := by rw [e4, hfl]; rfl
  have hok0 : BusyOk 2147483647 (dfields st0.q) st0 := ⟨v1, v2, v4, v5, e2, rfl, ht⟩
  obtain ⟨st1, hh, hok1, hb1, hre1⟩ := @loop_head_first _ _ avpkt.size _ hok0 hflush v3 e3
  unfold ff_qsv_dec_frame
  simp only [hpre]
  cases hit : env.iters with
  | nil =>
    unfold dec_loop
    simp only [hh]
  | cons it rest =>
    rw [hit] at hbusy
    obtain ⟨b1, b2, b3, b4, b5⟩ := hbusy it (List.mem_cons_self _ _)
    obtain ⟨st2, htl, hok2, hret2, hr2, hb2⟩ := loop_tail_busy hok1 b1 b2 b3 b4 b5
    have hnot : ¬ st1.busymsec > 2147483647 := by rw [hb1, e1]; omega
    have hloop : dec_loop avpkt.size (it :: rest) st0 = .error Fault.noResponse := by
      unfold dec_loop
      simp only [hh, htl, hnot, decide_False]
      exact dec_loop_busy_unbounded rest st2 hok2 hret2
        (by rw [hb2 hnot]; exact (wrap32_range _).2)
        (fun x hx => hbusy x (List.mem_cons_of_mem _ hx))
    simp only [hloop]

theorem busy_loop_never_times_out_witness :
    ff_qsv_dec_frame ff_qsv_error env_busy q_m1 (pkt_x 100 20 6) = .error Fault.noResponse :=
  busy_loop_never_times_out ff_qsv_error env_busy q_m1 (pkt_x 100 20 6) st_m (by decide!) rfl
    ⟨bs_live_none _, fun a ha => by cases ha; decide, bs_live_none _, bs_live_none _,
      by unfold no_freed; decide⟩
    rfl
    (fun it hit => by
      simp only [env_busy, List.mem_replicate] at hit
      rw [hit.2]
      exact ⟨rfl, rfl, rfl, rfl, by decide⟩)

/-- C21 as stated fails at the largest count: with `ts_by_qsv` set and
`ts_cnt = INT_MAX`, `put_dts` returns 0 and leaves `ts_cnt = INT_MIN`, not
`INT_MAX + 1`. -/
theorem bypass_count_wraps :
    q_bm.ts_by_qsv = true ∧ q_bm.ts_cnt = 2147483647 ∧
    put_dts false q_bm 10 5 = .ok (0, { q_bm with ts_cnt := -2147483648 }) := by
  refine ⟨rfl, rfl, ?_⟩
  decide!

/-- C21 (bypass mode), amended at the largest count.  When the accelerator
assigns timestamps (`ts_by_qsv` set), for every tracker state and every `pts`
and `dts`, `put_dts` returns 0 and changes nothing but `ts_cnt`, which is
incremented as a C `int`: it grows by exactly one when it was below
`INT_MAX`; and `get_dts pts` returns 0, writes `pts` to `*dts` and changes
nothing. -/
theorem bypass_mode (allocOk : Bool) (q : QSVDecContext) (pts dts : Int)
    (hmode : q.ts_by_qsv = true) :
    put_dts allocOk q pts dts = .ok (0, { q with ts_cnt := wrap32 (q.ts_cnt + 1) }) ∧
    (-2147483648 ≤ q.ts_cnt → q.ts_cnt < 2147483647 →
      put_dts allocOk q pts dts = .ok (0, { q with ts_cnt := q.ts_cnt + 1 })) ∧
    get_dts q pts = .ok (0, some pts, q) := by
  refine ⟨?_, ?_, ?_⟩
  · simp only [put_dts, hmode, if_true]
  · intro h1 h2
    simp only [put_dts, hmode, if_true]
    rw [wrap32_of_range (by omega) (by omega)]
  · simp only [get_dts, hmode, if_true]

theorem bypass_mode_witness :
    put_dts false q_b2 AV_NOPTS_VALUE 7
      = .ok (0, { q_b2 with ts_cnt := wrap32 (q_b2.ts_cnt + 1) }) ∧
    (-2147483648 ≤ q_b2.ts_cnt → q_b2.ts_cnt < 2147483647 →
      put_dts false q_b2 AV_NOPTS_VALUE 7 = .ok (0, { q_b2 with ts_cnt := q_b2.ts_cnt + 1 })) ∧
    get_dts q_b2 AV_NOPTS_VALUE = .ok (0, some AV_NOPTS_VALUE, q_b2) :=
  bypass_mode false q_b2 AV_NOPTS_VALUE 7 rfl

/-- C22 (flush applicability), refuted on the code: in a context reached by
initialisation and feed calls `q->bs` can be `NULL` (it is after
initialisation, and after every call whose loop dropped the consumed input),
and `ff_qsv_dec_flush` then writes `q->bs->DataOffset` through the `NULL`
pointer. -/
theorem flush_without_input (E : Int → Int) (r : Int) (q : QSVDecContext)
    (hr : Reachable E q) (hbs : q.bs = none) :
    Reachable E q ∧ ff_qsv_dec_flush E r q = .error Fault.nullDeref := by
  refine ⟨hr, ?_⟩
  unfold ff_qsv_dec_flush
  simp only [hbs]

theorem flush_without_input_witness :
    Reachable ff_qsv_error q_x1 ∧
      ff_qsv_dec_flush ff_qsv_error 0 q_x1 = .error Fault.nullDeref :=
  flush_without_input ff_qsv_error 0 q_x1 q_x1_reachable rfl

/-- C23 (no bitstream descriptor is orphaned), refuted on the code at a
failing input: in the reachable context `q_r2` a reinit is due and
`q->reinit` is descriptor 0, which holds 100 unconsumed bytes.  After the
next feed call (which performs the reinit and consumes its own packet)
descriptor 0 still has capacity 100, but `q->bs`, `q->pending_dec` and
`q->reinit` are all `NULL`. -/
theorem reinit_orphans_descriptor :
    Reachable ff_qsv_error q_r2 ∧ reinit_due q_r2 = true ∧ q_r2.reinit = some 0 ∧
    (ff_qsv_dec_frame ff_qsv_error env_r3 q_r2 (pkt_x 100 30 7)).toOption.map
        (fun x => (x.1.ret, (bs_at x.2 0).map (fun n => (n.bs.DataLength, n.bs.MaxLength)),
                   x.2.bs, x.2.pending_dec, x.2.reinit))
      = some (100, some (100, 100), none, none, none) := by
  refine ⟨q_r2_reachable, ?_, rfl, ?_⟩
  · decide!
  · decide!

/-- C24 as stated fails for a zero handle: `put_sync` of the free pool
surface 0 with handle 0 on the empty queue of `q_x1` leaves a queue of one
entry whose `sync` field is 0. -/
theorem sync_queue_zero_handle :
    q_x1.pending_sync = none ∧ (surf_at q_x1 0).isSome = true ∧
    queue_after [] [SyncOp.put 0 0] = some [(0, 0)] ∧
    (sync_ops q_x1 [SyncOp.put 0 0]).toOption.map
        (fun q => (q.pending_sync, q.nb_sync, (surf_at q 0).map (fun n => n.sync)))
      = some (some 0, 1, some 0) := by
  refine ⟨rfl, ?_, ?_, ?_⟩
  · decide!
  · decide!
  · decide!

/-- C24 (sync queue count invariant), amended with non-zero handles.  Start
from a queue that holds the entries `L0`, all with non-zero handles, and apply
a sequence of `put_sync` (to pool surfaces that are not queued, with non-zero
handles), `get_sync` (on a non-empty queue) and `free_sync`.  Every call
returns, and afterwards the walk from `pending_sync` visits exactly the
entries `L` that the sequence leaves, which are pairwise distinct; `nb_sync`
is their number, `pending_sync_end` is the last of them (`NULL` exactly when
there is none), and each queued surface carries its handle, which is not
zero. -/
theorem sync_queue_invariant (q : QSVDecContext) (L0 L : List (Nat × Nat))
    (ops : List SyncOp) (h0 : QueueIs q L0) (hz0 : ∀ x ∈ L0, x.2 ≠ 0)
    (hpool : ∀ s h, SyncOp.put s h ∈ ops → (surf_at q s).isSome = true)
    (hnz : ∀ s h, SyncOp.put s h ∈ ops → h ≠ 0)
    (hq : queue_after L0 ops = some L) :
    ∃ q', sync_ops q ops = .ok q' ∧
      SChain (nx q') q'.pending_sync (L.map Prod.fst) none ∧ (L.map Prod.fst).Nodup ∧
      q'.nb_sync = (L.length : Int) ∧
      q'.pending_sync_end = (L.map Prod.fst).getLast? ∧
      (q'.pending_sync_end = none ↔ L = []) ∧
      ∀ x ∈ L, ∃ n, surf_at q' x.1 = some n ∧ n.sync = x.2 ∧ n.sync ≠ 0 := by
  obtain ⟨q', h1, i1⟩ := sync_ops_queue ops q L0 L h0 hpool hq
  have hz := queue_after_handles ops L0 L hq hz0 hnz
  obtain ⟨k1, k2, k3, k4, k5⟩ := i1
  refine ⟨q', h1, k1, k2, k4, k5, ?_, ?_⟩
  · rw [k5]
    cases L with
    | nil => simp
    | cons x rest =>
      simp only [List.map_cons, reduceCtorEq, iff_false]
      intro hc
      have := List.getLast?_eq_none_iff.1 hc
      cases this
  · intro x hx
    obtain ⟨n, hn, hs⟩ := k3 x hx
    exact ⟨n, hn, hs, by rw [hs]; exact hz x hx⟩

theorem sync_queue_invariant_witness :
    ∃ q', sync_ops q_x3 ops_x = .ok q' ∧
      SChain (nx q') q'.pending_sync ([(0, 79), (1, 80)].map Prod.fst) none ∧
      ([(0, 79), (1, 80)].map Prod.fst).Nodup ∧
      q'.nb_sync = (([(0, 79), (1, 80)] : List (Nat × Nat)).length : Int) ∧
      q'.pending_sync_end = ([(0, 79), (1, 80)].map Prod.fst).getLast? ∧
      (q'.pending_sync_end = none ↔ ([(0, 79), (1, 80)] : List (Nat × Nat)) = []) ∧
      ∀ x ∈ ([(0, 79), (1, 80)] : List (Nat × Nat)),
        ∃ n, surf_at q' x.1 = some n ∧ n.sync = x.2 ∧ n.sync ≠ 0 :=
  sync_queue_invariant q_x3 [] [(0, 79), (1, 80)] ops_x (queueIs_empty rfl rfl rfl)
    (fun _ hx => by cases hx)
    (fun s h hm => by
      have hs : s = 0 ∨ s = 1 := by
        simp only [ops_x, List.mem_cons, SyncOp.put.injEq, reduceCtorEq, List.mem_nil_iff,
          or_false, false_or] at hm
        omega
      rcases hs with rfl | rfl <;> decide!)
    (fun s h hm => by
      simp only [ops_x, List.mem_cons, SyncOp.put.injEq, reduceCtorEq, List.mem_nil_iff,
        or_false, false_or] at hm
      omega)
    (by decide!)

/-- C25 (pending-input queue membership), refuted on the code: whenever
`ff_qsv_dec_flush` returns, every bitstream descriptor has been freed (no
address resolves in the pool any more) but `pending_dec` and
`pending_dec_end` keep their values; so when the queue was not empty its
entries are no longer members of the pool. -/
theorem flush_leaves_pending_queue (E : Int → Int) (r ret : Int) (q q' : QSVDecContext)
    (h : ff_qsv_dec_flush E r q = .ok (ret, q')) :
    q'.pending_dec = q.pending_dec ∧ q'.pending_dec_end = q.pending_dec_end ∧
      q'.bs_pool = [] ∧ ∀ a, bs_at q' a = none := by
  obtain ⟨_, hq'⟩ := flush_fields h
  have h1 : q'.pending_dec = q.pending_dec := by rw [hq']
  have h2 : q'.pending_dec_end = q.pending_dec_end := by rw [hq']
  have h3 : q'.bs_pool = [] := by rw [hq']
  refine ⟨h1, h2, h3, ?_⟩
  intro a
  unfold bs_at
  rw [h3]
  split <;> rfl

theorem flush_leaves_pending_queue_witness :
    feed_run ff_qsv_error q_x0 steps_o = .ok (rs_o, q_o3) ∧
    q_o3.pending_dec = some 1 ∧
    (q_of.pending_dec = q_o3.pending_dec ∧ q_of.pending_dec_end = q_o3.pending_dec_end ∧
      q_of.bs_pool = [] ∧ ∀ a, bs_at q_of a = none) :=
  ⟨by decide!, rfl, flush_leaves_pending_queue ff_qsv_error 0 0 q_o3 q_of (by decide!)⟩

/-- C26 (emitted frame metadata).  Whenever a feed call emits a frame, the
call reached the drain block with a sync queue whose head is a pool surface
`n` at address `a`, and: `get_dts` returned 0 and a decode timestamp `d` for
the timestamp of `n` (converted to `int64_t`); the frame has `pts` and
`pkt_pts` equal to that timestamp and `pkt_dts = d`; `repeat_pict` is 4, 2, 1
or 0 after the first of the flags frame-tripling, frame-doubling,
field-repeated that is set in the picture structure of `n`;
`top_field_first` is 1 exactly when the top-field-first flag is set and 0
otherwise; `interlaced_frame` is 1 exactly when the progressive flag is not
set and 0 otherwise; the sample aspect ratio is that of `n`; and after the
call the `sync` field of surface `a` is 0. -/
theorem emitted_frame_metadata (E : Int → Int) (env : FeedEnv) (q : QSVDecContext)
    (avpkt : AVPacket) (r : FeedResult) (q' : QSVDecContext)
    (h : ff_qsv_dec_frame E env q avpkt = .ok (r, q')) (hg : r.got_frame = 1) :
    ∃ st0 st q3 a n d f,
      feed_pre E env q avpkt = .ok (Sum.inr st0) ∧
      dec_loop avpkt.size env.iters st0 = .ok st ∧ feed_queue st = .ok q3 ∧
      q3.pending_sync = some a ∧ surf_at q3 a = some n ∧
      (get_dts q3 (toI64 n.TimeStamp)).map (fun x => (x.1, x.2.1)) = .ok (0, some d) ∧
      r.frame = some f ∧
      f.pts = toI64 n.TimeStamp ∧ f.pkt_pts = toI64 n.TimeStamp ∧ f.pkt_dts = d ∧
      f.repeat_pict =
        (if n.Info.PicStruct &&& MFX_PICSTRUCT_FRAME_TRIPLING ≠ 0 then 4
         else if n.Info.PicStruct &&& MFX_PICSTRUCT_FRAME_DOUBLING ≠ 0 then 2
         else if n.Info.PicStruct &&& MFX_PICSTRUCT_FIELD_REPEATED ≠ 0 then 1 else 0) ∧
      (f.top_field_first = 1 ↔ n.Info.PicStruct &&& MFX_PICSTRUCT_FIELD_TFF ≠ 0) ∧
      (f.top_field_first = 0 ∨ f.top_field_first = 1) ∧
      (f.interlaced_frame = 1 ↔ n.Info.PicStruct &&& MFX_PICSTRUCT_PROGRESSIVE = 0) ∧
      (f.interlaced_frame = 0 ∨ f.interlaced_frame = 1) ∧
      f.sample_aspect_ratio_num = n.Info.AspectRatioW ∧
      f.sample_aspect_ratio_den = n.Info.AspectRatioH ∧
      (surf_at q' a).map (·.sync) = some 0 := by
  unfold ff_qsv_dec_frame at h
  split at h
  · cases h
  · rename_i x hp
    cases h
    have := feed_pre_early_no_frame hp
    rw [hg] at this
    cases this
  · rename_i st0 hp
    split at h
    · cases h
    · rename_i st hl
      rw [feed_post_eq] at h
      split at h
      · cases h
      · rename_i q3 hq
        obtain ⟨a, n, d, e1, e2, e3, e4, e5⟩ := feed_drain_emit h hg
        refine ⟨st0, st, q3, a, n, d, frame_of n (toI64 n.TimeStamp) d, hp, hl, hq, e1, e2,
          e3, e4, rfl, rfl, rfl, rfl, ?_, ?_, ?_, ?_, rfl, rfl, e5⟩
        · simp only [frame_of]
          split <;> simp_all
        · simp only [frame_of]
          split
          · exact Or.inr rfl
          · exact Or.inl rfl
        · simp only [frame_of]
          split <;> simp_all
        · simp only [frame_of]
          split
          · exact Or.inl rfl
          · exact Or.inr rfl

theorem emitted_frame_metadata_witness :
    ∃ st0 st q3 a n d f,
      feed_pre ff_qsv_error env_e2 q_x2 (pkt_x 0 0 0) = .ok (Sum.inr st0) ∧
      dec_loop (pkt_x 0 0 0).size env_e2.iters st0 = .ok st ∧ feed_queue st = .ok q3 ∧
      q3.pending_sync = some a ∧ surf_at q3 a = some n ∧
      (get_dts q3 (toI64 n.TimeStamp)).map (fun x => (x.1, x.2.1)) = .ok (0, some d) ∧
      (⟨0, 1, some frame_x⟩ : FeedResult).frame = some f ∧
      f.pts = toI64 n.TimeStamp ∧ f.pkt_pts = toI64 n.TimeStamp ∧ f.pkt_dts = d ∧
      f.repeat_pict =
        (if n.Info.PicStruct &&& MFX_PICSTRUCT_FRAME_TRIPLING ≠ 0 then 4
         else if n.Info.PicStruct &&& MFX_PICSTRUCT_FRAME_DOUBLING ≠ 0 then 2
         else if n.Info.PicStruct &&& MFX_PICSTRUCT_FIELD_REPEATED ≠ 0 then 1 else 0) ∧
      (f.top_field_first = 1 ↔ n.Info.PicStruct &&& MFX_PICSTRUCT_FIELD_TFF ≠ 0) ∧
      (f.top_field_first = 0 ∨ f.top_field_first = 1) ∧
      (f.interlaced_frame = 1 ↔ n.Info.PicStruct &&& MFX_PICSTRUCT_PROGRESSIVE = 0) ∧
      (f.interlaced_frame = 0 ∨ f.interlaced_frame = 1) ∧
      f.sample_aspect_ratio_num = n.Info.AspectRatioW ∧
      f.sample_aspect_ratio_den = n.Info.AspectRatioH ∧
      (surf_at q_x3 a).map (·.sync) = some 0 :=
  emitted_frame_metadata ff_qsv_error env_e2 q_x2 (pkt_x 0 0 0) ⟨0, 1, some frame_x⟩ q_x3
    (by decide!) rfl

/-- C27 as stated fails in accelerator-assigned mode: with `ts_by_qsv` set
and `ts_cnt = 2`, binding a packet of 100 bytes with `pts = 10` succeeds and
leaves `MFX_TIMESTAMP_UNKNOWN` in the descriptor, not 10. -/
theorem binding_timestamp_unknown :
    (set_bitstream_data (some 1) q_b2 {} (pkt_x 100 10 5)).1 = 0 ∧
    (set_bitstream_data (some 1) q_b2 {} (pkt_x 100 10 5)).2.bs.TimeStamp
      = MFX_TIMESTAMP_UNKNOWN ∧
    toU64 (pkt_x 100 10 5).pts = 10 ∧ MFX_TIMESTAMP_UNKNOWN ≠ 10 := by
  refine ⟨?_, ?_, ?_, ?_⟩ <;> decide!

/-- C27 (descriptor binding), amended.  For every packet, context and
descriptor, after `set_bitstream_data` succeeds the data offset is 0 and the
length and the capacity both equal the packet size.  The timestamp is the
packet's presentation timestamp (converted to `mfxU64`) in externally-tracked
mode, and in accelerator-assigned mode when at most one packet has been
recorded (`ts_cnt <= 1`) and the timestamp is set; otherwise, in
accelerator-assigned mode, it is `MFX_TIMESTAMP_UNKNOWN`. -/
theorem descriptor_binding (pktRef : Option Nat) (q : QSVDecContext)
    (list : QSVDecBitstreamList) (pkt : AVPacket)
    (h : 0 ≤ (set_bitstream_data pktRef q list pkt).1) :
    (set_bitstream_data pktRef q list pkt).1 = 0 ∧
    (set_bitstream_data pktRef q list pkt).2.bs.DataOffset = 0 ∧
    (set_bitstream_data pktRef q list pkt).2.bs.DataLength = pkt.size ∧
    (set_bitstream_data pktRef q list pkt).2.bs.MaxLength = pkt.size ∧
    (q.ts_by_qsv = false →
      (set_bitstream_data pktRef q list pkt).2.bs.TimeStamp = toU64 pkt.pts) ∧
    (q.ts_by_qsv = true → q.ts_cnt ≤ 1 → pkt.pts ≠ AV_NOPTS_VALUE →
      (set_bitstream_data pktRef q list pkt).2.bs.TimeStamp = toU64 pkt.pts) ∧
    (q.ts_by_qsv = true → (1 < q.ts_cnt ∨ pkt.pts = AV_NOPTS_VALUE) →
      (set_bitstream_data pktRef q list pkt).2.bs.TimeStamp = MFX_TIMESTAMP_UNKNOWN) := by
  cases pktRef with
  | none => simp [set_bitstream_data, AVERROR_ENOMEM] at h
  | some d =>
    refine ⟨rfl, rfl, rfl, rfl, ?_, ?_, ?_⟩
    · intro hm
      simp [set_bitstream_data, hm]
    · intro hm hc hp
      have hc' : ¬ q.ts_cnt > 1 := by omega
      simp [set_bitstream_data, hm, hc', hp]
    · intro hm hc
      rcases hc with hc | hc
      · simp [set_bitstream_data, hm, hc]
      · simp [set_bitstream_data, hm, hc]

theorem descriptor_binding_witness :
    (set_bitstream_data (some 1) q_x1 {} (pkt_x 100 20 6)).1 = 0 ∧
    (set_bitstream_data (some 1) q_x1 {} (pkt_x 100 20 6)).2.bs.DataOffset = 0 ∧
    (set_bitstream_data (some 1) q_x1 {} (pkt_x 100 20 6)).2.bs.DataLength
      = (pkt_x 100 20 6).size ∧
    (set_bitstream_data (some 1) q_x1 {} (pkt_x 100 20 6)).2.bs.MaxLength
      = (pkt_x 100 20 6).size ∧
    (q_x1.ts_by_qsv = false →
      (set_bitstream_data (some 1) q_x1 {} (pkt_x 100 20 6)).2.bs.TimeStamp
        = toU64 (pkt_x 100 20 6).pts) ∧
    (q_x1.ts_by_qsv = true → q_x1.ts_cnt ≤ 1 → (pkt_x 100 20 6).pts ≠ AV_NOPTS_VALUE →
      (set_bitstream_data (some 1) q_x1 {} (pkt_x 100 20 6)).2.bs.TimeStamp
        = toU64 (pkt_x 100 20 6).pts) ∧
    (q_x1.ts_by_qsv = true → (1 < q_x1.ts_cnt ∨ (pkt_x 100 20 6).pts = AV_NOPTS_VALUE) →
      (set_bitstream_data (some 1) q_x1 {} (pkt_x 100 20 6)).2.bs.TimeStamp
        = MFX_TIMESTAMP_UNKNOWN) :=
  descriptor_binding (some 1) q_x1 {} (pkt_x 100 20 6) (by decide!)

end QSV
